import Mathlib

/-!
Verification development for the `safe_ecs` crate: a shallow embedding of the
archetype-based entity-component store in `src/safe_ecs/src/world.rs` and
`src/safe_ecs/src/entities.rs`, of the access analyzer in
`src/safe_ecs/src/system.rs` / `src/safe_ecs/src/query.rs`, and of the join
engine in `src/safe_ecs/src/column_join.rs`.

Rust `usize` values (entity indices, archetype indices, column indices,
`EcsTypeId`s) are modelled as `Nat`; component values of arbitrary Rust types
are modelled by a type parameter `α`; `HashMap`s are modelled as association
lists with unique keys; `Vec` as `List`.
-/

set_option maxHeartbeats 1000000

namespace SafeEcs

/-! ### Association-list helpers (model of `HashMap`) -/

/-- Lookup in an association list, model of `HashMap::get`. -/
def alookup (k : Nat) : List (Nat × β) → Option β
  | [] => none
  | (k₁, v) :: r => if k₁ = k then some v else alookup k r

/-- Lookup with a default, convenience wrapper over `alookup`. -/
def alookupD (k : Nat) (l : List (Nat × β)) (d : β) : β :=
  (alookup k l).getD d

/-- Insert-or-replace in an association list, model of `HashMap::insert` and
of writing through `HashMap::get_mut`. -/
def aset (k : Nat) (v : β) : List (Nat × β) → List (Nat × β)
  | [] => [(k, v)]
  | (k₁, v₁) :: r => if k₁ = k then (k, v) :: r else (k₁, v₁) :: aset k v r

/-- The key list of an association list, model of `HashMap::keys`. -/
def akeys (l : List (Nat × β)) : List Nat := l.map Prod.fst

@[simp] theorem alookup_nil {β : Type _} (k : Nat) :
    alookup k ([] : List (Nat × β)) = none := rfl

theorem alookup_cons {β : Type _} (k k₁ : Nat) (v : β) (r : List (Nat × β)) :
    alookup k ((k₁, v) :: r) = if k₁ = k then some v else alookup k r := rfl

@[simp] theorem akeys_nil {β : Type _} : akeys ([] : List (Nat × β)) = [] := rfl

@[simp] theorem akeys_cons {β : Type _} (p : Nat × β) (l : List (Nat × β)) :
    akeys (p :: l) = p.1 :: akeys l := rfl

theorem alookup_aset_self {β : Type _} (k : Nat) (v : β) (l : List (Nat × β)) :
    alookup k (aset k v l) = some v := by
  induction l with
  | nil => simp [aset, alookup]
  | cons hd tl ih =>
    obtain ⟨k₁, v₁⟩ := hd
    by_cases h : k₁ = k <;> simp [aset, alookup, h, ih]

theorem alookup_aset_ne {β : Type _} {k k₂ : Nat} (v : β) (l : List (Nat × β))
    (h : k ≠ k₂) : alookup k₂ (aset k v l) = alookup k₂ l := by
  induction l with
  | nil => simp [aset, alookup, h]
  | cons hd tl ih =>
    obtain ⟨k₁, v₁⟩ := hd
    by_cases h₁ : k₁ = k
    · subst h₁
      simp [aset, alookup, h]
    · simp [aset, alookup, h₁, ih]

theorem akeys_aset {β : Type _} (k : Nat) (v : β) (l : List (Nat × β)) :
    akeys (aset k v l) = if k ∈ akeys l then akeys l else akeys l ++ [k] := by
  induction l with
  | nil => simp [aset]
  | cons hd tl ih =>
    obtain ⟨k₁, v₁⟩ := hd
    by_cases h : k₁ = k
    · subst h
      simp [aset]
    · rw [show aset k v ((k₁, v₁) :: tl) = (k₁, v₁) :: aset k v tl by simp [aset, h]]
      rw [akeys_cons, akeys_cons, ih]
      have hk : ¬ k = k₁ := fun e => h e.symm
      by_cases hm : k ∈ akeys tl
      · rw [if_pos hm, if_pos (List.mem_cons.mpr (Or.inr hm))]
      · rw [if_neg hm, if_neg (by rw [List.mem_cons]; rintro (e | e) <;> [exact hk e; exact hm e])]
        rfl

theorem mem_akeys_of_alookup {β : Type _} {k : Nat} {v : β} {l : List (Nat × β)}
    (h : alookup k l = some v) : k ∈ akeys l := by
  induction l with
  | nil => simp [alookup] at h
  | cons hd tl ih =>
    obtain ⟨k₁, v₁⟩ := hd
    rw [alookup_cons] at h
    by_cases h₁ : k₁ = k
    · subst h₁
      exact List.mem_cons_self _ _
    · rw [if_neg h₁] at h
      exact List.mem_cons_of_mem _ (ih h)

theorem alookup_eq_none_of_not_mem {β : Type _} {k : Nat} {l : List (Nat × β)}
    (h : k ∉ akeys l) : alookup k l = none := by
  induction l with
  | nil => rfl
  | cons hd tl ih =>
    obtain ⟨k₁, v₁⟩ := hd
    rw [akeys_cons, List.mem_cons] at h
    push_neg at h
    rw [alookup_cons, if_neg (fun e => h.1 e.symm)]
    exact ih h.2

theorem alookup_isSome_of_mem {β : Type _} {k : Nat} {l : List (Nat × β)}
    (h : k ∈ akeys l) : (alookup k l).isSome = true := by
  induction l with
  | nil => simp at h
  | cons hd tl ih =>
    obtain ⟨k₁, v₁⟩ := hd
    rw [akeys_cons, List.mem_cons] at h
    by_cases h₁ : k₁ = k
    · simp [alookup_cons, h₁]
    · rw [alookup_cons, if_neg h₁]
      exact ih (h.resolve_left (fun e => h₁ e.symm))

theorem alookup_isSome_iff_mem_akeys {β : Type _} (k : Nat) (l : List (Nat × β)) :
    (alookup k l).isSome = true ↔ k ∈ akeys l := by
  constructor
  · intro h
    obtain ⟨v, hv⟩ := Option.isSome_iff_exists.mp h
    exact mem_akeys_of_alookup hv
  · exact alookup_isSome_of_mem

theorem mem_of_alookup_some {β : Type _} {k : Nat} {v : β} {l : List (Nat × β)}
    (h : alookup k l = some v) : (k, v) ∈ l := by
  induction l with
  | nil => simp [alookup] at h
  | cons hd tl ih =>
    obtain ⟨k₁, v₁⟩ := hd
    rw [alookup_cons] at h
    by_cases h₁ : k₁ = k
    · rw [if_pos h₁] at h
      subst h₁
      obtain rfl := Option.some.inj h
      exact List.mem_cons_self _ _
    · rw [if_neg h₁] at h
      exact List.mem_cons_of_mem _ (ih h)

theorem alookup_of_mem_nodup {β : Type _} {k : Nat} {v : β} {l : List (Nat × β)}
    (hnd : (akeys l).Nodup) (h : (k, v) ∈ l) : alookup k l = some v := by
  induction l with
  | nil => simp at h
  | cons hd tl ih =>
    obtain ⟨k₁, v₁⟩ := hd
    rw [akeys_cons] at hnd
    have hnd₁ := List.nodup_cons.mp hnd
    rcases List.mem_cons.mp h with heq | hmem
    · rw [Prod.mk.injEq] at heq
      obtain ⟨rfl, rfl⟩ := heq
      simp [alookup_cons]
    · have hk : ¬ k₁ = k := by
        intro e
        subst e
        have hmem₂ : (k₁ : Nat) ∈ akeys tl := List.mem_map_of_mem Prod.fst hmem
        exact hnd₁.1 hmem₂
      rw [alookup_cons, if_neg hk]
      exact ih hnd₁.2 hmem

/-! ### `Vec::swap_remove` and `Vec::resize` -/

/-- Model of `Vec::swap_remove(i)`: replace the `i`-th element by the last one
and pop. (On `i = length - 1` this is just a pop; callers in the source only
invoke it with `i < length`.) -/
def listSwapRemove (l : List α) (i : Nat) : List α :=
  match l.getLast? with
  | none => l
  | some last => l.dropLast.set i last

/-- Model of `Vec::resize(n, v)`. -/
def listResize (l : List α) (n : Nat) (v : α) : List α :=
  l.take n ++ List.replicate (n - l.length) v

theorem listResize_of_le {l : List α} {n : Nat} (v : α) (h : l.length ≤ n) :
    listResize l n v = l ++ List.replicate (n - l.length) v := by
  simp [listResize, List.take_of_length_le h]

theorem length_listSwapRemove {l : List α} {i : Nat} (h : i < l.length) :
    (listSwapRemove l i).length = l.length - 1 := by
  have hne : l ≠ [] := by rintro rfl; simp at h
  simp [listSwapRemove, List.getLast?_eq_getLast l hne, List.length_dropLast]

theorem listSwapRemove_concat (l₁ : List α) (a : α) (i : Nat) :
    listSwapRemove (l₁ ++ [a]) i = l₁.set i a := by
  simp only [listSwapRemove, List.getLast?_concat, List.dropLast_concat]

/-- `swap_remove i` is a permutation of `eraseIdx i`. -/
theorem listSwapRemove_perm {l : List α} {i : Nat} (h : i < l.length) :
    (listSwapRemove l i).Perm (l.eraseIdx i) := by
  rcases l.eq_nil_or_concat with rfl | ⟨l₁, a, rfl⟩
  · simp at h
  · rw [List.concat_eq_append] at h ⊢
    rw [listSwapRemove_concat]
    rcases Nat.lt_or_ge i l₁.length with hi | hi
    · rw [List.eraseIdx_append_of_lt_length hi]
      rw [List.set_eq_take_cons_drop a hi]
      rw [List.eraseIdx_eq_take_drop_succ]
      have h₁ : (l₁.take i ++ a :: l₁.drop (i + 1)).Perm
          (a :: (l₁.take i ++ l₁.drop (i + 1))) := List.perm_middle
      have h₂ : ((l₁.take i ++ l₁.drop (i + 1)) ++ [a]).Perm
          (a :: (l₁.take i ++ l₁.drop (i + 1))) := List.perm_append_singleton a _
      exact h₁.trans h₂.symm
    · have hil : i = l₁.length := by
        rw [List.length_append, List.length_cons, List.length_nil] at h
        omega
      subst hil
      rw [List.set_eq_of_length_le (Nat.le_refl _)]
      rw [List.eraseIdx_append_of_length_le (Nat.le_refl _)]
      simp [List.eraseIdx]

theorem mem_listSwapRemove_of_mem {l : List α} {i : Nat} {x : α}
    (h : i < l.length) (hx : x ∈ listSwapRemove l i) : x ∈ l :=
  List.mem_of_mem_eraseIdx ((listSwapRemove_perm h).mem_iff.mp hx)

theorem nodup_listSwapRemove {l : List α} {i : Nat} (h : i < l.length)
    (hnd : l.Nodup) : (listSwapRemove l i).Nodup :=
  ((listSwapRemove_perm h).nodup_iff).mpr (List.Nodup.eraseIdx i hnd)

theorem not_mem_listSwapRemove {l : List α} {i : Nat} {x : α}
    (hnd : l.Nodup) (hi : i < l.length) (hget : l.get ⟨i, hi⟩ = x) :
    x ∉ listSwapRemove l i := by
  intro hmem
  have hmem₂ := (listSwapRemove_perm hi).mem_iff.mp hmem
  obtain ⟨j, hj, hne, hjx⟩ := List.mem_eraseIdx_iff_getElem.mp hmem₂
  apply hne
  have : l[j] = l[i] := by
    rw [hjx]
    rw [← hget]
    rfl
  exact (List.Nodup.getElem_inj_iff hnd).mp this

theorem mem_listSwapRemove_of_ne {l : List α} {i : Nat} {x y : α}
    (h : i < l.length) (hget : l.get ⟨i, h⟩ = y) (hx : x ∈ l) (hxy : x ≠ y) :
    x ∈ listSwapRemove l i := by
  rw [(listSwapRemove_perm h).mem_iff]
  rw [List.mem_eraseIdx_iff_getElem]
  obtain ⟨j, hj, hjx⟩ := List.getElem_of_mem hx
  refine ⟨j, hj, ?_, hjx⟩
  rintro rfl
  apply hxy
  rw [← hjx, ← hget]
  rfl

/-! ### Entities (src/safe_ecs/src/entities.rs) -/

/-- `Entity(pub(crate) usize)`. -/
structure Entity where
  id : Nat
deriving DecidableEq, Repr

/-- `EntityMeta { archetype: usize }`. -/
structure EntityMeta where
  archetype : Nat
deriving DecidableEq, Repr

/-- `Entities { len: AtomicUsize, meta: Vec<Option<EntityMeta>> }`. -/
structure Entities where
  len : Nat
  meta : List (Option EntityMeta)
deriving DecidableEq, Repr

namespace Entities

def new : Entities := ⟨0, []⟩

/-- `Entities::reserve_entity`: hand out index `len` and bump the counter. -/
def reserveEntity (es : Entities) : Entity × Entities :=
  (⟨es.len⟩, { es with len := es.len + 1 })

/-- `Entities::fix_reserved_entities`: the list of entities reserved since the
last fix-up (indices `meta.len() .. len`), in the order the callback receives
them, together with the state after `meta.resize(len, Some(EntityMeta {
archetype: 0 }))`. -/
def fixReservedEntities (es : Entities) : List Entity × Entities :=
  ((List.range' es.meta.length (es.len - es.meta.length)).map Entity.mk,
   { es with meta := listResize es.meta es.len (some ⟨0⟩) })

/-- `Entities::is_alive`. -/
def isAlive (es : Entities) (e : Entity) : Bool :=
  match es.meta.get? e.id with
  | some (some _) => true
  | _ => false

/-- `Entities::meta`. -/
def metaGet (es : Entities) (e : Entity) : Option EntityMeta :=
  (es.meta.get? e.id).bind id

/-- Writing through `Entities::meta_mut(entity).unwrap()`. -/
def setMeta (es : Entities) (e : Entity) (m : EntityMeta) : Entities :=
  { es with meta := es.meta.set e.id (some m) }

/-- The `meta[entity.0] = None` write of `NoReservedEntities::despawn`. -/
def clearMeta (es : Entities) (e : Entity) : Entities :=
  { es with meta := es.meta.set e.id none }

end Entities

/-! ### World (src/safe_ecs/src/world.rs) -/

/-- `Archetype { entities: Vec<Entity>, column_indices: HashMap<EcsTypeId,
usize> }`. -/
structure Archetype where
  entities : List Entity
  column_indices : List (Nat × Nat)
deriving DecidableEq, Repr

/-- `Archetype::get_entity_idx`. -/
def Archetype.getEntityIdx (a : Archetype) (e : Entity) : Option Nat :=
  a.entities.findIdx? (fun x => x = e)

/-- `World`, with component values of type `α` and Rust `TypeId`s modelled as
`Nat` keys of `ecs_type_ids`. `columns` maps each `EcsTypeId` to its
`Vec<Box<dyn Storage>>` (a list of columns, each a list of cells). -/
structure World (α : Type) where
  entities : Entities
  archetypes : List Archetype
  columns : List (Nat × List (List α))
  next_ecs_type_id : Nat
  ecs_type_ids : List (Nat × Nat)
deriving DecidableEq, Repr

namespace World

variable {α : Type}

/-- `World::new`. -/
def new : World α :=
  { entities := Entities.new
    archetypes := [⟨[], []⟩]
    columns := []
    next_ecs_type_id := 0
    ecs_type_ids := [] }

/-- Archetype at index `i` (source code indexes `self.archetypes[i]` only at
in-bounds indices). -/
def getArch (w : World α) (i : Nat) : Archetype :=
  w.archetypes.getD i ⟨[], []⟩

/-- The `Vec<Box<dyn Storage>>` registered for an `EcsTypeId` (source code
indexes `self.columns[&ty]` only at present keys). -/
def getStorages (w : World α) (ty : Nat) : List (List α) :=
  (alookup ty w.columns).getD []

/-- `World::type_to_ecs_type_id`. -/
def typeToEcsTypeId (w : World α) (τ : Nat) : Option Nat :=
  alookup τ w.ecs_type_ids

/-- `World::new_static_ecs_type_id`: `None` when the `TypeId` is already
registered (`try_insert` fails), otherwise allocates the next dense id and
creates the column family with one empty prototype storage. -/
def newStaticEcsTypeId (w : World α) (τ : Nat) : Option (Nat × World α) :=
  match alookup τ w.ecs_type_ids with
  | some _ => none
  | none =>
    let tyId := w.next_ecs_type_id
    some (tyId, { w with
      ecs_type_ids := aset τ tyId w.ecs_type_ids
      next_ecs_type_id := tyId + 1
      columns := aset tyId [[]] w.columns })

/-- `World::type_to_ecs_type_id_or_create`. -/
def typeToEcsTypeIdOrCreate (w : World α) (τ : Nat) : Nat × World α :=
  match alookup τ w.ecs_type_ids with
  | some tyId => (tyId, w)
  | none =>
    let tyId := w.next_ecs_type_id
    (tyId, { w with
      ecs_type_ids := aset τ tyId w.ecs_type_ids
      next_ecs_type_id := tyId + 1
      columns := aset tyId [[]] w.columns })

/-- `World::new_dynamic_ecs_type_id` (the layout plays no role in the model). -/
def newDynamicEcsTypeId (w : World α) : Nat × World α :=
  (w.next_ecs_type_id, { w with
    next_ecs_type_id := w.next_ecs_type_id + 1
    columns := aset w.next_ecs_type_id [[]] w.columns })

/-- `World::is_alive`. -/
def isAlive (w : World α) (e : Entity) : Bool :=
  w.entities.isAlive e

/-- Push freshly fixed-up reserved entities into archetype 0 (the closure
passed to `fix_reserved_entities` by `spawn` and `despawn`). -/
def fixReserved (w : World α) : World α :=
  let fixed := (w.entities.fixReservedEntities).1
  let es := (w.entities.fixReservedEntities).2
  let arch0 := w.getArch 0
  { w with
    entities := es
    archetypes := w.archetypes.set 0 { arch0 with entities := arch0.entities ++ fixed } }

/-- `World::spawn` (only the freshly created `Entity` of the returned
`EntityBuilder` matters). -/
def spawn (w : World α) : Entity × World α :=
  let e := (w.entities.reserveEntity).1
  let w₁ : World α := { w with entities := (w.entities.reserveEntity).2 }
  (e, w₁.fixReserved)

/-- The `for (ty_id, column_idx) in archetype.column_indices` column-update
loops of `despawn`, `move_entity_from_insert` and `move_entity_from_remove`:
each iteration reads one type id's storage vector out of the columns map,
updates it (`F` returning `none` models a loop body that panics in the
source and so is never reached on valid states), and writes it back. -/
def colsUpdate (F : Nat → Nat → List (List α) → Option (List (List α)))
    (ci : List (Nat × Nat)) (cols : List (Nat × List (List α))) :
    List (Nat × List (List α)) :=
  ci.foldl
    (fun cols tc =>
      match F tc.1 tc.2 (alookupD tc.1 cols []) with
      | none => cols
      | some sts => aset tc.1 sts cols)
    cols

/-- `World::despawn`. -/
def despawn (w : World α) (e : Entity) : World α :=
  let w₁ := w.fixReserved
  if w₁.entities.isAlive e then
    match w₁.entities.metaGet e with
    | none => w₁
    | some m =>
      let arch := w₁.getArch m.archetype
      match arch.getEntityIdx e with
      | none => w₁
      | some entityIdx =>
        let arch₁ := { arch with entities := listSwapRemove arch.entities entityIdx }
        let cols := colsUpdate
          (fun _ col sts => some (sts.set col (listSwapRemove (sts.getD col []) entityIdx)))
          arch.column_indices w₁.columns
        { w₁ with
          archetypes := w₁.archetypes.set m.archetype arch₁
          columns := cols
          entities := w₁.entities.clearMeta e }
  else w₁

/-- `World::has_component_dynamic`. -/
def hasComponentDynamic (w : World α) (e : Entity) (tyId : Nat) : Option Bool :=
  match w.entities.metaGet e with
  | none => none
  | some m => some (alookup tyId (w.getArch m.archetype).column_indices).isSome

/-- `World::get_component` / `get_component_dynamic`, keyed directly by
`EcsTypeId` and returning the cell value. -/
def getComponent (w : World α) (e : Entity) (tyId : Nat) : Option α :=
  match w.hasComponentDynamic e tyId with
  | none => none
  | some false => none
  | some true =>
    match w.entities.metaGet e with
    | none => none
    | some m =>
      let arch := w.getArch m.archetype
      match arch.getEntityIdx e with
      | none => none
      | some entityIdx =>
        match alookup tyId arch.column_indices with
        | none => none
        | some colIdx => ((w.getStorages tyId).getD colIdx []).get? entityIdx

/-- Overwriting the cell found by `get_component_mut` (the
`std::mem::replace(&mut *old_component, component)` path of
`insert_component`). -/
def setComponentCell (w : World α) (e : Entity) (tyId : Nat) (v : α) : World α :=
  match w.entities.metaGet e with
  | none => w
  | some m =>
    let arch := w.getArch m.archetype
    match arch.getEntityIdx e with
    | none => w
    | some entityIdx =>
      match alookup tyId arch.column_indices with
      | none => w
      | some colIdx =>
        let sts := w.getStorages tyId
        let cols := aset tyId (sts.set colIdx ((sts.getD colIdx []).set entityIdx v)) w.columns
        { w with columns := cols }

/-- `keysetMatches ci ids` is the per-archetype predicate of
`World::find_archetype_from_ids`: the column-index map has the same number of
keys as `ids` and every key is contained in `ids`. -/
def keysetMatches (ci : List (Nat × Nat)) (ids : List Nat) : Bool :=
  ci.length == ids.length && ci.all (fun kv => ids.contains kv.1)

/-- `World::find_archetype_from_ids`. -/
def findArchetypeFromIds (w : World α) (ids : List Nat) : Option Nat :=
  w.archetypes.findIdx? (fun a => keysetMatches a.column_indices ids)

/-- The storage-appending loop of `World::push_archetype`: for each type id in
order, push one fresh empty column onto that id's storage vector and record
the index it lands at. Returns the built `column_indices` and the updated
columns map. -/
def pushStorages (cols : List (Nat × List (List α))) :
    List Nat → List (Nat × Nat) × List (Nat × List (List α))
  | [] => ([], cols)
  | ty :: rest =>
    let sts := (alookup ty cols).getD []
    let cols₁ := aset ty (sts ++ [[]]) cols
    let (ci, cols₂) := pushStorages cols₁ rest
    ((ty, sts.length) :: ci, cols₂)

/-- `World::push_archetype`: append a new archetype with no entities whose
columns are freshly pushed empty storages; returns its index. -/
def pushArchetype (w : World α) (typeIds : List Nat) : Nat × World α :=
  let (ci, cols) := pushStorages w.columns typeIds
  (w.archetypes.length,
   { w with archetypes := w.archetypes ++ [⟨[], ci⟩], columns := cols })

/-- `World::get_or_insert_archetype_from_insert`. -/
def getOrInsertArchetypeFromInsert (w : World α) (src : Nat) (insertedId : Nat) :
    Nat × World α :=
  let newTypeIds := akeys (w.getArch src).column_indices ++ [insertedId]
  match w.findArchetypeFromIds newTypeIds with
  | some i => (i, w)
  | none => w.pushArchetype newTypeIds

/-- `World::get_or_insert_archetype_from_remove`. -/
def getOrInsertArchetypeFromRemove (w : World α) (src : Nat) (removedId : Nat) :
    Nat × World α :=
  let newTypeIds := (akeys (w.getArch src).column_indices).filter (fun ty => ty ≠ removedId)
  match w.findArchetypeFromIds newTypeIds with
  | some i => (i, w)
  | none => w.pushArchetype newTypeIds

/-- One per-type step of the row-migration loops of
`move_entity_from_insert`/`move_entity_from_remove`: swap-remove the cell at
`entityIdx` from the old column and push it onto the new column
(`Storage::swap_remove_move_to`). -/
def moveCellStep (entityIdx oldCol newCol : Nat) (sts : List (List α)) :
    List (List α) :=
  match (sts.getD oldCol []).get? entityIdx with
  | none => sts
  | some cell =>
    let sts₁ := sts.set oldCol (listSwapRemove (sts.getD oldCol []) entityIdx)
    sts₁.set newCol ((sts₁.getD newCol []) ++ [cell])

/-- `World::move_entity_from_insert`: `None` when the entity is dead;
otherwise returns the destination archetype index and the updated world (the
caller still has to push the inserted component's own cell). -/
def moveEntityFromInsert (w : World α) (e : Entity) (insertedId : Nat) :
    Option (Nat × World α) :=
  if w.isAlive e = false then none else
  match w.entities.metaGet e with
  | none => none
  | some m =>
    let srcId := m.archetype
    let destId := (w.getOrInsertArchetypeFromInsert srcId insertedId).1
    let w₁ := (w.getOrInsertArchetypeFromInsert srcId insertedId).2
    let w₂ : World α := { w₁ with entities := w₁.entities.setMeta e ⟨destId⟩ }
    let srcArch := w₂.getArch srcId
    let destCi := (w₂.getArch destId).column_indices
    match srcArch.getEntityIdx e with
    | none => none
    | some entityIdx =>
      let srcArch₁ := { srcArch with entities := listSwapRemove srcArch.entities entityIdx }
      let cols := colsUpdate
        (fun ty oldCol sts =>
          match alookup ty destCi with
          | none => none
          | some newCol => some (moveCellStep entityIdx oldCol newCol sts))
        srcArch.column_indices w₂.columns
      let w₃ : World α := { w₂ with
        archetypes := w₂.archetypes.set srcId srcArch₁
        columns := cols }
      let destArch := w₃.getArch destId
      some (destId, { w₃ with
        archetypes := w₃.archetypes.set destId
          { destArch with entities := destArch.entities ++ [e] } })

/-- `World::move_entity_from_remove`: `None` when the entity is dead;
otherwise returns the entity's old row index, the old archetype index and the
updated world (the caller still has to swap-remove the removed component's own
cell out of the old archetype's column). -/
def moveEntityFromRemove (w : World α) (e : Entity) (removedId : Nat) :
    Option (Nat × Nat × World α) :=
  if w.isAlive e = false then none else
  match w.entities.metaGet e with
  | none => none
  | some m =>
    let srcId := m.archetype
    let destId := (w.getOrInsertArchetypeFromRemove srcId removedId).1
    let w₁ := (w.getOrInsertArchetypeFromRemove srcId removedId).2
    let w₂ : World α := { w₁ with entities := w₁.entities.setMeta e ⟨destId⟩ }
    let srcArch := w₂.getArch srcId
    let destCi := (w₂.getArch destId).column_indices
    match srcArch.getEntityIdx e with
    | none => none
    | some entityIdx =>
      let srcArch₁ := { srcArch with entities := listSwapRemove srcArch.entities entityIdx }
      let cols := colsUpdate
        (fun ty newCol sts =>
          match alookup ty srcArch.column_indices with
          | none => none
          | some oldCol => some (moveCellStep entityIdx oldCol newCol sts))
        destCi w₂.columns
      let w₃ : World α := { w₂ with
        archetypes := w₂.archetypes.set srcId srcArch₁
        columns := cols }
      let destArch := w₃.getArch destId
      some (entityIdx, srcId, { w₃ with
        archetypes := w₃.archetypes.set destId
          { destArch with entities := destArch.entities ++ [e] } })

/-- `World::insert_component::<T>` for the component type whose `TypeId` is
`τ`: returns the previous value (if overwriting) and the updated world. -/
def insertComponent (w₀ : World α) (τ : Nat) (e : Entity) (v : α) :
    Option α × World α :=
  let tyId := (w₀.typeToEcsTypeIdOrCreate τ).1
  let w := (w₀.typeToEcsTypeIdOrCreate τ).2
  match w.getComponent e tyId with
  | some old => (some old, w.setComponentCell e tyId v)
  | none =>
    match w.moveEntityFromInsert e tyId with
    | none => (none, w)
    | some (destId, w₁) =>
      match alookup tyId (w₁.getArch destId).column_indices with
      | none => (none, w₁)
      | some colIdx =>
        let sts := w₁.getStorages tyId
        let cols := aset tyId (sts.set colIdx ((sts.getD colIdx []) ++ [v])) w₁.columns
        (none, { w₁ with columns := cols })

/-- `World::remove_component::<T>` for the component type whose `TypeId` is
`τ`: returns the removed value (if any) and the updated world. -/
def removeComponent (w : World α) (τ : Nat) (e : Entity) : Option α × World α :=
  match alookup τ w.ecs_type_ids with
  | none => (none, w)
  | some tyId =>
    match w.hasComponentDynamic e tyId with
    | none => (none, w)
    | some false => (none, w)
    | some true =>
      match w.moveEntityFromRemove e tyId with
      | none => (none, w)
      | some (entityIdx, srcId, w₁) =>
        match alookup tyId (w₁.getArch srcId).column_indices with
        | none => (none, w₁)
        | some colIdx =>
          let sts := w₁.getStorages tyId
          let cell := (sts.getD colIdx []).get? entityIdx
          let cols := aset tyId (sts.set colIdx (listSwapRemove (sts.getD colIdx []) entityIdx)) w₁.columns
          (cell, { w₁ with columns := cols })

end World

/-! ### Characterizing the column-update loops -/

namespace World

variable {α : Type}

theorem colsUpdate_cons {F : Nat → Nat → List (List α) → Option (List (List α))}
    (hd : Nat × Nat) (ci : List (Nat × Nat)) (cols : List (Nat × List (List α))) :
    colsUpdate F (hd :: ci) cols =
      colsUpdate F ci
        (match F hd.1 hd.2 (alookupD hd.1 cols []) with
          | none => cols
          | some sts => aset hd.1 sts cols) := rfl

theorem alookup_colsUpdate_not_mem {F : Nat → Nat → List (List α) → Option (List (List α))}
    {ci : List (Nat × Nat)} {cols : List (Nat × List (List α))} {k : Nat}
    (hk : k ∉ akeys ci) :
    alookup k (colsUpdate F ci cols) = alookup k cols := by
  induction ci generalizing cols with
  | nil => rfl
  | cons hd tl ih =>
    obtain ⟨k₁, c₁⟩ := hd
    rw [akeys_cons, List.mem_cons] at hk
    push_neg at hk
    rw [colsUpdate_cons]
    cases hF : F k₁ c₁ (alookupD k₁ cols []) with
    | none =>
      simp only [hF]
      exact ih hk.2
    | some sts =>
      simp only [hF]
      rw [ih hk.2]
      exact alookup_aset_ne sts cols (fun e => hk.1 e.symm)

theorem alookup_colsUpdate_mem {F : Nat → Nat → List (List α) → Option (List (List α))}
    {ci : List (Nat × Nat)} {cols : List (Nat × List (List α))} {k c : Nat}
    (hnd : (akeys ci).Nodup) (hmem : (k, c) ∈ ci) :
    alookup k (colsUpdate F ci cols) =
      match F k c (alookupD k cols []) with
      | none => alookup k cols
      | some sts => some sts := by
  induction ci generalizing cols with
  | nil => simp at hmem
  | cons hd tl ih =>
    obtain ⟨k₁, c₁⟩ := hd
    rw [akeys_cons] at hnd
    have hnd₁ := List.nodup_cons.mp hnd
    rw [colsUpdate_cons]
    rcases List.mem_cons.mp hmem with heq | hmem₂
    · rw [Prod.mk.injEq] at heq
      obtain ⟨rfl, rfl⟩ := heq
      cases hF : F k c (alookupD k cols []) with
      | none =>
        simp only [hF]
        exact alookup_colsUpdate_not_mem hnd₁.1
      | some sts =>
        simp only [hF]
        rw [alookup_colsUpdate_not_mem hnd₁.1]
        exact alookup_aset_self k sts cols
    · have hk : k₁ ≠ k := by
        intro e
        subst e
        have hmm : (k₁ : Nat) ∈ akeys tl := List.mem_map_of_mem Prod.fst hmem₂
        exact hnd₁.1 hmm
      cases hF : F k₁ c₁ (alookupD k₁ cols []) with
      | none =>
        simp only [hF]
        exact ih hnd₁.2 hmem₂
      | some sts =>
        simp only [hF]
        rw [ih hnd₁.2 hmem₂]
        rw [show alookupD k (aset k₁ sts cols) [] = alookupD k cols [] by
          simp [alookupD, alookup_aset_ne sts cols hk]]
        cases hF₂ : F k c (alookupD k cols []) with
        | none =>
          simp only [hF₂]
          exact alookup_aset_ne sts cols hk
        | some s₂ => simp only [hF₂]

/-! ### Small access lemmas -/

theorem getArch_eq_getElem {w : World α} {i : Nat} (h : i < w.archetypes.length) :
    w.getArch i = w.archetypes[i] := by
  simp [getArch, List.getD_eq_getElem?_getD, List.getElem?_eq_getElem h]

theorem getD_set_self {l : List β} {i : Nat} {x d : β} (h : i < l.length) :
    (l.set i x).getD i d = x := by
  simp [List.getD_eq_getElem?_getD, List.getElem?_set_self h]

theorem getD_set_ne {l : List β} {i j : Nat} {x d : β} (h : i ≠ j) :
    (l.set i x).getD j d = l.getD j d := by
  simp [List.getD_eq_getElem?_getD, List.getElem?_set_ne h]

/-- The `EcsTypeId` set of an archetype. -/
def keyset (a : Archetype) : Finset Nat := (akeys a.column_indices).toFinset

/-- The world invariant: everything `World`'s operations maintain about the
relationship between entity metadata, archetype membership, column-index maps
and column storage. -/
structure WInv (w : World α) : Prop where
  archNe : w.archetypes ≠ []
  arch0 : (w.getArch 0).column_indices = []
  metaLen : w.entities.meta.length ≤ w.entities.len
  metaLt : ∀ i m, w.entities.meta.get? i = some (some m) →
    m.archetype < w.archetypes.length
  memOfMeta : ∀ i m, w.entities.meta.get? i = some (some m) →
    Entity.mk i ∈ (w.getArch m.archetype).entities
  metaOfMem : ∀ a, a < w.archetypes.length → ∀ e ∈ (w.getArch a).entities,
    w.entities.meta.get? e.id = some (some ⟨a⟩)
  entNodup : ∀ a, (w.getArch a).entities.Nodup
  ciNodup : ∀ a, (akeys (w.getArch a).column_indices).Nodup
  aligned : ∀ a, a < w.archetypes.length → ∀ ty col,
    (ty, col) ∈ (w.getArch a).column_indices →
    col < (w.getStorages ty).length ∧
    ((w.getStorages ty).getD col []).length = (w.getArch a).entities.length
  colInj : ∀ a b, a < w.archetypes.length → b < w.archetypes.length → a ≠ b →
    ∀ ty ca cb, (ty, ca) ∈ (w.getArch a).column_indices →
    (ty, cb) ∈ (w.getArch b).column_indices → ca ≠ cb
  uniq : ∀ a b, a < w.archetypes.length → b < w.archetypes.length → a ≠ b →
    keyset (w.getArch a) ≠ keyset (w.getArch b)
  tyLtNext : ∀ ty, ty ∈ akeys w.columns → ty < w.next_ecs_type_id
  regCols : ∀ τ t, alookup τ w.ecs_type_ids = some t → t ∈ akeys w.columns

theorem winv_new : WInv (new : World α) := by
  constructor <;>
    simp [new, getArch, getStorages, Entities.new, keyset] <;>
    intro a <;>
    rcases a with _ | a <;>
    simp [List.getD]

/-! ### Effects of `fix_reserved_entities` -/

section FixReserved

variable {w : World α}

/-- The entities handed to the fix-up callback. -/
def fixedEnts (w : World α) : List Entity :=
  (w.entities.fixReservedEntities).1

theorem fixedEnts_def :
    fixedEnts w = (List.range' w.entities.meta.length
      (w.entities.len - w.entities.meta.length)).map Entity.mk := rfl

@[simp] theorem fixReserved_columns : w.fixReserved.columns = w.columns := rfl

@[simp] theorem fixReserved_tyids :
    w.fixReserved.ecs_type_ids = w.ecs_type_ids := rfl

@[simp] theorem fixReserved_next :
    w.fixReserved.next_ecs_type_id = w.next_ecs_type_id := rfl

@[simp] theorem fixReserved_len :
    w.fixReserved.entities.len = w.entities.len := rfl

@[simp] theorem fixReserved_getStorages (ty : Nat) :
    w.fixReserved.getStorages ty = w.getStorages ty := rfl

theorem fixReserved_meta (h : w.entities.meta.length ≤ w.entities.len) :
    w.fixReserved.entities.meta =
      w.entities.meta ++
        List.replicate (w.entities.len - w.entities.meta.length) (some ⟨0⟩) := by
  show listResize w.entities.meta w.entities.len (some ⟨0⟩) = _
  exact listResize_of_le _ h

theorem fixReserved_meta_length (h : w.entities.meta.length ≤ w.entities.len) :
    w.fixReserved.entities.meta.length = w.entities.len := by
  rw [fixReserved_meta h]
  simp
  omega

theorem fixReserved_meta_get_lt {i : Nat}
    (h : w.entities.meta.length ≤ w.entities.len) (hi : i < w.entities.meta.length) :
    w.fixReserved.entities.meta.get? i = w.entities.meta.get? i := by
  rw [fixReserved_meta h]
  simp only [List.get?_eq_getElem?]
  rw [List.getElem?_append_left hi]

theorem fixReserved_meta_get_new {i : Nat}
    (h : w.entities.meta.length ≤ w.entities.len)
    (h₁ : w.entities.meta.length ≤ i) (h₂ : i < w.entities.len) :
    w.fixReserved.entities.meta.get? i = some (some ⟨0⟩) := by
  rw [fixReserved_meta h]
  simp only [List.get?_eq_getElem?]
  rw [List.getElem?_append_right h₁]
  rw [List.getElem?_replicate]
  simp only [if_pos (by omega : i - w.entities.meta.length <
    w.entities.len - w.entities.meta.length)]

theorem fixReserved_meta_get_oob {i : Nat}
    (h : w.entities.meta.length ≤ w.entities.len) (h₂ : w.entities.len ≤ i) :
    w.fixReserved.entities.meta.get? i = none := by
  apply List.get?_len_le
  rw [fixReserved_meta_length h]
  exact h₂

theorem fixReserved_archetypes :
    w.fixReserved.archetypes =
      w.archetypes.set 0
        { w.getArch 0 with entities := (w.getArch 0).entities ++ fixedEnts w } := rfl

theorem fixReserved_archetypes_length :
    w.fixReserved.archetypes.length = w.archetypes.length := by
  rw [fixReserved_archetypes]
  exact List.length_set ..

theorem fixReserved_getArch_ne {a : Nat} (ha : a ≠ 0) :
    w.fixReserved.getArch a = w.getArch a := by
  rw [getArch, fixReserved_archetypes]
  rw [List.getD_eq_getElem?_getD, List.getElem?_set_ne (Ne.symm ha)]
  rw [getArch, List.getD_eq_getElem?_getD]

theorem fixReserved_getArch_zero (hne : w.archetypes ≠ []) :
    w.fixReserved.getArch 0 =
      { w.getArch 0 with entities := (w.getArch 0).entities ++ fixedEnts w } := by
  rw [getArch, fixReserved_archetypes]
  rw [List.getD_eq_getElem?_getD,
    List.getElem?_set_self (List.length_pos.mpr hne)]
  rfl

theorem mem_fixedEnts {e : Entity} :
    e ∈ fixedEnts w ↔
      w.entities.meta.length ≤ e.id ∧ e.id < w.entities.len := by
  rw [fixedEnts_def, List.mem_map]
  constructor
  · rintro ⟨i, hi, rfl⟩
    rw [List.mem_range'] at hi
    obtain ⟨j, hj, rfl⟩ := hi
    constructor <;> simp <;> omega
  · rintro ⟨h₁, h₂⟩
    refine ⟨e.id, ?_, rfl⟩
    rw [List.mem_range']
    exact ⟨e.id - w.entities.meta.length, by omega, by omega⟩

theorem nodup_fixedEnts : (fixedEnts w).Nodup := by
  rw [fixedEnts_def]
  apply List.Nodup.map
  · intro a b hab
    cases hab
    rfl
  · exact List.nodup_range' _ _

theorem winv_fixReserved (hinv : WInv w) : WInv w.fixReserved := by
  have hlen := hinv.metaLen
  have hlen₀ : 0 < w.archetypes.length := by
    cases h : w.archetypes with
    | nil => exact absurd h hinv.archNe
    | cons a l => simp
  have harchne : w.archetypes ≠ [] := hinv.archNe
  -- membership in the fixed-up archetype 0
  have hmem₀ : ∀ e, e ∈ (w.fixReserved.getArch 0).entities ↔
      (e ∈ (w.getArch 0).entities ∨ e ∈ fixedEnts w) := by
    intro e
    rw [fixReserved_getArch_zero harchne]
    exact List.mem_append
  refine ⟨?_, ?_, ?_, ?_, ?_, ?_, ?_, ?_, ?_, ?_, ?_, ?_, ?_⟩
  · rw [fixReserved_archetypes]
    intro h
    exact harchne (List.eq_nil_of_length_eq_zero (by
      have := congrArg List.length h
      simpa using this))
  · rw [fixReserved_getArch_zero harchne]
    exact hinv.arch0
  · rw [fixReserved_meta_length hlen, fixReserved_len]
  · intro i m hm
    rw [fixReserved_archetypes_length]
    rcases Nat.lt_or_ge i w.entities.meta.length with hi | hi
    · rw [fixReserved_meta_get_lt hlen hi] at hm
      exact hinv.metaLt i m hm
    · rcases Nat.lt_or_ge i w.entities.len with hi₂ | hi₂
      · rw [fixReserved_meta_get_new hlen hi hi₂] at hm
        obtain rfl := Option.some.inj (Option.some.inj hm)
        exact hlen₀
      · rw [fixReserved_meta_get_oob hlen hi₂] at hm
        exact Option.noConfusion hm
  · intro i m hm
    rcases Nat.lt_or_ge i w.entities.meta.length with hi | hi
    · rw [fixReserved_meta_get_lt hlen hi] at hm
      have hmem := hinv.memOfMeta i m hm
      by_cases h0 : m.archetype = 0
      · rw [h0] at hmem ⊢
        exact (hmem₀ _).mpr (Or.inl hmem)
      · rw [fixReserved_getArch_ne h0]
        exact hmem
    · rcases Nat.lt_or_ge i w.entities.len with hi₂ | hi₂
      · rw [fixReserved_meta_get_new hlen hi hi₂] at hm
        obtain rfl := Option.some.inj (Option.some.inj hm)
        exact (hmem₀ _).mpr (Or.inr (mem_fixedEnts.mpr ⟨hi, hi₂⟩))
      · rw [fixReserved_meta_get_oob hlen hi₂] at hm
        exact Option.noConfusion hm
  · intro a ha e he
    rw [fixReserved_archetypes_length] at ha
    by_cases h0 : a = 0
    · subst h0
      rcases (hmem₀ e).mp he with hold | hnew
      · rw [fixReserved_meta_get_lt hlen]
        · exact hinv.metaOfMem 0 ha e hold
        · have := hinv.metaOfMem 0 ha e hold
          by_contra hc
          rw [List.get?_len_le (by omega)] at this
          exact Option.noConfusion this
      · obtain ⟨h₁, h₂⟩ := mem_fixedEnts.mp hnew
        exact fixReserved_meta_get_new hlen h₁ h₂
    · rw [fixReserved_getArch_ne h0] at he
      have := hinv.metaOfMem a ha e he
      rw [fixReserved_meta_get_lt hlen]
      · exact this
      · by_contra hc
        rw [List.get?_len_le (by omega)] at this
        exact Option.noConfusion this
  · intro a
    by_cases h0 : a = 0
    · subst h0
      rcases Nat.lt_or_ge 0 w.archetypes.length with _ | h
      · rw [fixReserved_getArch_zero harchne]
        apply List.Nodup.append (hinv.entNodup 0) nodup_fixedEnts
        intro e he₁ he₂
        have hmeta := hinv.metaOfMem 0 hlen₀ e he₁
        obtain ⟨h₁, _⟩ := mem_fixedEnts.mp he₂
        have : e.id < w.entities.meta.length := by
          by_contra hc
          rw [List.get?_len_le (by omega)] at hmeta
          exact Option.noConfusion hmeta
        omega
      · omega
    · rw [fixReserved_getArch_ne h0]
      exact hinv.entNodup a
  · intro a
    by_cases h0 : a = 0
    · subst h0
      rw [fixReserved_getArch_zero harchne]
      exact hinv.ciNodup 0
    · rw [fixReserved_getArch_ne h0]
      exact hinv.ciNodup a
  · intro a ha ty col hmem
    rw [fixReserved_archetypes_length] at ha
    by_cases h0 : a = 0
    · subst h0
      rw [fixReserved_getArch_zero harchne] at hmem
      have : (ty, col) ∈ (w.getArch 0).column_indices := hmem
      rw [hinv.arch0] at this
      simp at this
    · rw [fixReserved_getArch_ne h0]
      rw [fixReserved_getArch_ne h0] at hmem
      exact hinv.aligned a ha ty col hmem
  · intro a b ha hb hab ty ca cb hca hcb
    rw [fixReserved_archetypes_length] at ha hb
    have hga : (w.fixReserved.getArch a).column_indices = (w.getArch a).column_indices := by
      by_cases h0 : a = 0
      · subst h0
        rw [fixReserved_getArch_zero harchne]
      · rw [fixReserved_getArch_ne h0]
    have hgb : (w.fixReserved.getArch b).column_indices = (w.getArch b).column_indices := by
      by_cases h0 : b = 0
      · subst h0
        rw [fixReserved_getArch_zero harchne]
      · rw [fixReserved_getArch_ne h0]
    rw [hga] at hca
    rw [hgb] at hcb
    exact hinv.colInj a b ha hb hab ty ca cb hca hcb
  · intro a b ha hb hab
    rw [fixReserved_archetypes_length] at ha hb
    have hga : (w.fixReserved.getArch a).column_indices = (w.getArch a).column_indices := by
      by_cases h0 : a = 0
      · subst h0
        rw [fixReserved_getArch_zero harchne]
      · rw [fixReserved_getArch_ne h0]
    have hgb : (w.fixReserved.getArch b).column_indices = (w.getArch b).column_indices := by
      by_cases h0 : b = 0
      · subst h0
        rw [fixReserved_getArch_zero harchne]
      · rw [fixReserved_getArch_ne h0]
    rw [keyset, keyset, hga, hgb]
    exact hinv.uniq a b ha hb hab
  · exact hinv.tyLtNext
  · exact hinv.regCols

end FixReserved

/-! ### `get_entity_idx` -/

section EntityIdx

theorem getEntityIdx_eq_some_iff {a : Archetype} {e : Entity} {i : Nat} :
    a.getEntityIdx e = some i ↔
      ∃ h : i < a.entities.length,
        a.entities[i] = e ∧ ∀ j (hj : j < i), a.entities.get ⟨j, by omega⟩ ≠ e := by
  rw [Archetype.getEntityIdx, List.findIdx?_eq_some_iff_getElem]
  constructor
  · rintro ⟨h, h₁, h₂⟩
    refine ⟨h, by simpa using h₁, fun j hj => by simpa using h₂ j hj⟩
  · rintro ⟨h, h₁, h₂⟩
    refine ⟨h, by simpa using h₁, fun j hj => by simpa using h₂ j hj⟩

theorem getEntityIdx_isSome_of_mem {a : Archetype} {e : Entity}
    (h : e ∈ a.entities) : ∃ i, a.getEntityIdx e = some i := by
  cases hfi : a.getEntityIdx e with
  | some i => exact ⟨i, rfl⟩
  | none =>
    rw [Archetype.getEntityIdx, List.findIdx?_eq_none_iff] at hfi
    have := hfi e h
    simp at this

theorem getEntityIdx_lt {a : Archetype} {e : Entity} {i : Nat}
    (h : a.getEntityIdx e = some i) : i < a.entities.length := by
  obtain ⟨hlt, _, _⟩ := getEntityIdx_eq_some_iff.mp h
  exact hlt

theorem getEntityIdx_getElem {a : Archetype} {e : Entity} {i : Nat}
    (h : a.getEntityIdx e = some i) :
    a.entities.get ⟨i, getEntityIdx_lt h⟩ = e := by
  obtain ⟨hlt, he, _⟩ := getEntityIdx_eq_some_iff.mp h
  exact he

theorem getEntityIdx_of_nodup {a : Archetype} {e : Entity} {i : Nat}
    (hnd : a.entities.Nodup) (hi : i < a.entities.length)
    (he : a.entities[i] = e) : a.getEntityIdx e = some i := by
  rw [getEntityIdx_eq_some_iff]
  refine ⟨hi, he, fun j hj hje => ?_⟩
  have h₂ : a.entities.get ⟨j, by omega⟩ = a.entities.get ⟨i, hi⟩ := hje.trans he.symm
  have h₃ := (List.Nodup.get_inj_iff hnd).mp h₂
  have h₄ : j = i := congrArg Fin.val h₃
  omega

end EntityIdx

/-! ### Keys of the columns map under the update loops -/

section ColsKeys

variable {w : World α}

theorem mem_akeys_aset {β : Type _} {k k₁ : Nat} {v : β} {l : List (Nat × β)}
    (h : k ∈ akeys l) : k ∈ akeys (aset k₁ v l) := by
  rw [akeys_aset]
  by_cases hm : k₁ ∈ akeys l
  · rw [if_pos hm]; exact h
  · rw [if_neg hm]; exact List.mem_append_left _ h

theorem mem_akeys_colsUpdate_of_mem
    {F : Nat → Nat → List (List α) → Option (List (List α))}
    {ci : List (Nat × Nat)} {cols : List (Nat × List (List α))} {ty : Nat}
    (h : ty ∈ akeys cols) : ty ∈ akeys (colsUpdate F ci cols) := by
  induction ci generalizing cols with
  | nil => exact h
  | cons hd tl ih =>
    rw [colsUpdate_cons]
    cases hF : F hd.1 hd.2 (alookupD hd.1 cols []) with
    | none => simp only [hF]; exact ih h
    | some sts => simp only [hF]; exact ih (mem_akeys_aset h)

theorem akeys_colsUpdate_subset
    {F : Nat → Nat → List (List α) → Option (List (List α))}
    {ci : List (Nat × Nat)} {cols : List (Nat × List (List α))} {ty : Nat}
    (h : ty ∈ akeys (colsUpdate F ci cols)) : ty ∈ akeys cols ∨ ty ∈ akeys ci := by
  induction ci generalizing cols with
  | nil => exact Or.inl h
  | cons hd tl ih =>
    rw [colsUpdate_cons] at h
    cases hF : F hd.1 hd.2 (alookupD hd.1 cols []) with
    | none =>
      rw [hF] at h
      rcases ih h with h₁ | h₁
      · exact Or.inl h₁
      · exact Or.inr (List.mem_cons_of_mem _ h₁)
    | some sts =>
      rw [hF] at h
      rcases ih h with h₁ | h₁
      · rw [akeys_aset] at h₁
        by_cases hm : hd.1 ∈ akeys cols
        · rw [if_pos hm] at h₁
          exact Or.inl h₁
        · rw [if_neg hm] at h₁
          rcases List.mem_append.mp h₁ with h₂ | h₂
          · exact Or.inl h₂
          · simp at h₂
            subst h₂
            exact Or.inr (List.mem_cons_self _ _)
      · exact Or.inr (List.mem_cons_of_mem _ h₁)

/-- Every type id appearing in a valid archetype's column map is a key of the
columns map. -/
theorem mem_columns_of_aligned (hinv : WInv w) {a : Nat} (ha : a < w.archetypes.length)
    {ty col : Nat} (hmem : (ty, col) ∈ (w.getArch a).column_indices) :
    ty ∈ akeys w.columns := by
  have := (hinv.aligned a ha ty col hmem).1
  by_contra hc
  rw [getStorages, alookup_eq_none_of_not_mem hc] at this
  simp at this

end ColsKeys

/-! ### `despawn`: invariant preservation and effects -/

section Despawn

variable {w : World α} {e : Entity}

/-- Unfolding of `despawn` in the live case. -/
theorem despawn_alive_eq {m : EntityMeta} {entityIdx : Nat}
    (halive : w.fixReserved.entities.isAlive e = true)
    (hmeta : w.fixReserved.entities.metaGet e = some m)
    (hidx : ((w.fixReserved.getArch m.archetype)).getEntityIdx e = some entityIdx) :
    w.despawn e =
      (let w₁ := w.fixReserved
       let arch := w₁.getArch m.archetype
       let arch₁ := { arch with entities := listSwapRemove arch.entities entityIdx }
       let cols := colsUpdate
         (fun _ col sts => some (sts.set col (listSwapRemove (sts.getD col []) entityIdx)))
         arch.column_indices w₁.columns
       { w₁ with
         archetypes := w₁.archetypes.set m.archetype arch₁
         columns := cols
         entities := w₁.entities.clearMeta e }) := by
  simp only [despawn, halive, if_true, hmeta, hidx]

theorem despawn_dead_eq (hdead : w.fixReserved.entities.isAlive e = false) :
    w.despawn e = w.fixReserved := by
  rw [despawn]
  rw [hdead]
  simp

theorem isAlive_iff_metaGet {es : Entities} {e : Entity} :
    es.isAlive e = true ↔ ∃ m, es.metaGet e = some m := by
  rw [Entities.isAlive, Entities.metaGet]
  cases h : es.meta.get? e.id with
  | none => simp
  | some o =>
    cases o with
    | none => simp
    | some m => simp

theorem metaGet_eq_some_iff {es : Entities} {e : Entity} {m : EntityMeta} :
    es.metaGet e = some m ↔ es.meta.get? e.id = some (some m) := by
  rw [Entities.metaGet]
  cases h : es.meta.get? e.id with
  | none => simp
  | some o => cases o <;> simp

theorem winv_despawn (hinv : WInv w) : WInv (w.despawn e) := by
  have hinv₁ := winv_fixReserved hinv
  set w₁ := w.fixReserved with hw₁
  cases halive : w₁.entities.isAlive e with
  | false => rw [despawn_dead_eq halive]; exact hinv₁
  | true =>
    obtain ⟨m, hmeta⟩ := isAlive_iff_metaGet.mp halive
    have hmget := metaGet_eq_some_iff.mp hmeta
    have harchLt : m.archetype < w₁.archetypes.length := hinv₁.metaLt _ _ hmget
    have hemem : e ∈ (w₁.getArch m.archetype).entities := by
      have := hinv₁.memOfMeta e.id m hmget
      exact this
    obtain ⟨entityIdx, hidx⟩ := getEntityIdx_isSome_of_mem hemem
    have hidxLt := getEntityIdx_lt hidx
    have hidxGet := getEntityIdx_getElem hidx
    rw [despawn_alive_eq halive hmeta hidx]
    set arch := w₁.getArch m.archetype with harch
    set arch₁ := { arch with entities := listSwapRemove arch.entities entityIdx }
      with harch₁
    set cols := colsUpdate
      (fun _ col sts => some (sts.set col (listSwapRemove (sts.getD col []) entityIdx)))
      arch.column_indices w₁.columns with hcols
    set w₂ : World α := { w₁ with
      archetypes := w₁.archetypes.set m.archetype arch₁
      columns := cols
      entities := w₁.entities.clearMeta e } with hw₂
    have heid : e.id < w₁.entities.meta.length := by
      by_contra hc
      rw [List.get?_len_le (by omega)] at hmget
      exact Option.noConfusion hmget
    have hids : ∀ x y : Entity, x.id = y.id → x = y := by
      intro x y hxy
      cases x
      cases y
      simpa using hxy
    have hndArch : arch.entities.Nodup := hinv₁.entNodup m.archetype
    have hgetArch : arch.entities.get ⟨entityIdx, hidxLt⟩ = e := hidxGet
    have heNotMem : e ∉ listSwapRemove arch.entities entityIdx :=
      not_mem_listSwapRemove hndArch hidxLt hgetArch
    -- archetype lookups in w₂
    have hga : ∀ a, a ≠ m.archetype → w₂.getArch a = w₁.getArch a := by
      intro a hne
      show (w₁.archetypes.set m.archetype arch₁).getD a ⟨[], []⟩ = _
      rw [List.getD_eq_getElem?_getD, List.getElem?_set_ne (fun h => hne h.symm)]
      rw [getArch, List.getD_eq_getElem?_getD]
    have hgm : w₂.getArch m.archetype = arch₁ := by
      show (w₁.archetypes.set m.archetype arch₁).getD m.archetype ⟨[], []⟩ = _
      rw [List.getD_eq_getElem?_getD, List.getElem?_set_self harchLt]
      rfl
    have hlen₂ : w₂.archetypes.length = w₁.archetypes.length := by
      show (w₁.archetypes.set m.archetype arch₁).length = _
      exact List.length_set ..
    have hmeta₂ : ∀ i, i ≠ e.id →
        w₂.entities.meta.get? i = w₁.entities.meta.get? i := by
      intro i hne
      show (w₁.entities.meta.set e.id none).get? i = _
      simp only [List.get?_eq_getElem?]
      rw [List.getElem?_set_ne (fun h => hne h.symm)]
    have hmeta₂e : w₂.entities.meta.get? e.id = some none := by
      show (w₁.entities.meta.set e.id none).get? e.id = _
      simp only [List.get?_eq_getElem?]
      rw [List.getElem?_set_self heid]
    -- storages in w₂
    have hst : ∀ ty, ty ∉ akeys arch.column_indices →
        w₂.getStorages ty = w₁.getStorages ty := by
      intro ty hty
      show (alookup ty cols).getD [] = _
      rw [hcols, alookup_colsUpdate_not_mem hty]
      rfl
    have hstIn : ∀ ty c, (ty, c) ∈ arch.column_indices →
        w₂.getStorages ty =
          (w₁.getStorages ty).set c
            (listSwapRemove ((w₁.getStorages ty).getD c []) entityIdx) := by
      intro ty c htc
      show (alookup ty cols).getD [] = _
      rw [hcols, alookup_colsUpdate_mem (hinv₁.ciNodup m.archetype) htc]
      rfl
    refine ⟨?_, ?_, ?_, ?_, ?_, ?_, ?_, ?_, ?_, ?_, ?_, ?_, ?_⟩
    · intro h
      have hl := congrArg List.length h
      rw [hlen₂] at hl
      simp only [List.length_nil] at hl
      exact hinv₁.archNe (List.eq_nil_of_length_eq_zero hl)
    · by_cases h0 : m.archetype = 0
      · have hgm₀ : w₂.getArch 0 = arch₁ := h0 ▸ hgm
        rw [hgm₀, harch₁]
        show arch.column_indices = []
        rw [harch, h0]
        exact hinv₁.arch0
      · rw [hga 0 (fun h => h0 h.symm)]
        exact hinv₁.arch0
    · show (w₁.entities.meta.set e.id none).length ≤ w₁.entities.len
      rw [List.length_set]
      exact hinv₁.metaLen
    · intro i mi hmi
      rw [hlen₂]
      by_cases hie : i = e.id
      · subst hie
        rw [hmeta₂e] at hmi
        exact Option.noConfusion (Option.some.inj hmi)
      · rw [hmeta₂ i hie] at hmi
        exact hinv₁.metaLt i mi hmi
    · intro i mi hmi
      by_cases hie : i = e.id
      · subst hie
        rw [hmeta₂e] at hmi
        exact Option.noConfusion (Option.some.inj hmi)
      · rw [hmeta₂ i hie] at hmi
        have hold := hinv₁.memOfMeta i mi hmi
        by_cases hma : mi.archetype = m.archetype
        · rw [hma, hgm, harch₁]
          have hne : Entity.mk i ≠ e := by
            intro h
            exact hie (congrArg Entity.id h)
          have hmm : Entity.mk i ∈ arch.entities := by
            rw [harch, ← hma]
            exact hold
          exact mem_listSwapRemove_of_ne hidxLt hgetArch hmm hne
        · rw [hga mi.archetype hma]
          exact hold
    · intro a ha e₁ he₁
      rw [hlen₂] at ha
      by_cases hma : a = m.archetype
      · subst hma
        rw [hgm, harch₁] at he₁
        have he₁' : e₁ ∈ arch.entities :=
          mem_listSwapRemove_of_mem hidxLt he₁
        have hne : e₁ ≠ e := fun h => heNotMem (h ▸ he₁)
        have hmm := hinv₁.metaOfMem m.archetype ha e₁ he₁'
        rw [hmeta₂ e₁.id (fun h => hne (hids _ _ h))]
        exact hmm
      · rw [hga a hma] at he₁
        have hmm := hinv₁.metaOfMem a ha e₁ he₁
        have hne : e₁ ≠ e := by
          intro h
          subst h
          have h₁ := metaGet_eq_some_iff.mp hmeta
          rw [hmm] at h₁
          have h₂ := Option.some.inj (Option.some.inj h₁)
          exact hma (congrArg EntityMeta.archetype h₂)
        rw [hmeta₂ e₁.id (fun h => hne (hids _ _ h))]
        exact hmm
    · intro a
      by_cases hma : a = m.archetype
      · subst hma
        rw [hgm, harch₁]
        exact nodup_listSwapRemove hidxLt hndArch
      · rw [hga a hma]
        exact hinv₁.entNodup a
    · intro a
      by_cases hma : a = m.archetype
      · subst hma
        rw [hgm, harch₁]
        exact hinv₁.ciNodup m.archetype
      · rw [hga a hma]
        exact hinv₁.ciNodup a
    · intro a ha ty col hmem
      rw [hlen₂] at ha
      by_cases hma : a = m.archetype
      · subst hma
        rw [hgm, harch₁] at hmem
        have hmem' : (ty, col) ∈ arch.column_indices := hmem
        obtain ⟨hcl, hclen⟩ := hinv₁.aligned m.archetype harchLt ty col hmem'
        rw [hgm, harch₁]
        rw [hstIn ty col hmem']
        constructor
        · rw [List.length_set]
          exact hcl
        · rw [getD_set_self hcl]
          rw [length_listSwapRemove (by
            rw [hclen, ← harch]
            exact hidxLt)]
          rw [hclen]
          simp only [harch]
          rw [length_listSwapRemove hidxLt]
      · rw [hga a hma] at hmem ⊢
        obtain ⟨hcl, hclen⟩ := hinv₁.aligned a ha ty col hmem
        by_cases hty : ty ∈ akeys arch.column_indices
        · obtain ⟨c, hc⟩ := by
            have := alookup_isSome_of_mem hty
            exact Option.isSome_iff_exists.mp this
          have hcmem := mem_of_alookup_some hc
          have hcol_ne : col ≠ c :=
            hinv₁.colInj a m.archetype ha harchLt hma ty col c hmem hcmem
          rw [hstIn ty c hcmem]
          constructor
          · rw [List.length_set]
            exact hcl
          · rw [getD_set_ne (fun h => hcol_ne h.symm)]
            exact hclen
        · rw [hst ty hty]
          exact ⟨hcl, hclen⟩
    · intro a b ha hb hab ty ca cb hca hcb
      rw [hlen₂] at ha hb
      have hciA : (w₂.getArch a).column_indices = (w₁.getArch a).column_indices := by
        by_cases hma : a = m.archetype
        · subst hma; rw [hgm, harch₁, harch]
        · rw [hga a hma]
      have hciB : (w₂.getArch b).column_indices = (w₁.getArch b).column_indices := by
        by_cases hmb : b = m.archetype
        · subst hmb; rw [hgm, harch₁, harch]
        · rw [hga b hmb]
      rw [hciA] at hca
      rw [hciB] at hcb
      exact hinv₁.colInj a b ha hb hab ty ca cb hca hcb
    · intro a b ha hb hab
      rw [hlen₂] at ha hb
      have hciA : (w₂.getArch a).column_indices = (w₁.getArch a).column_indices := by
        by_cases hma : a = m.archetype
        · subst hma; rw [hgm, harch₁, harch]
        · rw [hga a hma]
      have hciB : (w₂.getArch b).column_indices = (w₁.getArch b).column_indices := by
        by_cases hmb : b = m.archetype
        · subst hmb; rw [hgm, harch₁, harch]
        · rw [hga b hmb]
      rw [keyset, keyset, hciA, hciB]
      exact hinv₁.uniq a b ha hb hab
    · intro ty hty
      have hty₂ : ty ∈ akeys (colsUpdate (fun _ col sts =>
        some (sts.set col (listSwapRemove (sts.getD col []) entityIdx)))
        arch.column_indices w₁.columns) := hty
      have hsub := akeys_colsUpdate_subset hty₂
      rcases hsub with h | h
      · exact hinv₁.tyLtNext ty h
      · obtain ⟨⟨ty₂, c⟩, hmem, rfl⟩ := List.mem_map.mp h
        have hmm : ty₂ ∈ akeys w₁.columns :=
          mem_columns_of_aligned hinv₁ harchLt hmem
        exact hinv₁.tyLtNext _ hmm
    · intro τ t ht
      have hmm := hinv₁.regCols τ t ht
      show t ∈ akeys cols
      rw [hcols]
      exact mem_akeys_colsUpdate_of_mem hmm

end Despawn

/-! ### `spawn` -/

section Spawn

variable {w : World α}

theorem spawn_fst : (w.spawn).1 = ⟨w.entities.len⟩ := rfl

theorem winv_reserve (hinv : WInv w) :
    WInv { w with entities := (w.entities.reserveEntity).2 } := by
  obtain ⟨h1, h2, h3, h4, h5, h6, h7, h8, h9, h10, h11, h12, h13⟩ := hinv
  exact ⟨h1, h2, Nat.le_succ_of_le h3, h4, h5, h6, h7, h8, h9, h10, h11, h12, h13⟩

theorem winv_spawn (hinv : WInv w) : WInv (w.spawn).2 :=
  winv_fixReserved (winv_reserve hinv)

theorem spawn_meta_get_lt (hinv : WInv w) {i : Nat} (hi : i < w.entities.meta.length) :
    (w.spawn).2.entities.meta.get? i = w.entities.meta.get? i := by
  have h := (winv_reserve hinv).metaLen
  exact fixReserved_meta_get_lt h hi

theorem spawn_alive (hinv : WInv w) :
    (w.spawn).2.isAlive (w.spawn).1 = true := by
  have h := (winv_reserve hinv).metaLen
  have hget :
      (World.fixReserved { w with entities := (w.entities.reserveEntity).2 }).entities.meta.get?
        w.entities.len = some (some ⟨0⟩) :=
    fixReserved_meta_get_new h hinv.metaLen (by show w.entities.len < w.entities.len + 1; omega)
  show ((w.spawn).2.entities).isAlive ⟨w.entities.len⟩ = true
  rw [Entities.isAlive]
  rw [show ((w.spawn).2.entities).meta.get? (Entity.mk w.entities.len).id = some (some ⟨0⟩)
    from hget]

end Spawn

/-! ### Effects of `despawn` on membership (used by the despawn claims) -/

section DespawnEffect

variable {w : World α} {e : Entity}

theorem getArch_oob {a : Nat} (h : w.archetypes.length ≤ a) :
    w.getArch a = ⟨[], []⟩ := by
  rw [getArch, List.getD_eq_getElem?_getD]
  rw [List.getElem?_eq_none (by omega)]
  rfl

theorem isAlive_fixReserved (hinv : WInv w) (halive : w.isAlive e = true) :
    w.fixReserved.entities.isAlive e = true := by
  rw [isAlive] at halive
  obtain ⟨m, hm⟩ := isAlive_iff_metaGet.mp halive
  have hget := metaGet_eq_some_iff.mp hm
  have heid : e.id < w.entities.meta.length := by
    by_contra hc
    rw [List.get?_len_le (by omega)] at hget
    exact Option.noConfusion hget
  apply isAlive_iff_metaGet.mpr
  refine ⟨m, metaGet_eq_some_iff.mpr ?_⟩
  rw [fixReserved_meta_get_lt hinv.metaLen heid]
  exact hget

theorem despawn_effect (hinv : WInv w) (halive : w.isAlive e = true) :
    (w.despawn e).isAlive e = false ∧
    ∀ a, e ∉ ((w.despawn e).getArch a).entities := by
  have hinv₁ := winv_fixReserved hinv
  set w₁ := w.fixReserved with hw₁
  have halive₁ : w₁.entities.isAlive e = true := isAlive_fixReserved hinv halive
  obtain ⟨m, hmeta⟩ := isAlive_iff_metaGet.mp halive₁
  have hmget := metaGet_eq_some_iff.mp hmeta
  have harchLt : m.archetype < w₁.archetypes.length := hinv₁.metaLt _ _ hmget
  have hemem : e ∈ (w₁.getArch m.archetype).entities := hinv₁.memOfMeta e.id m hmget
  obtain ⟨entityIdx, hidx⟩ := getEntityIdx_isSome_of_mem hemem
  have hidxLt := getEntityIdx_lt hidx
  have hidxGet := getEntityIdx_getElem hidx
  have heid : e.id < w₁.entities.meta.length := by
    by_contra hc
    rw [List.get?_len_le (by omega)] at hmget
    exact Option.noConfusion hmget
  rw [despawn_alive_eq halive₁ hmeta hidx]
  set arch := w₁.getArch m.archetype with harch
  constructor
  · show Entities.isAlive _ e = false
    rw [Entities.isAlive]
    have : (w₁.entities.clearMeta e).meta.get? e.id = some none := by
      show (w₁.entities.meta.set e.id none).get? e.id = some none
      simp only [List.get?_eq_getElem?]
      rw [List.getElem?_set_self heid]
    rw [this]
  · intro a
    have hnd : arch.entities.Nodup := hinv₁.entNodup m.archetype
    have hnm : e ∉ listSwapRemove arch.entities entityIdx :=
      not_mem_listSwapRemove hnd hidxLt hidxGet
    by_cases hma : a = m.archetype
    · subst hma
      show e ∉ ((w₁.archetypes.set m.archetype
        { arch with entities := listSwapRemove arch.entities entityIdx }).getD m.archetype
          ⟨[], []⟩).entities
      rw [List.getD_eq_getElem?_getD, List.getElem?_set_self harchLt]
      exact hnm
    · rcases Nat.lt_or_ge a w₁.archetypes.length with ha | ha
      · show e ∉ ((w₁.archetypes.set m.archetype _).getD a ⟨[], []⟩).entities
        rw [List.getD_eq_getElem?_getD,
          List.getElem?_set_ne (fun h => hma h.symm)]
        intro hm₂
        have hmem₂ : e ∈ (w₁.getArch a).entities := by
          rw [getArch, List.getD_eq_getElem?_getD]
          exact hm₂
        have hmm := hinv₁.metaOfMem a ha e hmem₂
        rw [hmget] at hmm
        have h₂ := Option.some.inj (Option.some.inj hmm)
        exact hma (congrArg EntityMeta.archetype h₂).symm
      · show e ∉ ((w₁.archetypes.set m.archetype _).getD a ⟨[], []⟩).entities
        rw [List.getD_eq_getElem?_getD]
        rw [List.getElem?_eq_none (by rw [List.length_set]; omega)]
        simp

end DespawnEffect

/-! ### `find_archetype_from_ids` and `push_archetype` -/

section FindPush

variable {w : World α}

theorem keysetMatches_iff {ci : List (Nat × Nat)} {ids : List Nat}
    (hnd : (akeys ci).Nodup) (hnd₂ : ids.Nodup) :
    keysetMatches ci ids = true ↔ (akeys ci).toFinset = ids.toFinset := by
  rw [keysetMatches, Bool.and_eq_true, beq_iff_eq, List.all_eq_true]
  constructor
  · rintro ⟨hlen, hall⟩
    have hsub : (akeys ci).toFinset ⊆ ids.toFinset := by
      intro x hx
      rw [List.mem_toFinset] at hx
      obtain ⟨⟨k, v⟩, hkv, rfl⟩ := List.mem_map.mp hx
      rw [List.mem_toFinset]
      exact List.elem_iff.mp (hall _ hkv)
    apply Finset.eq_of_subset_of_card_le hsub
    rw [List.toFinset_card_of_nodup hnd, List.toFinset_card_of_nodup hnd₂]
    rw [show (akeys ci).length = ci.length from List.length_map ..]
    omega
  · intro heq
    constructor
    · have h₁ := List.toFinset_card_of_nodup hnd
      have h₂ := List.toFinset_card_of_nodup hnd₂
      rw [heq] at h₁
      rw [show (akeys ci).length = ci.length from List.length_map ..] at h₁
      omega
    · intro kv hkv
      apply List.elem_iff.mpr
      have hmm : kv.1 ∈ (akeys ci).toFinset := by
        rw [List.mem_toFinset]
        exact List.mem_map_of_mem Prod.fst hkv
      rw [heq, List.mem_toFinset] at hmm
      exact hmm

theorem findArchetypeFromIds_some {ids : List Nat} {i : Nat}
    (h : w.findArchetypeFromIds ids = some i) :
    i < w.archetypes.length ∧
    keysetMatches (w.getArch i).column_indices ids = true ∧
    ∀ j, j < i → keysetMatches (w.getArch j).column_indices ids = false := by
  rw [findArchetypeFromIds, List.findIdx?_eq_some_iff_getElem] at h
  obtain ⟨hlt, hp, hprev⟩ := h
  refine ⟨hlt, ?_, ?_⟩
  · rw [getArch_eq_getElem hlt]
    exact hp
  · intro j hj
    have := hprev j hj
    rw [getArch_eq_getElem (by omega)]
    simpa using this

theorem findArchetypeFromIds_none {ids : List Nat}
    (h : w.findArchetypeFromIds ids = none) :
    ∀ j, j < w.archetypes.length →
      keysetMatches (w.getArch j).column_indices ids = false := by
  rw [findArchetypeFromIds, List.findIdx?_eq_none_iff] at h
  intro j hj
  have := h (w.archetypes[j]) (List.getElem_mem hj)
  rw [getArch_eq_getElem hj]
  simpa using this

/-- With the uniqueness invariant, `find_archetype_from_ids` returns exactly
the archetype whose key set equals `ids` whenever one exists. -/
theorem findArchetypeFromIds_eq (hinv : WInv w) {ids : List Nat} {a : Nat}
    (hnd₂ : ids.Nodup) (ha : a < w.archetypes.length)
    (hk : keyset (w.getArch a) = ids.toFinset) :
    w.findArchetypeFromIds ids = some a := by
  cases hfind : w.findArchetypeFromIds ids with
  | none =>
    have hfalse := findArchetypeFromIds_none hfind a ha
    have htrue : keysetMatches (w.getArch a).column_indices ids = true := by
      rw [keysetMatches_iff (hinv.ciNodup a) hnd₂]
      exact hk
    rw [htrue] at hfalse
    exact Bool.noConfusion hfalse
  | some i =>
    obtain ⟨hlt, hp, _⟩ := findArchetypeFromIds_some hfind
    have hki : keyset (w.getArch i) = ids.toFinset :=
      (keysetMatches_iff (hinv.ciNodup i) hnd₂).mp hp
    by_cases hia : i = a
    · rw [hia]
    · exact absurd (hki.trans hk.symm) (hinv.uniq i a hlt ha hia)

end FindPush

/-! ### `push_archetype` effects -/

section PushArchetype

variable {w : World α}

theorem pushStorages_cons (cols : List (Nat × List (List α))) (ty : Nat)
    (rest : List Nat) :
    pushStorages cols (ty :: rest) =
      (((ty, ((alookup ty cols).getD []).length) ::
          (pushStorages (aset ty ((alookup ty cols).getD [] ++ [[]]) cols) rest).1),
        (pushStorages (aset ty ((alookup ty cols).getD [] ++ [[]]) cols) rest).2) := rfl

theorem pushStorages_keys {cols : List (Nat × List (List α))} {tys : List Nat} :
    akeys (pushStorages cols tys).1 = tys := by
  induction tys generalizing cols with
  | nil => rfl
  | cons ty rest ih =>
    rw [pushStorages_cons, akeys_cons, ih]

theorem pushStorages_lookup_not_mem {cols : List (Nat × List (List α))}
    {tys : List Nat} {k : Nat} (hk : k ∉ tys) :
    alookup k (pushStorages cols tys).2 = alookup k cols := by
  induction tys generalizing cols with
  | nil => rfl
  | cons ty rest ih =>
    rw [List.mem_cons] at hk
    push_neg at hk
    rw [pushStorages_cons]
    show alookup k (pushStorages _ rest).2 = _
    rw [ih hk.2]
    exact alookup_aset_ne _ cols (fun e => hk.1 e.symm)

theorem pushStorages_lookup_mem {cols : List (Nat × List (List α))}
    {tys : List Nat} {k : Nat} (hnd : tys.Nodup) (hk : k ∈ tys) :
    alookup k (pushStorages cols tys).2 =
      some ((alookup k cols).getD [] ++ [[]]) := by
  induction tys generalizing cols with
  | nil => simp at hk
  | cons ty rest ih =>
    have hnd₁ := List.nodup_cons.mp hnd
    rw [pushStorages_cons]
    show alookup k (pushStorages _ rest).2 = _
    rcases List.mem_cons.mp hk with rfl | hmem
    · rw [pushStorages_lookup_not_mem hnd₁.1]
      exact alookup_aset_self ..
    · have hne : ty ≠ k := by
        rintro rfl
        exact hnd₁.1 hmem
      rw [ih hnd₁.2 hmem]
      rw [alookup_aset_ne _ cols hne]

theorem pushStorages_pairs {cols : List (Nat × List (List α))}
    {tys : List Nat} {k c : Nat} (hnd : tys.Nodup)
    (h : (k, c) ∈ (pushStorages cols tys).1) :
    k ∈ tys ∧ c = ((alookup k cols).getD []).length := by
  induction tys generalizing cols with
  | nil => simp [pushStorages] at h
  | cons ty rest ih =>
    have hnd₁ := List.nodup_cons.mp hnd
    rw [pushStorages_cons] at h
    rcases List.mem_cons.mp h with heq | hmem
    · rw [Prod.mk.injEq] at heq
      obtain ⟨rfl, rfl⟩ := heq
      exact ⟨List.mem_cons_self .., rfl⟩
    · obtain ⟨hk, hc⟩ := ih hnd₁.2 hmem
      have hne : ty ≠ k := by
        rintro rfl
        exact hnd₁.1 hk
      refine ⟨List.mem_cons_of_mem _ hk, ?_⟩
      rw [hc, alookup_aset_ne _ cols hne]

theorem pushStorages_keys_mem {cols : List (Nat × List (List α))}
    {tys : List Nat} {k : Nat} :
    k ∈ akeys (pushStorages cols tys).2 ↔ k ∈ akeys cols ∨ k ∈ tys := by
  induction tys generalizing cols with
  | nil => simp [pushStorages]
  | cons ty rest ih =>
    rw [pushStorages_cons]
    show k ∈ akeys (pushStorages _ rest).2 ↔ _
    rw [ih, akeys_aset]
    by_cases hm : ty ∈ akeys cols
    · rw [if_pos hm]
      constructor
      · rintro (h | h)
        · exact Or.inl h
        · exact Or.inr (List.mem_cons_of_mem _ h)
      · rintro (h | h)
        · exact Or.inl h
        · rcases List.mem_cons.mp h with rfl | h₂
          · exact Or.inl hm
          · exact Or.inr h₂
    · rw [if_neg hm]
      constructor
      · rintro (h | h)
        · rcases List.mem_append.mp h with h₂ | h₂
          · exact Or.inl h₂
          · simp at h₂
            subst h₂
            exact Or.inr (List.mem_cons_self ..)
        · exact Or.inr (List.mem_cons_of_mem _ h)
      · rintro (h | h)
        · exact Or.inl (List.mem_append_left _ h)
        · rcases List.mem_cons.mp h with rfl | h₂
          · exact Or.inl (List.mem_append_right _ (List.mem_singleton.mpr rfl))
          · exact Or.inr h₂

theorem getD_append_lt {β : Type _} {l₁ l₂ : List β} {i : Nat} {d : β}
    (h : i < l₁.length) : (l₁ ++ l₂).getD i d = l₁.getD i d := by
  rw [List.getD_eq_getElem?_getD, List.getD_eq_getElem?_getD,
    List.getElem?_append_left h]

theorem getD_append_self {β : Type _} {l : List β} {x d : β} :
    (l ++ [x]).getD l.length d = x := by
  rw [List.getD_eq_getElem?_getD, List.getElem?_append_right (Nat.le_refl _)]
  simp

theorem pushArchetype_fst (tys : List Nat) :
    (w.pushArchetype tys).1 = w.archetypes.length := rfl

theorem pushArchetype_archetypes (tys : List Nat) :
    (w.pushArchetype tys).2.archetypes =
      w.archetypes ++ [⟨[], (pushStorages w.columns tys).1⟩] := rfl

theorem pushArchetype_columns (tys : List Nat) :
    (w.pushArchetype tys).2.columns = (pushStorages w.columns tys).2 := rfl

theorem pushArchetype_entities (tys : List Nat) :
    (w.pushArchetype tys).2.entities = w.entities := rfl

theorem pushArchetype_tyids (tys : List Nat) :
    (w.pushArchetype tys).2.ecs_type_ids = w.ecs_type_ids := rfl

theorem pushArchetype_next (tys : List Nat) :
    (w.pushArchetype tys).2.next_ecs_type_id = w.next_ecs_type_id := rfl

theorem pushArchetype_getArch_lt {tys : List Nat} {a : Nat}
    (h : a < w.archetypes.length) :
    (w.pushArchetype tys).2.getArch a = w.getArch a := by
  rw [getArch, getArch, pushArchetype_archetypes]
  exact getD_append_lt h

theorem pushArchetype_getArch_new (tys : List Nat) :
    (w.pushArchetype tys).2.getArch w.archetypes.length =
      ⟨[], (pushStorages w.columns tys).1⟩ := by
  rw [getArch, pushArchetype_archetypes]
  exact getD_append_self

end PushArchetype

/-! ### `get_or_insert_archetype_from_insert` / `..._from_remove` -/

section GetOrInsert

variable {w : World α}

/-- What both `get_or_insert_archetype_from_*` operations guarantee about
their result: the world keeps its old archetypes, entities and type registry,
every storage cell it had, and the returned archetype's key set is exactly
the requested one; the archetype is either a pre-existing one or a fresh
empty one whose key set was not present before. -/
structure GOISpec (w w' : World α) (dest : Nat) (target : List Nat) : Prop where
  winv : WInv w'
  entsEq : w'.entities = w.entities
  tyidsEq : w'.ecs_type_ids = w.ecs_type_ids
  nextEq : w'.next_ecs_type_id = w.next_ecs_type_id
  lenGe : w.archetypes.length ≤ w'.archetypes.length
  destLt : dest < w'.archetypes.length
  archPres : ∀ a, a < w.archetypes.length → w'.getArch a = w.getArch a
  destKeys : keyset (w'.getArch dest) = target.toFinset
  stPres : ∀ ty c, c < (w.getStorages ty).length →
    (w'.getStorages ty).getD c [] = (w.getStorages ty).getD c []
  stLen : ∀ ty, (w.getStorages ty).length ≤ (w'.getStorages ty).length
  reuseOrNew : dest < w.archetypes.length ∨
    (dest = w.archetypes.length ∧ (w'.getArch dest).entities = [] ∧
      ∀ a, a < w.archetypes.length → keyset (w.getArch a) ≠ target.toFinset)
  lenCases : w'.archetypes.length = w.archetypes.length ∨
    (w'.archetypes.length = w.archetypes.length + 1 ∧ dest = w.archetypes.length)
  colKeys : ∀ ty, ty ∈ akeys w.columns → ty ∈ akeys w'.columns

theorem GOISpec_refl (hinv : WInv w) {dest : Nat} {target : List Nat}
    (hdest : dest < w.archetypes.length)
    (hk : keyset (w.getArch dest) = target.toFinset) :
    GOISpec w w dest target :=
  ⟨hinv, rfl, rfl, rfl, Nat.le_refl _, hdest, fun _ _ => rfl, hk,
    fun _ _ _ => rfl, fun _ => Nat.le_refl _, Or.inl hdest, Or.inl rfl,
    fun _ h => h⟩

theorem pushArchetype_GOISpec (hinv : WInv w) {target : List Nat}
    (hnd : target.Nodup)
    (hsub : ∀ ty ∈ target, ty ∈ akeys w.columns)
    (hnone : w.findArchetypeFromIds target = none) :
    GOISpec w (w.pushArchetype target).2 (w.pushArchetype target).1 target := by
  set dest := w.archetypes.length with hdest
  set w₂ := (w.pushArchetype target).2 with hw₂
  have hllen : w₂.archetypes.length = w.archetypes.length + 1 := by
    rw [hw₂, pushArchetype_archetypes]
    simp
  have hgaNew : w₂.getArch dest = ⟨[], (pushStorages w.columns target).1⟩ :=
    pushArchetype_getArch_new target
  have hgaOld : ∀ a, a < w.archetypes.length → w₂.getArch a = w.getArch a :=
    fun a ha => pushArchetype_getArch_lt ha
  have hstMem : ∀ ty, ty ∈ target →
      w₂.getStorages ty = w.getStorages ty ++ [[]] := by
    intro ty hty
    show (alookup ty w₂.columns).getD [] = _
    rw [hw₂, pushArchetype_columns, pushStorages_lookup_mem hnd hty]
    rfl
  have hstNot : ∀ ty, ty ∉ target → w₂.getStorages ty = w.getStorages ty := by
    intro ty hty
    show (alookup ty w₂.columns).getD [] = _
    rw [hw₂, pushArchetype_columns, pushStorages_lookup_not_mem hty]
    rfl
  have hstPres : ∀ ty c, c < (w.getStorages ty).length →
      (w₂.getStorages ty).getD c [] = (w.getStorages ty).getD c [] := by
    intro ty c hc
    by_cases hty : ty ∈ target
    · rw [hstMem ty hty]
      exact getD_append_lt hc
    · rw [hstNot ty hty]
  have hstLen : ∀ ty, (w.getStorages ty).length ≤ (w₂.getStorages ty).length := by
    intro ty
    by_cases hty : ty ∈ target
    · rw [hstMem ty hty]
      simp
    · rw [hstNot ty hty]
  have hnoMatch : ∀ a, a < w.archetypes.length →
      keyset (w.getArch a) ≠ target.toFinset := by
    intro a ha hk
    have hfalse := findArchetypeFromIds_none hnone a ha
    have htrue : keysetMatches (w.getArch a).column_indices target = true := by
      rw [keysetMatches_iff (hinv.ciNodup a) hnd]
      exact hk
    rw [htrue] at hfalse
    exact Bool.noConfusion hfalse
  have hkeysNew : keyset (w₂.getArch dest) = target.toFinset := by
    rw [hgaNew, keyset]
    show (akeys (pushStorages w.columns target).1).toFinset = _
    rw [pushStorages_keys]
  refine ⟨?_, rfl, rfl, rfl, by omega, by rw [pushArchetype_fst]; omega,
    hgaOld, by rw [pushArchetype_fst]; exact hkeysNew, hstPres, hstLen, ?_,
    Or.inr ⟨hllen, pushArchetype_fst target⟩,
    fun ty hty => pushStorages_keys_mem.mpr (Or.inl hty)⟩
  · -- WInv w₂
    refine ⟨?_, ?_, hinv.metaLen, ?_, ?_, ?_, ?_, ?_, ?_, ?_, ?_, ?_, ?_⟩
    · intro h
      have := congrArg List.length h
      rw [hllen] at this
      simp at this
    · rw [hgaOld 0 (by
        have := hinv.archNe
        cases h : w.archetypes with
        | nil => exact absurd h this
        | cons hd tl => simp)]
      exact hinv.arch0
    · intro i m hm
      rw [hllen]
      have := hinv.metaLt i m hm
      omega
    · intro i m hm
      rw [hgaOld m.archetype (hinv.metaLt i m hm)]
      exact hinv.memOfMeta i m hm
    · intro a ha e he
      rw [hllen] at ha
      rcases Nat.lt_or_ge a w.archetypes.length with ha₂ | ha₂
      · rw [hgaOld a ha₂] at he
        exact hinv.metaOfMem a ha₂ e he
      · have haeq : a = dest := by omega
        rw [haeq, hgaNew] at he
        simp at he
    · intro a
      rcases Nat.lt_or_ge a w.archetypes.length with ha₂ | ha₂
      · rw [hgaOld a ha₂]
        exact hinv.entNodup a
      · by_cases haeq : a = dest
        · rw [haeq, hgaNew]
          exact List.nodup_nil
        · rw [show w₂.getArch a = (⟨[], []⟩ : Archetype) from getArch_oob (by omega)]
          exact List.nodup_nil
    · intro a
      rcases Nat.lt_or_ge a w.archetypes.length with ha₂ | ha₂
      · rw [hgaOld a ha₂]
        exact hinv.ciNodup a
      · by_cases haeq : a = dest
        · rw [haeq, hgaNew]
          show (akeys (pushStorages w.columns target).1).Nodup
          rw [pushStorages_keys]
          exact hnd
        · rw [show w₂.getArch a = (⟨[], []⟩ : Archetype) from getArch_oob (by omega)]
          exact List.nodup_nil
    · intro a ha ty col hmem
      rw [hllen] at ha
      rcases Nat.lt_or_ge a w.archetypes.length with ha₂ | ha₂
      · rw [hgaOld a ha₂] at hmem ⊢
        obtain ⟨hcl, hclen⟩ := hinv.aligned a ha₂ ty col hmem
        constructor
        · have := hstLen ty
          omega
        · rw [hstPres ty col hcl]
          exact hclen
      · have haeq : a = dest := by omega
        rw [haeq, hgaNew] at hmem ⊢
        have hpairs := pushStorages_pairs hnd hmem
        obtain ⟨hty, hcol⟩ := hpairs
        rw [hstMem ty hty]
        constructor
        · rw [List.length_append]
          have : col = (w.getStorages ty).length := by
            rw [hcol]
            rfl
          simp [this]
        · have : col = (w.getStorages ty).length := by
            rw [hcol]
            rfl
          rw [this]
          rw [getD_append_self]
          rfl
    · intro a b ha hb hab ty ca cb hca hcb
      rw [hllen] at ha hb
      rcases Nat.lt_or_ge a w.archetypes.length with ha₂ | ha₂ <;>
        rcases Nat.lt_or_ge b w.archetypes.length with hb₂ | hb₂
      · rw [hgaOld a ha₂] at hca
        rw [hgaOld b hb₂] at hcb
        exact hinv.colInj a b ha₂ hb₂ hab ty ca cb hca hcb
      · have hbeq : b = dest := by omega
        rw [hgaOld a ha₂] at hca
        rw [hbeq, hgaNew] at hcb
        obtain ⟨htyb, hcolb⟩ := pushStorages_pairs hnd hcb
        have hcl := (hinv.aligned a ha₂ ty ca hca).1
        have : cb = (w.getStorages ty).length := by rw [hcolb]; rfl
        omega
      · have haeq : a = dest := by omega
        rw [hgaOld b hb₂] at hcb
        rw [haeq, hgaNew] at hca
        obtain ⟨htya, hcola⟩ := pushStorages_pairs hnd hca
        have hcl := (hinv.aligned b hb₂ ty cb hcb).1
        have : ca = (w.getStorages ty).length := by rw [hcola]; rfl
        omega
      · omega
    · intro a b ha hb hab
      rw [hllen] at ha hb
      rcases Nat.lt_or_ge a w.archetypes.length with ha₂ | ha₂ <;>
        rcases Nat.lt_or_ge b w.archetypes.length with hb₂ | hb₂
      · rw [hgaOld a ha₂, hgaOld b hb₂]
        exact hinv.uniq a b ha₂ hb₂ hab
      · have hbeq : b = dest := by omega
        rw [hgaOld a ha₂, hbeq, hkeysNew]
        exact hnoMatch a ha₂
      · have haeq : a = dest := by omega
        rw [hgaOld b hb₂, haeq, hkeysNew]
        exact fun h => hnoMatch b hb₂ h.symm
      · omega
    · intro ty hty
      have : ty ∈ akeys w.columns ∨ ty ∈ target := by
        have h₂ : ty ∈ akeys (pushStorages w.columns target).2 := hty
        exact pushStorages_keys_mem.mp h₂
      rcases this with h | h
      · exact hinv.tyLtNext ty h
      · exact hinv.tyLtNext ty (hsub ty h)
    · intro τ t ht
      have := hinv.regCols τ t ht
      show t ∈ akeys (pushStorages w.columns target).2
      exact pushStorages_keys_mem.mpr (Or.inl this)
  · right
    refine ⟨by rw [pushArchetype_fst], ?_, hnoMatch⟩
    rw [pushArchetype_fst, hgaNew]

theorem getOrInsertFromInsert_spec (hinv : WInv w) {src t : Nat}
    (hsrc : src < w.archetypes.length)
    (ht : t ∉ akeys (w.getArch src).column_indices)
    (htc : t ∈ akeys w.columns) :
    GOISpec w (w.getOrInsertArchetypeFromInsert src t).2
      (w.getOrInsertArchetypeFromInsert src t).1
      (akeys (w.getArch src).column_indices ++ [t]) := by
  have hnd : (akeys (w.getArch src).column_indices ++ [t]).Nodup := by
    rw [List.nodup_append]
    exact ⟨hinv.ciNodup src, List.nodup_singleton t,
      fun x hx => by simp; rintro rfl; exact ht hx⟩
  have hsub : ∀ ty ∈ akeys (w.getArch src).column_indices ++ [t],
      ty ∈ akeys w.columns := by
    intro ty hty
    rcases List.mem_append.mp hty with h | h
    · obtain ⟨⟨ty₂, c⟩, hmem, rfl⟩ := List.mem_map.mp h
      exact mem_columns_of_aligned hinv hsrc hmem
    · simp at h
      subst h
      exact htc
  cases hfind : w.findArchetypeFromIds (akeys (w.getArch src).column_indices ++ [t]) with
  | some i =>
    obtain ⟨hlt, hp, _⟩ := findArchetypeFromIds_some hfind
    have hk : keyset (w.getArch i) =
        (akeys (w.getArch src).column_indices ++ [t]).toFinset :=
      (keysetMatches_iff (hinv.ciNodup i) hnd).mp hp
    simp only [getOrInsertArchetypeFromInsert, hfind]
    exact GOISpec_refl hinv hlt hk
  | none =>
    simp only [getOrInsertArchetypeFromInsert, hfind]
    exact pushArchetype_GOISpec hinv hnd hsub hfind

theorem getOrInsertFromRemove_spec (hinv : WInv w) {src : Nat} (t : Nat)
    (hsrc : src < w.archetypes.length) :
    GOISpec w (w.getOrInsertArchetypeFromRemove src t).2
      (w.getOrInsertArchetypeFromRemove src t).1
      ((akeys (w.getArch src).column_indices).filter (fun ty => ty ≠ t)) := by
  have hnd : ((akeys (w.getArch src).column_indices).filter
      (fun ty => ty ≠ t)).Nodup := (hinv.ciNodup src).filter _
  have hsub : ∀ ty ∈ (akeys (w.getArch src).column_indices).filter
      (fun ty => ty ≠ t), ty ∈ akeys w.columns := by
    intro ty hty
    have h := (List.mem_filter.mp hty).1
    obtain ⟨⟨ty₂, c⟩, hmem, rfl⟩ := List.mem_map.mp h
    exact mem_columns_of_aligned hinv hsrc hmem
  cases hfind : w.findArchetypeFromIds ((akeys (w.getArch src).column_indices).filter
      (fun ty => ty ≠ t)) with
  | some i =>
    obtain ⟨hlt, hp, _⟩ := findArchetypeFromIds_some hfind
    have hk := (keysetMatches_iff (hinv.ciNodup i) hnd).mp hp
    simp only [getOrInsertArchetypeFromRemove, hfind]
    exact GOISpec_refl hinv hlt hk
  | none =>
    simp only [getOrInsertArchetypeFromRemove, hfind]
    exact pushArchetype_GOISpec hinv hnd hsub hfind

theorem getOrInsertFromInsert_ne (hinv : WInv w) {src t : Nat}
    (hsrc : src < w.archetypes.length)
    (ht : t ∉ akeys (w.getArch src).column_indices)
    (htc : t ∈ akeys w.columns) :
    (w.getOrInsertArchetypeFromInsert src t).1 ≠ src := by
  intro heq
  have spec := getOrInsertFromInsert_spec hinv hsrc ht htc
  have hdest := spec.destKeys
  rw [heq, spec.archPres src hsrc] at hdest
  have ht₂ : t ∈ keyset (w.getArch src) := by
    rw [hdest, List.mem_toFinset]
    exact List.mem_append_right _ (List.mem_singleton.mpr rfl)
  rw [keyset, List.mem_toFinset] at ht₂
  exact ht ht₂

theorem getOrInsertFromRemove_ne (hinv : WInv w) {src t : Nat}
    (hsrc : src < w.archetypes.length)
    (ht : t ∈ akeys (w.getArch src).column_indices) :
    (w.getOrInsertArchetypeFromRemove src t).1 ≠ src := by
  intro heq
  have spec := getOrInsertFromRemove_spec hinv t hsrc
  have hdest := spec.destKeys
  rw [heq, spec.archPres src hsrc] at hdest
  have ht₂ : t ∈ keyset (w.getArch src) := by
    rw [keyset, List.mem_toFinset]
    exact ht
  rw [hdest, List.mem_toFinset, List.mem_filter] at ht₂
  simp at ht₂

end GetOrInsert

/-! ### `swap_remove_move_to` (one column pair) -/

section MoveCell

variable {w : World α}

theorem moveCellStep_spec {sts : List (List α)} {i oldCol newCol : Nat} {cell : α}
    (hne : oldCol ≠ newCol) (hnew : newCol < sts.length)
    (hcell : (sts.getD oldCol []).get? i = some cell) :
    (moveCellStep i oldCol newCol sts).length = sts.length ∧
    (moveCellStep i oldCol newCol sts).getD oldCol [] =
      listSwapRemove (sts.getD oldCol []) i ∧
    (moveCellStep i oldCol newCol sts).getD newCol [] =
      sts.getD newCol [] ++ [cell] ∧
    ∀ c, c ≠ oldCol → c ≠ newCol →
      (moveCellStep i oldCol newCol sts).getD c [] = sts.getD c [] := by
  have hold : oldCol < sts.length := by
    by_contra hc
    rw [List.getD_eq_getElem?_getD, List.getElem?_eq_none (by omega)] at hcell
    simp at hcell
  simp only [moveCellStep, hcell]
  refine ⟨by simp, ?_, ?_, ?_⟩
  · rw [getD_set_ne (fun h => hne h.symm)]
    exact getD_set_self hold
  · rw [getD_set_self (by rw [List.length_set]; exact hnew)]
    rw [getD_set_ne hne]
  · intro c hco hcn
    rw [getD_set_ne (fun h => hcn h.symm), getD_set_ne (fun h => hco h.symm)]

end MoveCell

/-! ### `move_entity_from_insert` effects -/

section MoveInsert

variable {w : World α} {e : Entity} {t : Nat}

theorem getArch_entities_update (w : World α) (es : Entities) (i : Nat) :
    (World.mk es w.archetypes w.columns w.next_ecs_type_id
      w.ecs_type_ids).getArch i = w.getArch i := rfl

theorem moveEntityFromInsert_eq {m : EntityMeta} {entityIdx : Nat}
    (halive : w.isAlive e = true)
    (hmeta : w.entities.metaGet e = some m)
    (hidx : ((w.getOrInsertArchetypeFromInsert m.archetype t).2.getArch
      m.archetype).getEntityIdx e = some entityIdx) :
    w.moveEntityFromInsert e t =
      (let destId := (w.getOrInsertArchetypeFromInsert m.archetype t).1
       let w₁ := (w.getOrInsertArchetypeFromInsert m.archetype t).2
       let w₂ : World α := { w₁ with entities := w₁.entities.setMeta e ⟨destId⟩ }
       let srcArch := w₂.getArch m.archetype
       let destCi := (w₂.getArch destId).column_indices
       let srcArch₁ := { srcArch with
         entities := listSwapRemove srcArch.entities entityIdx }
       let cols := colsUpdate
         (fun ty oldCol sts =>
           match alookup ty destCi with
           | none => none
           | some newCol => some (moveCellStep entityIdx oldCol newCol sts))
         srcArch.column_indices w₂.columns
       let w₃ : World α := { w₂ with
         archetypes := w₂.archetypes.set m.archetype srcArch₁
         columns := cols }
       let destArch := w₃.getArch destId
       some (destId, { w₃ with
         archetypes := w₃.archetypes.set destId
           { destArch with entities := destArch.entities ++ [e] } })) := by
  simp only [moveEntityFromInsert, halive, Bool.true_eq_false, if_false, hmeta]
  simp only [getArch_entities_update]
  rw [hidx]

/-- Full effect description of `move_entity_from_insert` on a valid state. -/
theorem moveEntityFromInsert_spec (hinv : WInv w) {m : EntityMeta}
    (halive : w.isAlive e = true)
    (hmeta : w.entities.metaGet e = some m)
    (ht : t ∉ akeys (w.getArch m.archetype).column_indices)
    (htc : t ∈ akeys w.columns) :
    ∃ entityIdx w₄,
      w.moveEntityFromInsert e t =
        some ((w.getOrInsertArchetypeFromInsert m.archetype t).1, w₄) ∧
      (entityIdx < (w.getArch m.archetype).entities.length ∧
        (w.getArch m.archetype).entities.get? entityIdx = some e) ∧
      (let destId := (w.getOrInsertArchetypeFromInsert m.archetype t).1
       let w₁ := (w.getOrInsertArchetypeFromInsert m.archetype t).2
       w₄.entities.len = w.entities.len ∧
       w₄.entities.meta.length = w.entities.meta.length ∧
       w₄.entities.meta.get? e.id = some (some ⟨destId⟩) ∧
       (∀ i, i ≠ e.id → w₄.entities.meta.get? i = w.entities.meta.get? i) ∧
       w₄.ecs_type_ids = w.ecs_type_ids ∧
       w₄.next_ecs_type_id = w.next_ecs_type_id ∧
       w₄.archetypes.length = w₁.archetypes.length ∧
       w₄.getArch m.archetype = { w.getArch m.archetype with
         entities := listSwapRemove (w.getArch m.archetype).entities entityIdx } ∧
       w₄.getArch destId = { w₁.getArch destId with
         entities := (w₁.getArch destId).entities ++ [e] } ∧
       (∀ a, a ≠ m.archetype → a ≠ destId → w₄.getArch a = w₁.getArch a) ∧
       (∀ ty, ty ∉ akeys (w.getArch m.archetype).column_indices →
         w₄.getStorages ty = w₁.getStorages ty) ∧
       (∀ ty oldCol, (ty, oldCol) ∈ (w.getArch m.archetype).column_indices →
         ∃ newCol, alookup ty (w₁.getArch destId).column_indices = some newCol ∧
           w₄.getStorages ty =
             moveCellStep entityIdx oldCol newCol (w₁.getStorages ty)) ∧
       (∀ ty, ty ∈ akeys w₄.columns ↔ ty ∈ akeys w₁.columns)) := by
  have hmget := metaGet_eq_some_iff.mp hmeta
  have hsrc : m.archetype < w.archetypes.length := hinv.metaLt _ _ hmget
  have gis := getOrInsertFromInsert_spec hinv hsrc ht htc
  have hne := getOrInsertFromInsert_ne hinv hsrc ht htc
  set destId := (w.getOrInsertArchetypeFromInsert m.archetype t).1 with hdestId
  set w₁ := (w.getOrInsertArchetypeFromInsert m.archetype t).2 with hw₁
  have hsrcArch : w₁.getArch m.archetype = w.getArch m.archetype :=
    gis.archPres m.archetype hsrc
  have hemem : e ∈ (w₁.getArch m.archetype).entities := by
    rw [hsrcArch]
    exact hinv.memOfMeta e.id m hmget
  obtain ⟨entityIdx, hidx⟩ := getEntityIdx_isSome_of_mem hemem
  have hidxLt₁ := getEntityIdx_lt hidx
  have hidxLt : entityIdx < (w.getArch m.archetype).entities.length := by
    rw [← hsrcArch]
    exact hidxLt₁
  have hidxGet? : (w.getArch m.archetype).entities.get? entityIdx = some e := by
    rw [← hsrcArch]
    rw [List.get?_eq_getElem?, List.getElem?_eq_getElem hidxLt₁]
    exact congrArg some (getEntityIdx_getElem hidx)
  have heid : e.id < w.entities.meta.length := by
    by_contra hc
    rw [List.get?_len_le (by omega)] at hmget
    exact Option.noConfusion hmget
  have hsrcLt₁ : m.archetype < w₁.archetypes.length := by
    have := gis.lenGe
    omega
  have hdestLt := gis.destLt
  -- the updated world
  rw [moveEntityFromInsert_eq halive hmeta hidx]
  refine ⟨entityIdx, _, rfl, ⟨hidxLt, hidxGet?⟩, ?_⟩
  have hentsEq := gis.entsEq
  -- names for the intermediate worlds
  set w₂ : World α := { w₁ with entities := w₁.entities.setMeta e ⟨destId⟩ }
    with hw₂
  have hw₂arch : ∀ a, w₂.getArch a = w₁.getArch a := fun a => rfl
  have hw₂cols : w₂.columns = w₁.columns := rfl
  set srcArch := w₂.getArch m.archetype with hsrcArch₂
  set destCi := (w₂.getArch destId).column_indices with hdestCi
  set srcArch₁ := { srcArch with
    entities := listSwapRemove srcArch.entities entityIdx } with hsrcArch₁
  set cols := colsUpdate
    (fun ty oldCol sts =>
      match alookup ty destCi with
      | none => none
      | some newCol => some (moveCellStep entityIdx oldCol newCol sts))
    srcArch.column_indices w₂.columns with hcolsEq
  set w₃ : World α := { w₂ with
    archetypes := w₂.archetypes.set m.archetype srcArch₁
    columns := cols } with hw₃
  set destArch := w₃.getArch destId with hdestArch
  set w₄ : World α := { w₃ with
    archetypes := w₃.archetypes.set destId
      { destArch with entities := destArch.entities ++ [e] } } with hw₄
  have hlen₂ : w₂.archetypes.length = w₁.archetypes.length := rfl
  have hw₃destArch : w₃.getArch destId = w₁.getArch destId := by
    rw [hw₃]
    show ((w₂.archetypes.set m.archetype srcArch₁).getD destId ⟨[], []⟩) = _
    rw [List.getD_eq_getElem?_getD, List.getElem?_set_ne (fun h => hne h.symm)]
    rw [← List.getD_eq_getElem?_getD]
    exact hw₂arch destId
  have hw₄len : w₄.archetypes.length = w₁.archetypes.length := by
    rw [hw₄, hw₃]
    show ((w₂.archetypes.set m.archetype srcArch₁).set destId _).length = _
    rw [List.length_set, List.length_set]
  refine ⟨?_, ?_, ?_, ?_, gis.tyidsEq, gis.nextEq, hw₄len, ?_, ?_, ?_, ?_, ?_, ?_⟩
  · show w₁.entities.len = w.entities.len
    rw [hentsEq]
  · show (w₁.entities.meta.set e.id (some ⟨destId⟩)).length = _
    rw [List.length_set, hentsEq]
  · show (w₁.entities.meta.set e.id (some ⟨destId⟩)).get? e.id = _
    simp only [List.get?_eq_getElem?]
    rw [List.getElem?_set_self (by rw [hentsEq]; exact heid)]
  · intro i hi
    show (w₁.entities.meta.set e.id (some ⟨destId⟩)).get? i = _
    simp only [List.get?_eq_getElem?]
    rw [List.getElem?_set_ne (fun h => hi h.symm), hentsEq]
  · rw [hw₄]
    show ((w₃.archetypes.set destId _).getD m.archetype ⟨[], []⟩) = _
    rw [List.getD_eq_getElem?_getD, List.getElem?_set_ne hne]
    rw [← List.getD_eq_getElem?_getD]
    show w₃.getArch m.archetype = _
    rw [hw₃]
    show ((w₂.archetypes.set m.archetype srcArch₁).getD m.archetype ⟨[], []⟩) = _
    rw [List.getD_eq_getElem?_getD, List.getElem?_set_self (by
      rw [hlen₂] at *
      exact hsrcLt₁)]
    rw [hsrcArch₁, hsrcArch₂, hw₂arch m.archetype, hsrcArch]
    rfl
  · rw [hw₄]
    show ((w₃.archetypes.set destId _).getD destId ⟨[], []⟩) = _
    rw [List.getD_eq_getElem?_getD, List.getElem?_set_self (by
      show destId < w₃.archetypes.length
      rw [hw₃]
      show destId < (w₂.archetypes.set m.archetype srcArch₁).length
      rw [List.length_set]
      exact hdestLt)]
    show { destArch with entities := destArch.entities ++ [e] } = _
    rw [hdestArch, hw₃destArch]
  · intro a ha hd
    rw [hw₄]
    show ((w₃.archetypes.set destId _).getD a ⟨[], []⟩) = _
    rw [List.getD_eq_getElem?_getD, List.getElem?_set_ne (fun h => hd h.symm)]
    rw [← List.getD_eq_getElem?_getD]
    show w₃.getArch a = _
    rw [hw₃]
    show ((w₂.archetypes.set m.archetype srcArch₁).getD a ⟨[], []⟩) = _
    rw [List.getD_eq_getElem?_getD, List.getElem?_set_ne (fun h => ha h.symm)]
    rw [← List.getD_eq_getElem?_getD]
    exact hw₂arch a
  · intro ty hty
    show (alookup ty w₄.columns).getD [] = _
    have : w₄.columns = cols := rfl
    rw [this, hcolsEq]
    rw [alookup_colsUpdate_not_mem (by
      rw [hsrcArch₂, hw₂arch m.archetype, hsrcArch]
      exact hty)]
    rfl
  · intro ty oldCol htyc
    have htyKeys : ty ∈ keyset (w₁.getArch destId) := by
      rw [gis.destKeys, List.mem_toFinset]
      exact List.mem_append_left _ (List.mem_map_of_mem Prod.fst htyc)
    rw [keyset, List.mem_toFinset] at htyKeys
    obtain ⟨newCol, hnewCol⟩ := Option.isSome_iff_exists.mp
      (alookup_isSome_of_mem htyKeys)
    refine ⟨newCol, hnewCol, ?_⟩
    show (alookup ty w₄.columns).getD [] = _
    have hcc : w₄.columns = cols := rfl
    rw [hcc, hcolsEq]
    have htyc₂ : (ty, oldCol) ∈ srcArch.column_indices := by
      rw [hsrcArch₂, hw₂arch m.archetype, hsrcArch]
      exact htyc
    rw [alookup_colsUpdate_mem (by
      rw [hsrcArch₂, hw₂arch m.archetype, hsrcArch]
      exact hinv.ciNodup m.archetype) htyc₂]
    rw [show alookup ty destCi = some newCol from by
      rw [hdestCi, hw₂arch destId]
      exact hnewCol]
    rfl
  · intro ty
    show ty ∈ akeys w₄.columns ↔ ty ∈ akeys w₁.columns
    have hcc : w₄.columns = cols := rfl
    rw [hcc, hcolsEq]
    by_cases hty : ty ∈ akeys (w.getArch m.archetype).column_indices
    · obtain ⟨oldCol, holdCol⟩ := Option.isSome_iff_exists.mp
        (alookup_isSome_of_mem hty)
      have htyc₂ : (ty, oldCol) ∈ srcArch.column_indices := by
        rw [hsrcArch₂, hw₂arch m.archetype, hsrcArch]
        exact mem_of_alookup_some holdCol
      have htyDest : ty ∈ keyset (w₁.getArch destId) := by
        rw [gis.destKeys, List.mem_toFinset]
        exact List.mem_append_left _ hty
      rw [keyset, List.mem_toFinset] at htyDest
      obtain ⟨newCol, hnewCol⟩ := Option.isSome_iff_exists.mp
        (alookup_isSome_of_mem htyDest)
      have hl : alookup ty (colsUpdate
          (fun ty oldCol sts =>
            match alookup ty destCi with
            | none => none
            | some newCol => some (moveCellStep entityIdx oldCol newCol sts))
          srcArch.column_indices w₂.columns) =
          some (moveCellStep entityIdx oldCol newCol
            (alookupD ty w₂.columns [])) := by
        rw [alookup_colsUpdate_mem (by
          rw [hsrcArch₂, hw₂arch m.archetype, hsrcArch]
          exact hinv.ciNodup m.archetype) htyc₂]
        rw [show alookup ty destCi = some newCol from by
          rw [hdestCi, hw₂arch destId]
          exact hnewCol]
      rw [← alookup_isSome_iff_mem_akeys, hl]
      simp only [Option.isSome_some, true_iff]
      have : ty ∈ akeys w.columns := mem_columns_of_aligned hinv hsrc
        (mem_of_alookup_some holdCol)
      exact gis.colKeys ty this
    · rw [← alookup_isSome_iff_mem_akeys]
      rw [alookup_colsUpdate_not_mem (by
        rw [hsrcArch₂, hw₂arch m.archetype, hsrcArch]
        exact hty)]
      rw [alookup_isSome_iff_mem_akeys]

end MoveInsert

/-! ### `move_entity_from_remove` effects -/

section MoveRemove

variable {w : World α} {e : Entity} {t : Nat}

theorem moveEntityFromRemove_eq {m : EntityMeta} {entityIdx : Nat}
    (halive : w.isAlive e = true)
    (hmeta : w.entities.metaGet e = some m)
    (hidx : ((w.getOrInsertArchetypeFromRemove m.archetype t).2.getArch
      m.archetype).getEntityIdx e = some entityIdx) :
    w.moveEntityFromRemove e t =
      (let destId := (w.getOrInsertArchetypeFromRemove m.archetype t).1
       let w₁ := (w.getOrInsertArchetypeFromRemove m.archetype t).2
       let w₂ : World α := { w₁ with entities := w₁.entities.setMeta e ⟨destId⟩ }
       let srcArch := w₂.getArch m.archetype
       let destCi := (w₂.getArch destId).column_indices
       let srcArch₁ := { srcArch with
         entities := listSwapRemove srcArch.entities entityIdx }
       let cols := colsUpdate
         (fun ty newCol sts =>
           match alookup ty srcArch.column_indices with
           | none => none
           | some oldCol => some (moveCellStep entityIdx oldCol newCol sts))
         destCi w₂.columns
       let w₃ : World α := { w₂ with
         archetypes := w₂.archetypes.set m.archetype srcArch₁
         columns := cols }
       let destArch := w₃.getArch destId
       some (entityIdx, m.archetype, { w₃ with
         archetypes := w₃.archetypes.set destId
           { destArch with entities := destArch.entities ++ [e] } })) := by
  simp only [moveEntityFromRemove, halive, Bool.true_eq_false, if_false, hmeta]
  simp only [getArch_entities_update]
  rw [hidx]

/-- Full effect description of `move_entity_from_remove` on a valid state. -/
theorem moveEntityFromRemove_spec (hinv : WInv w) {m : EntityMeta}
    (halive : w.isAlive e = true)
    (hmeta : w.entities.metaGet e = some m)
    (ht : t ∈ akeys (w.getArch m.archetype).column_indices) :
    ∃ entityIdx w₄,
      w.moveEntityFromRemove e t = some (entityIdx, m.archetype, w₄) ∧
      (entityIdx < (w.getArch m.archetype).entities.length ∧
        (w.getArch m.archetype).entities.get? entityIdx = some e) ∧
      (let destId := (w.getOrInsertArchetypeFromRemove m.archetype t).1
       let w₁ := (w.getOrInsertArchetypeFromRemove m.archetype t).2
       w₄.entities.len = w.entities.len ∧
       w₄.entities.meta.length = w.entities.meta.length ∧
       w₄.entities.meta.get? e.id = some (some ⟨destId⟩) ∧
       (∀ i, i ≠ e.id → w₄.entities.meta.get? i = w.entities.meta.get? i) ∧
       w₄.ecs_type_ids = w.ecs_type_ids ∧
       w₄.next_ecs_type_id = w.next_ecs_type_id ∧
       w₄.archetypes.length = w₁.archetypes.length ∧
       w₄.getArch m.archetype = { w.getArch m.archetype with
         entities := listSwapRemove (w.getArch m.archetype).entities entityIdx } ∧
       w₄.getArch destId = { w₁.getArch destId with
         entities := (w₁.getArch destId).entities ++ [e] } ∧
       (∀ a, a ≠ m.archetype → a ≠ destId → w₄.getArch a = w₁.getArch a) ∧
       (∀ ty, ty ∉ akeys (w₁.getArch destId).column_indices →
         w₄.getStorages ty = w₁.getStorages ty) ∧
       (∀ ty newCol, (ty, newCol) ∈ (w₁.getArch destId).column_indices →
         ∃ oldCol, alookup ty (w.getArch m.archetype).column_indices = some oldCol ∧
           w₄.getStorages ty =
             moveCellStep entityIdx oldCol newCol (w₁.getStorages ty)) ∧
       (∀ ty, ty ∈ akeys w₄.columns ↔ ty ∈ akeys w₁.columns)) := by
  have hmget := metaGet_eq_some_iff.mp hmeta
  have hsrc : m.archetype < w.archetypes.length := hinv.metaLt _ _ hmget
  have gis := getOrInsertFromRemove_spec hinv t hsrc
  have hne := getOrInsertFromRemove_ne hinv hsrc ht
  set destId := (w.getOrInsertArchetypeFromRemove m.archetype t).1 with hdestId
  set w₁ := (w.getOrInsertArchetypeFromRemove m.archetype t).2 with hw₁
  have hsrcArch : w₁.getArch m.archetype = w.getArch m.archetype :=
    gis.archPres m.archetype hsrc
  have hemem : e ∈ (w₁.getArch m.archetype).entities := by
    rw [hsrcArch]
    exact hinv.memOfMeta e.id m hmget
  obtain ⟨entityIdx, hidx⟩ := getEntityIdx_isSome_of_mem hemem
  have hidxLt₁ := getEntityIdx_lt hidx
  have hidxLt : entityIdx < (w.getArch m.archetype).entities.length := by
    rw [← hsrcArch]
    exact hidxLt₁
  have hidxGet? : (w.getArch m.archetype).entities.get? entityIdx = some e := by
    rw [← hsrcArch]
    rw [List.get?_eq_getElem?, List.getElem?_eq_getElem hidxLt₁]
    exact congrArg some (getEntityIdx_getElem hidx)
  have heid : e.id < w.entities.meta.length := by
    by_contra hc
    rw [List.get?_len_le (by omega)] at hmget
    exact Option.noConfusion hmget
  have hsrcLt₁ : m.archetype < w₁.archetypes.length := by
    have := gis.lenGe
    omega
  have hdestLt := gis.destLt
  rw [moveEntityFromRemove_eq halive hmeta hidx]
  refine ⟨entityIdx, _, rfl, ⟨hidxLt, hidxGet?⟩, ?_⟩
  have hentsEq := gis.entsEq
  set w₂ : World α := { w₁ with entities := w₁.entities.setMeta e ⟨destId⟩ }
    with hw₂
  have hw₂arch : ∀ a, w₂.getArch a = w₁.getArch a := fun a => rfl
  set srcArch := w₂.getArch m.archetype with hsrcArch₂
  set destCi := (w₂.getArch destId).column_indices with hdestCi
  set srcArch₁ := { srcArch with
    entities := listSwapRemove srcArch.entities entityIdx } with hsrcArch₁
  set cols := colsUpdate
    (fun ty newCol sts =>
      match alookup ty srcArch.column_indices with
      | none => none
      | some oldCol => some (moveCellStep entityIdx oldCol newCol sts))
    destCi w₂.columns with hcolsEq
  set w₃ : World α := { w₂ with
    archetypes := w₂.archetypes.set m.archetype srcArch₁
    columns := cols } with hw₃
  set destArch := w₃.getArch destId with hdestArch
  set w₄ : World α := { w₃ with
    archetypes := w₃.archetypes.set destId
      { destArch with entities := destArch.entities ++ [e] } } with hw₄
  have hlen₂ : w₂.archetypes.length = w₁.archetypes.length := rfl
  have hw₃destArch : w₃.getArch destId = w₁.getArch destId := by
    rw [hw₃]
    show ((w₂.archetypes.set m.archetype srcArch₁).getD destId ⟨[], []⟩) = _
    rw [List.getD_eq_getElem?_getD, List.getElem?_set_ne (fun h => hne h.symm)]
    rw [← List.getD_eq_getElem?_getD]
    exact hw₂arch destId
  have hw₄len : w₄.archetypes.length = w₁.archetypes.length := by
    rw [hw₄, hw₃]
    show ((w₂.archetypes.set m.archetype srcArch₁).set destId _).length = _
    rw [List.length_set, List.length_set]
  have hciNodupDest : (akeys destCi).Nodup := by
    rw [hdestCi, hw₂arch destId]
    exact gis.winv.ciNodup destId
  refine ⟨?_, ?_, ?_, ?_, gis.tyidsEq, gis.nextEq, hw₄len, ?_, ?_, ?_, ?_, ?_, ?_⟩
  · show w₁.entities.len = w.entities.len
    rw [hentsEq]
  · show (w₁.entities.meta.set e.id (some ⟨destId⟩)).length = _
    rw [List.length_set, hentsEq]
  · show (w₁.entities.meta.set e.id (some ⟨destId⟩)).get? e.id = _
    simp only [List.get?_eq_getElem?]
    rw [List.getElem?_set_self (by rw [hentsEq]; exact heid)]
  · intro i hi
    show (w₁.entities.meta.set e.id (some ⟨destId⟩)).get? i = _
    simp only [List.get?_eq_getElem?]
    rw [List.getElem?_set_ne (fun h => hi h.symm), hentsEq]
  · rw [hw₄]
    show ((w₃.archetypes.set destId _).getD m.archetype ⟨[], []⟩) = _
    rw [List.getD_eq_getElem?_getD, List.getElem?_set_ne hne]
    rw [← List.getD_eq_getElem?_getD]
    show w₃.getArch m.archetype = _
    rw [hw₃]
    show ((w₂.archetypes.set m.archetype srcArch₁).getD m.archetype ⟨[], []⟩) = _
    rw [List.getD_eq_getElem?_getD, List.getElem?_set_self (by
      rw [hlen₂] at *
      exact hsrcLt₁)]
    rw [hsrcArch₁, hsrcArch₂, hw₂arch m.archetype, hsrcArch]
    rfl
  · rw [hw₄]
    show ((w₃.archetypes.set destId _).getD destId ⟨[], []⟩) = _
    rw [List.getD_eq_getElem?_getD, List.getElem?_set_self (by
      show destId < w₃.archetypes.length
      rw [hw₃]
      show destId < (w₂.archetypes.set m.archetype srcArch₁).length
      rw [List.length_set]
      exact hdestLt)]
    show { destArch with entities := destArch.entities ++ [e] } = _
    rw [hdestArch, hw₃destArch]
  · intro a ha hd
    rw [hw₄]
    show ((w₃.archetypes.set destId _).getD a ⟨[], []⟩) = _
    rw [List.getD_eq_getElem?_getD, List.getElem?_set_ne (fun h => hd h.symm)]
    rw [← List.getD_eq_getElem?_getD]
    show w₃.getArch a = _
    rw [hw₃]
    show ((w₂.archetypes.set m.archetype srcArch₁).getD a ⟨[], []⟩) = _
    rw [List.getD_eq_getElem?_getD, List.getElem?_set_ne (fun h => ha h.symm)]
    rw [← List.getD_eq_getElem?_getD]
    exact hw₂arch a
  · intro ty hty
    show (alookup ty w₄.columns).getD [] = _
    have hcc : w₄.columns = cols := rfl
    rw [hcc, hcolsEq]
    rw [alookup_colsUpdate_not_mem (by
      rw [hdestCi, hw₂arch destId]
      exact hty)]
    rfl
  · intro ty newCol htyc
    have htyc₂ : (ty, newCol) ∈ destCi := by
      rw [hdestCi, hw₂arch destId]
      exact htyc
    -- ty is a key of the source archetype: dest keys are a subset
    have htyKeys : ty ∈ akeys (w.getArch m.archetype).column_indices := by
      have h₁ : ty ∈ keyset (w₁.getArch destId) := by
        rw [keyset, List.mem_toFinset]
        exact List.mem_map_of_mem Prod.fst htyc
      rw [gis.destKeys, List.mem_toFinset, List.mem_filter] at h₁
      exact h₁.1
    obtain ⟨oldCol, holdCol⟩ := Option.isSome_iff_exists.mp
      (alookup_isSome_of_mem htyKeys)
    refine ⟨oldCol, holdCol, ?_⟩
    show (alookup ty w₄.columns).getD [] = _
    have hcc : w₄.columns = cols := rfl
    rw [hcc, hcolsEq]
    rw [alookup_colsUpdate_mem hciNodupDest htyc₂]
    rw [show alookup ty srcArch.column_indices = some oldCol from by
      rw [hsrcArch₂, hw₂arch m.archetype, hsrcArch]
      exact holdCol]
    rfl
  · intro ty
    show ty ∈ akeys w₄.columns ↔ ty ∈ akeys w₁.columns
    have hcc : w₄.columns = cols := rfl
    rw [hcc, hcolsEq]
    by_cases hty : ty ∈ akeys destCi
    · obtain ⟨newCol, hnewCol⟩ := Option.isSome_iff_exists.mp
        (alookup_isSome_of_mem hty)
      have htyc₂ : (ty, newCol) ∈ destCi := mem_of_alookup_some hnewCol
      have htyKeys : ty ∈ akeys (w.getArch m.archetype).column_indices := by
        have h₁ : ty ∈ keyset (w₁.getArch destId) := by
          rw [keyset, List.mem_toFinset]
          have := List.mem_map_of_mem Prod.fst htyc₂
          rw [hdestCi, hw₂arch destId] at this
          exact this
        rw [gis.destKeys, List.mem_toFinset, List.mem_filter] at h₁
        exact h₁.1
      obtain ⟨oldCol, holdCol⟩ := Option.isSome_iff_exists.mp
        (alookup_isSome_of_mem htyKeys)
      have hl : alookup ty (colsUpdate
          (fun ty newCol sts =>
            match alookup ty srcArch.column_indices with
            | none => none
            | some oldCol => some (moveCellStep entityIdx oldCol newCol sts))
          destCi w₂.columns) =
          some (moveCellStep entityIdx oldCol newCol
            (alookupD ty w₂.columns [])) := by
        rw [alookup_colsUpdate_mem hciNodupDest htyc₂]
        rw [show alookup ty srcArch.column_indices = some oldCol from by
          rw [hsrcArch₂, hw₂arch m.archetype, hsrcArch]
          exact holdCol]
      rw [← alookup_isSome_iff_mem_akeys, hl]
      simp only [Option.isSome_some, true_iff]
      have : ty ∈ akeys w.columns := mem_columns_of_aligned hinv hsrc
        (mem_of_alookup_some holdCol)
      exact gis.colKeys ty this
    · rw [← alookup_isSome_iff_mem_akeys]
      rw [alookup_colsUpdate_not_mem hty]
      rw [alookup_isSome_iff_mem_akeys]

end MoveRemove

/-! ### Registration, overwrite and lookup helper lemmas -/

section InsertHelpers

variable {w : World α} {e : Entity} {τ tyId : Nat} {v : α}

theorem orCreate_registered (h : alookup τ w.ecs_type_ids = some tyId) :
    w.typeToEcsTypeIdOrCreate τ = (tyId, w) := by
  simp [typeToEcsTypeIdOrCreate, h]

theorem orCreate_fresh (h : alookup τ w.ecs_type_ids = none) :
    w.typeToEcsTypeIdOrCreate τ =
      (w.next_ecs_type_id, { w with
        ecs_type_ids := aset τ w.next_ecs_type_id w.ecs_type_ids
        next_ecs_type_id := w.next_ecs_type_id + 1
        columns := aset w.next_ecs_type_id [[]] w.columns }) := by
  simp [typeToEcsTypeIdOrCreate, h]

/-- Registering a fresh static type id preserves the invariant and the
essential state. -/
theorem orCreate_spec (hinv : WInv w) (τ : Nat) :
    WInv (w.typeToEcsTypeIdOrCreate τ).2 ∧
    (w.typeToEcsTypeIdOrCreate τ).1 ∈ akeys (w.typeToEcsTypeIdOrCreate τ).2.columns ∧
    alookup τ (w.typeToEcsTypeIdOrCreate τ).2.ecs_type_ids =
      some (w.typeToEcsTypeIdOrCreate τ).1 ∧
    (w.typeToEcsTypeIdOrCreate τ).2.entities = w.entities ∧
    (w.typeToEcsTypeIdOrCreate τ).2.archetypes = w.archetypes ∧
    (∀ ty, ty ∈ akeys w.columns →
      (w.typeToEcsTypeIdOrCreate τ).2.getStorages ty = w.getStorages ty) := by
  cases hreg : alookup τ w.ecs_type_ids with
  | some tyId =>
    rw [orCreate_registered hreg]
    exact ⟨hinv, hinv.regCols τ tyId hreg, hreg, rfl, rfl, fun _ _ => rfl⟩
  | none =>
    rw [orCreate_fresh hreg]
    set n := w.next_ecs_type_id with hn
    have hNotKey : n ∉ akeys w.columns := by
      intro h
      have := hinv.tyLtNext n h
      omega
    have hstPres : ∀ ty, ty ∈ akeys w.columns →
        (alookup ty (aset n [[]] w.columns)).getD [] = w.getStorages ty := by
      intro ty hty
      have : n ≠ ty := by
        rintro rfl
        exact hNotKey hty
      rw [alookup_aset_ne _ _ this]
      rfl
    refine ⟨⟨hinv.archNe, hinv.arch0, hinv.metaLen, hinv.metaLt, hinv.memOfMeta,
      hinv.metaOfMem, hinv.entNodup, hinv.ciNodup, ?_, hinv.colInj, hinv.uniq,
      ?_, ?_⟩, ?_, ?_, rfl, rfl, hstPres⟩
    · intro a ha ty col hmem
      have hty := mem_columns_of_aligned hinv ha hmem
      have hget : ({ w with
          ecs_type_ids := aset τ n w.ecs_type_ids
          next_ecs_type_id := n + 1
          columns := aset n [[]] w.columns } : World α).getStorages ty =
          w.getStorages ty := hstPres ty hty
      rw [hget]
      exact hinv.aligned a ha ty col hmem
    · intro ty hty
      show ty < n + 1
      rw [akeys_aset] at hty
      rw [if_neg hNotKey] at hty
      rcases List.mem_append.mp hty with h | h
      · have := hinv.tyLtNext ty h
        omega
      · simp at h
        omega
    · intro τ₂ t ht
      show t ∈ akeys (aset n [[]] w.columns)
      by_cases hττ : τ = τ₂
      · subst hττ
        rw [alookup_aset_self] at ht
        obtain rfl := Option.some.inj ht
        rw [akeys_aset, if_neg hNotKey]
        exact List.mem_append_right _ (List.mem_singleton.mpr rfl)
      · rw [alookup_aset_ne _ _ hττ] at ht
        have := hinv.regCols τ₂ t ht
        exact mem_akeys_aset this
    · show n ∈ akeys (aset n [[]] w.columns)
      rw [akeys_aset, if_neg hNotKey]
      exact List.mem_append_right _ (List.mem_singleton.mpr rfl)
    · exact alookup_aset_self ..

theorem winv_setComponentCell (hinv : WInv w) :
    WInv (w.setComponentCell e tyId v) := by
  cases hmeta : w.entities.metaGet e with
  | none =>
    simp only [setComponentCell, hmeta]
    exact hinv
  | some m =>
    cases hidx : (w.getArch m.archetype).getEntityIdx e with
    | none =>
      simp only [setComponentCell, hmeta, hidx]
      exact hinv
    | some entityIdx =>
      cases hcol : alookup tyId (w.getArch m.archetype).column_indices with
      | none =>
        simp only [setComponentCell, hmeta, hidx, hcol]
        exact hinv
      | some colIdx =>
        simp only [setComponentCell, hmeta, hidx, hcol]
        have hmget := metaGet_eq_some_iff.mp hmeta
        have hsrc : m.archetype < w.archetypes.length := hinv.metaLt _ _ hmget
        have htyKey : tyId ∈ akeys w.columns :=
          mem_columns_of_aligned hinv hsrc (mem_of_alookup_some hcol)
        set sts := w.getStorages tyId with hsts
        set cols₂ := aset tyId (sts.set colIdx ((sts.getD colIdx []).set entityIdx v)) w.columns with hcols₂
        set w₂ : World α := { w with columns := cols₂ } with hw₂
        have hstT : w₂.getStorages tyId =
            sts.set colIdx ((sts.getD colIdx []).set entityIdx v) := by
          show (alookup tyId _).getD [] = _
          rw [alookup_aset_self]
          rfl
        have hstO : ∀ ty, ty ≠ tyId → w₂.getStorages ty = w.getStorages ty := by
          intro ty hne
          show (alookup ty _).getD [] = _
          rw [alookup_aset_ne _ _ (fun h => hne h.symm)]
          rfl
        refine ⟨hinv.archNe, hinv.arch0, hinv.metaLen, hinv.metaLt,
          hinv.memOfMeta, hinv.metaOfMem, hinv.entNodup, hinv.ciNodup, ?_,
          hinv.colInj, hinv.uniq, ?_, ?_⟩
        · intro a ha ty col hmem
          obtain ⟨hcl, hclen⟩ := hinv.aligned a ha ty col hmem
          by_cases hty : ty = tyId
          · subst hty
            rw [hstT]
            constructor
            · rw [List.length_set]
              exact hcl
            · by_cases hcc : col = colIdx
              · subst hcc
                rw [getD_set_self hcl, List.length_set]
                exact hclen
              · rw [getD_set_ne (fun h => hcc h.symm)]
                exact hclen
          · rw [hstO ty hty]
            exact ⟨hcl, hclen⟩
        · intro ty hty
          show ty < w.next_ecs_type_id
          have h₂ : ty ∈ akeys (aset tyId
              (sts.set colIdx ((sts.getD colIdx []).set entityIdx v))
              w.columns) := hty
          rw [akeys_aset, if_pos htyKey] at h₂
          exact hinv.tyLtNext ty h₂
        · intro τ₂ t ht
          exact mem_akeys_aset (hinv.regCols τ₂ t ht)

theorem moveEntityFromInsert_dead (h : w.isAlive e = false) {t : Nat} :
    w.moveEntityFromInsert e t = none := by
  simp [moveEntityFromInsert, h]

theorem moveEntityFromRemove_dead (h : w.isAlive e = false) {t : Nat} :
    w.moveEntityFromRemove e t = none := by
  simp [moveEntityFromRemove, h]

theorem getComponent_isSome (hinv : WInv w) {m : EntityMeta}
    (hmeta : w.entities.metaGet e = some m)
    (hty : tyId ∈ akeys (w.getArch m.archetype).column_indices) :
    (w.getComponent e tyId).isSome = true := by
  have hmget := metaGet_eq_some_iff.mp hmeta
  have hsrc : m.archetype < w.archetypes.length := hinv.metaLt _ _ hmget
  have hemem : e ∈ (w.getArch m.archetype).entities := hinv.memOfMeta e.id m hmget
  obtain ⟨entityIdx, hidx⟩ := getEntityIdx_isSome_of_mem hemem
  obtain ⟨colIdx, hcol⟩ := Option.isSome_iff_exists.mp (alookup_isSome_of_mem hty)
  have hha : w.hasComponentDynamic e tyId = some true := by
    simp only [hasComponentDynamic, hmeta]
    rw [alookup_isSome_of_mem hty]
  simp only [getComponent, hha, hmeta, hidx, hcol]
  obtain ⟨hcl, hclen⟩ := hinv.aligned m.archetype hsrc tyId colIdx
    (mem_of_alookup_some hcol)
  have hidxLt := getEntityIdx_lt hidx
  rw [List.get?_eq_getElem?]
  rw [List.getElem?_eq_getElem (by omega)]
  rfl

theorem getComponent_dead (hdead : w.entities.metaGet e = none) :
    w.getComponent e tyId = none := by
  simp only [getComponent, hasComponentDynamic, hdead]

theorem getComponent_absent {m : EntityMeta}
    (hmeta : w.entities.metaGet e = some m)
    (hty : tyId ∉ akeys (w.getArch m.archetype).column_indices) :
    w.getComponent e tyId = none := by
  simp only [getComponent, hasComponentDynamic, hmeta,
    alookup_eq_none_of_not_mem hty, Option.isSome_none]

theorem isAlive_iff_metaGet_false {es : Entities} {e : Entity} :
    es.isAlive e = false ↔ es.metaGet e = none := by
  rw [Entities.isAlive, Entities.metaGet]
  cases h : es.meta.get? e.id with
  | none => simp
  | some o => cases o <;> simp

end InsertHelpers

/-! ### Invariant preservation through `insert_component` -/

section InsertInv

variable {w w₁ w₄ : World α} {e : Entity} {src tyId destId entityIdx colIdx : Nat}
variable {v : α}

/-- After `move_entity_from_insert` (whose effects are the hypotheses below)
and the final `push` of the inserted component's cell onto the destination
archetype's fresh column, the world invariant holds again. -/
theorem winv_insertPush (v : α)
    (hinvW : WInv w)
    (gis : GOISpec w w₁ destId (akeys (w.getArch src).column_indices ++ [tyId]))
    (hne : destId ≠ src)
    (hsrcW : src < w.archetypes.length)
    (htNotW : tyId ∉ akeys (w.getArch src).column_indices)
    (htcW : tyId ∈ akeys w.columns)
    (hidxLt : entityIdx < (w.getArch src).entities.length)
    (hidxGet : (w.getArch src).entities.get? entityIdx = some e)
    (hmgetW : w.entities.meta.get? e.id = some (some ⟨src⟩))
    (hlen : w₄.entities.len = w.entities.len)
    (hmetaLen : w₄.entities.meta.length = w.entities.meta.length)
    (hmetaE : w₄.entities.meta.get? e.id = some (some ⟨destId⟩))
    (hmetaO : ∀ i, i ≠ e.id → w₄.entities.meta.get? i = w.entities.meta.get? i)
    (htyids4 : w₄.ecs_type_ids = w.ecs_type_ids)
    (hnext4 : w₄.next_ecs_type_id = w.next_ecs_type_id)
    (harchLen : w₄.archetypes.length = w₁.archetypes.length)
    (hsrcArch₄ : w₄.getArch src = { w.getArch src with
      entities := listSwapRemove (w.getArch src).entities entityIdx })
    (hdestArch₄ : w₄.getArch destId = { w₁.getArch destId with
      entities := (w₁.getArch destId).entities ++ [e] })
    (hother₄ : ∀ a, a ≠ src → a ≠ destId → w₄.getArch a = w₁.getArch a)
    (hstOther₄ : ∀ ty, ty ∉ akeys (w.getArch src).column_indices →
      w₄.getStorages ty = w₁.getStorages ty)
    (hstSrc₄ : ∀ ty oldCol, (ty, oldCol) ∈ (w.getArch src).column_indices →
      ∃ newCol, alookup ty (w₁.getArch destId).column_indices = some newCol ∧
        w₄.getStorages ty = moveCellStep entityIdx oldCol newCol (w₁.getStorages ty))
    (hkeys₄ : ∀ ty, ty ∈ akeys w₄.columns ↔ ty ∈ akeys w₁.columns)
    (hcolIdx : alookup tyId (w₁.getArch destId).column_indices = some colIdx) :
    WInv { w₄ with columns := aset tyId ((w₄.getStorages tyId).set colIdx ((w₄.getStorages tyId).getD colIdx [] ++ [v])) w₄.columns } := by
  set w₅ : World α := { w₄ with columns := aset tyId ((w₄.getStorages tyId).set colIdx ((w₄.getStorages tyId).getD colIdx [] ++ [v])) w₄.columns } with hw₅
  have hinv₁ := gis.winv
  have harchPres := gis.archPres
  have hsrcLt₁ : src < w₁.archetypes.length := Nat.lt_of_lt_of_le hsrcW gis.lenGe
  have hdestLt₁ := gis.destLt
  have hsrcArchW : w₁.getArch src = w.getArch src := harchPres src hsrcW
  have hents5 : w₅.entities = w₄.entities := rfl
  have harchs5 : w₅.archetypes = w₄.archetypes := rfl
  have hga5 : ∀ a, w₅.getArch a = w₄.getArch a := fun _ => rfl
  have htyids5 : w₅.ecs_type_ids = w₄.ecs_type_ids := rfl
  have hnext5 : w₅.next_ecs_type_id = w₄.next_ecs_type_id := rfl
  have hst5T : w₅.getStorages tyId =
      (w₄.getStorages tyId).set colIdx
        ((w₄.getStorages tyId).getD colIdx [] ++ [v]) := by
    show (alookup tyId _).getD [] = _
    rw [alookup_aset_self]
    rfl
  have hst5O : ∀ ty, ty ≠ tyId → w₅.getStorages ty = w₄.getStorages ty := by
    intro ty hne₂
    show (alookup ty _).getD [] = _
    rw [alookup_aset_ne _ _ (fun h => hne₂ h.symm)]
    rfl
  have hstT41 : w₄.getStorages tyId = w₁.getStorages tyId := hstOther₄ tyId htNotW
  have hcolIdxMem : (tyId, colIdx) ∈ (w₁.getArch destId).column_indices :=
    mem_of_alookup_some hcolIdx
  have hcolIdxLt : colIdx < (w₁.getStorages tyId).length :=
    (hinv₁.aligned destId hdestLt₁ tyId colIdx hcolIdxMem).1
  have hcolLenD : ((w₁.getStorages tyId).getD colIdx []).length =
      (w₁.getArch destId).entities.length :=
    (hinv₁.aligned destId hdestLt₁ tyId colIdx hcolIdxMem).2
  have hidxGetElem : (w.getArch src).entities.get ⟨entityIdx, hidxLt⟩ = e := by
    have h := hidxGet
    rw [List.get?_eq_getElem?, List.getElem?_eq_getElem hidxLt] at h
    exact Option.some.inj h
  have hndSrc : (w.getArch src).entities.Nodup := hinvW.entNodup src
  have heNotSwap : e ∉ listSwapRemove (w.getArch src).entities entityIdx :=
    not_mem_listSwapRemove hndSrc hidxLt hidxGetElem
  have heNotInDest : e ∉ (w₁.getArch destId).entities := by
    rcases gis.reuseOrNew with hlt | ⟨_, hemp, _⟩
    · intro hmem
      rw [harchPres destId hlt] at hmem
      have hmm := hinvW.metaOfMem destId hlt e hmem
      rw [hmgetW] at hmm
      have h₂ := Option.some.inj (Option.some.inj hmm)
      exact hne (congrArg EntityMeta.archetype h₂).symm
    · rw [hemp]
      exact List.not_mem_nil e
  have hDestKeyCases : ∀ ty, ty ∈ akeys (w₁.getArch destId).column_indices →
      ty = tyId ∨ ty ∈ akeys (w.getArch src).column_indices := by
    intro ty hty
    have h₁ : ty ∈ keyset (w₁.getArch destId) := by
      rw [keyset, List.mem_toFinset]
      exact hty
    rw [gis.destKeys, List.mem_toFinset, List.mem_append] at h₁
    rcases h₁ with h | h
    · exact Or.inr h
    · simp at h
      exact Or.inl h
  have hciSrc : (w₄.getArch src).column_indices =
      (w.getArch src).column_indices := by
    rw [hsrcArch₄]
  have hciDest : (w₄.getArch destId).column_indices =
      (w₁.getArch destId).column_indices := by
    rw [hdestArch₄]
  have hci5 : ∀ a, a < w₁.archetypes.length →
      (w₄.getArch a).column_indices = (w₁.getArch a).column_indices := by
    intro a ha
    by_cases has : a = src
    · subst a
      rw [hciSrc, hsrcArchW]
    · by_cases had : a = destId
      · subst a
        exact hciDest
      · rw [hother₄ a has had]
  have hMove : ∀ ty oldCol, (ty, oldCol) ∈ (w.getArch src).column_indices →
      ∃ newCol,
        alookup ty (w₁.getArch destId).column_indices = some newCol ∧
        oldCol ≠ newCol ∧
        (w₄.getStorages ty).length = (w₁.getStorages ty).length ∧
        (w₄.getStorages ty).getD oldCol [] =
          listSwapRemove ((w₁.getStorages ty).getD oldCol []) entityIdx ∧
        ((w₁.getStorages ty).getD oldCol []).length =
          (w.getArch src).entities.length ∧
        ((w₄.getStorages ty).getD newCol []).length =
          (w₁.getArch destId).entities.length + 1 ∧
        (∀ c, c ≠ oldCol → c ≠ newCol →
          (w₄.getStorages ty).getD c [] = (w₁.getStorages ty).getD c []) := by
    intro ty oldCol hmem
    obtain ⟨newCol, hnc, heq4⟩ := hstSrc₄ ty oldCol hmem
    have hmem₁ : (ty, oldCol) ∈ (w₁.getArch src).column_indices := by
      rw [hsrcArchW]
      exact hmem
    have hncMem := mem_of_alookup_some hnc
    have hAlSrc := hinvW.aligned src hsrcW ty oldCol hmem
    have hAlD := hinv₁.aligned destId hdestLt₁ ty newCol hncMem
    have hOldNe : oldCol ≠ newCol :=
      hinv₁.colInj src destId hsrcLt₁ hdestLt₁ (fun h => hne h.symm)
        ty oldCol newCol hmem₁ hncMem
    have hstPresOld : (w₁.getStorages ty).getD oldCol [] =
        (w.getStorages ty).getD oldCol [] := gis.stPres ty oldCol hAlSrc.1
    have hOldLen : ((w₁.getStorages ty).getD oldCol []).length =
        (w.getArch src).entities.length := by
      rw [hstPresOld]
      exact hAlSrc.2
    have hcellSome : (((w₁.getStorages ty).getD oldCol []).get? entityIdx).isSome := by
      rw [List.get?_eq_getElem?,
        List.getElem?_eq_getElem (by rw [hOldLen]; exact hidxLt)]
      rfl
    obtain ⟨cell, hcell⟩ := Option.isSome_iff_exists.mp hcellSome
    obtain ⟨hmlen, hmold, hmnew, hmoth⟩ := moveCellStep_spec hOldNe hAlD.1 hcell
    refine ⟨newCol, hnc, hOldNe, ?_, ?_, hOldLen, ?_, ?_⟩
    · rw [heq4]
      exact hmlen
    · rw [heq4]
      exact hmold
    · rw [heq4, hmnew, List.length_append, hAlD.2]
      rfl
    · intro c hc1 hc2
      rw [heq4]
      exact hmoth c hc1 hc2
  refine ⟨?_, ?_, ?_, ?_, ?_, ?_, ?_, ?_, ?_, ?_, ?_, ?_, ?_⟩
  · intro hnil
    have h₀ : 0 < w.archetypes.length := List.length_pos.mpr hinvW.archNe
    have hL := congrArg List.length hnil
    rw [harchs5] at hL
    simp only [List.length_nil] at hL
    rw [harchLen] at hL
    have := gis.lenGe
    omega
  · rw [hga5]
    by_cases h0d : destId = 0
    · exfalso
      have h₁ : tyId ∈ akeys (w₁.getArch destId).column_indices :=
        mem_akeys_of_alookup hcolIdx
      rw [h0d, hinv₁.arch0] at h₁
      simp at h₁
    · by_cases h0s : src = 0
      · have h₁ : (w₄.getArch 0).column_indices =
            (w.getArch 0).column_indices := by
          rw [← h0s]
          exact hciSrc
        rw [h₁]
        exact hinvW.arch0
      · rw [hother₄ 0 (fun h => h0s h.symm) (fun h => h0d h.symm)]
        exact hinv₁.arch0
  · show w₄.entities.meta.length ≤ w₄.entities.len
    rw [hmetaLen, hlen]
    exact hinvW.metaLen
  · intro i m' hm'
    rw [hents5] at hm'
    rw [harchs5, harchLen]
    by_cases hie : i = e.id
    · subst i
      rw [hmetaE] at hm'
      obtain h := Option.some.inj (Option.some.inj hm')
      rw [← h]
      exact hdestLt₁
    · rw [hmetaO i hie] at hm'
      have h₁ := hinvW.metaLt i m' hm'
      have h₂ := gis.lenGe
      omega
  · intro i m' hm'
    rw [hents5] at hm'
    rw [hga5]
    by_cases hie : i = e.id
    · subst i
      rw [hmetaE] at hm'
      obtain h := Option.some.inj (Option.some.inj hm')
      rw [← h]
      rw [hdestArch₄]
      show Entity.mk e.id ∈ (w₁.getArch destId).entities ++ [e]
      have he : Entity.mk e.id = e := rfl
      rw [he]
      exact List.mem_append_right _ (List.mem_singleton.mpr rfl)
    · rw [hmetaO i hie] at hm'
      have hbase := hinvW.memOfMeta i m' hm'
      have hneid : Entity.mk i ≠ e := fun h => hie (congrArg Entity.id h)
      by_cases hma : m'.archetype = src
      · rw [hma] at hbase ⊢
        rw [hsrcArch₄]
        show Entity.mk i ∈ listSwapRemove (w.getArch src).entities entityIdx
        exact mem_listSwapRemove_of_ne hidxLt hidxGetElem hbase hneid
      · by_cases hmd : m'.archetype = destId
        · rw [hmd] at hbase ⊢
          rw [hdestArch₄]
          show Entity.mk i ∈ (w₁.getArch destId).entities ++ [e]
          apply List.mem_append_left
          have hdLtW : destId < w.archetypes.length := by
            have h₁ := hinvW.metaLt i m' hm'
            rw [hmd] at h₁
            exact h₁
          rw [harchPres destId hdLtW]
          exact hbase
        · rw [hother₄ m'.archetype hma hmd]
          rw [harchPres m'.archetype (hinvW.metaLt i m' hm')]
          exact hbase
  · intro a ha e' he'
    rw [harchs5, harchLen] at ha
    rw [hga5] at he'
    rw [hents5]
    by_cases had : a = destId
    · subst a
      rw [hdestArch₄] at he'
      have he'' : e' ∈ (w₁.getArch destId).entities ++ [e] := he'
      rcases List.mem_append.mp he'' with hmem | hmem
      · rcases gis.reuseOrNew with hlt | ⟨_, hemp, _⟩
        · rw [harchPres destId hlt] at hmem
          have hbase := hinvW.metaOfMem destId hlt e' hmem
          have hneid : e'.id ≠ e.id := by
            intro h
            rw [h, hmgetW] at hbase
            have h₂ := Option.some.inj (Option.some.inj hbase)
            exact hne (congrArg EntityMeta.archetype h₂).symm
          rw [hmetaO e'.id hneid]
          exact hbase
        · rw [hemp] at hmem
          simp at hmem
      · have he₃ : e' = e := by simpa using hmem
        rw [he₃]
        exact hmetaE
    · by_cases has : a = src
      · subst a
        rw [hsrcArch₄] at he'
        have he'' : e' ∈ listSwapRemove (w.getArch src).entities entityIdx := he'
        have hmem₀ : e' ∈ (w.getArch src).entities :=
          mem_listSwapRemove_of_mem hidxLt he''
        have hbase := hinvW.metaOfMem src hsrcW e' hmem₀
        have hne' : e' ≠ e := by
          intro h
          rw [h] at he''
          exact heNotSwap he''
        have hneid : e'.id ≠ e.id := by
          intro h
          apply hne'
          have h1 : e' = Entity.mk e'.id := rfl
          have h2 : e = Entity.mk e.id := rfl
          rw [h1, h2, h]
        rw [hmetaO e'.id hneid]
        exact hbase
      · have harch := hother₄ a has had
        rw [harch] at he'
        rcases Nat.lt_or_ge a w.archetypes.length with haw | haw
        · rw [harchPres a haw] at he'
          have hbase := hinvW.metaOfMem a haw e' he'
          have hneid : e'.id ≠ e.id := by
            intro h
            rw [h, hmgetW] at hbase
            have h₂ := Option.some.inj (Option.some.inj hbase)
            exact has (congrArg EntityMeta.archetype h₂).symm
          rw [hmetaO e'.id hneid]
          exact hbase
        · exfalso
          rcases gis.lenCases with hl | ⟨hl, hd⟩
          · omega
          · apply had
            omega
  · intro a
    rw [hga5]
    by_cases had : a = destId
    · subst a
      rw [hdestArch₄]
      show ((w₁.getArch destId).entities ++ [e]).Nodup
      rw [List.nodup_append]
      exact ⟨hinv₁.entNodup destId, List.nodup_singleton e,
        fun x hx => by simp; rintro rfl; exact heNotInDest hx⟩
    · by_cases has : a = src
      · subst a
        rw [hsrcArch₄]
        show (listSwapRemove (w.getArch src).entities entityIdx).Nodup
        exact nodup_listSwapRemove hidxLt hndSrc
      · rw [hother₄ a has had]
        exact hinv₁.entNodup a
  · intro a
    rw [hga5]
    by_cases had : a = destId
    · subst a
      rw [hciDest]
      exact hinv₁.ciNodup destId
    · by_cases has : a = src
      · subst a
        rw [hciSrc]
        exact hinvW.ciNodup src
      · rw [hother₄ a has had]
        exact hinv₁.ciNodup a
  · intro a ha ty col hmem
    rw [harchs5, harchLen] at ha
    rw [hga5] at hmem ⊢
    by_cases has : a = src
    · subst a
      rw [hciSrc] at hmem
      have htyne : ty ≠ tyId := by
        rintro rfl
        exact htNotW (List.mem_map_of_mem Prod.fst hmem)
      obtain ⟨newCol, hnc, hOldNe, hmlen, hmold, hOldLen, hmnewLen, hmoth⟩ :=
        hMove ty col hmem
      refine ⟨?_, ?_⟩
      · rw [hst5O ty htyne, hmlen]
        have h₁ := (hinvW.aligned src hsrcW ty col hmem).1
        have h₂ := gis.stLen ty
        omega
      · rw [hst5O ty htyne, hsrcArch₄]
        show ((w₄.getStorages ty).getD col []).length =
          (listSwapRemove (w.getArch src).entities entityIdx).length
        rw [hmold, length_listSwapRemove (by rw [hOldLen]; exact hidxLt),
          length_listSwapRemove hidxLt, hOldLen]
    · by_cases had : a = destId
      · subst a
        rw [hciDest] at hmem
        by_cases hty : ty = tyId
        · subst ty
          have hcoleq : col = colIdx := by
            have h := alookup_of_mem_nodup (hinv₁.ciNodup destId) hmem
            rw [hcolIdx] at h
            exact (Option.some.inj h).symm
          subst col
          refine ⟨?_, ?_⟩
          · rw [hst5T, List.length_set, hstT41]
            exact hcolIdxLt
          · rw [hdestArch₄]
            show ((w₅.getStorages tyId).getD colIdx []).length =
              ((w₁.getArch destId).entities ++ [e]).length
            rw [hst5T, getD_set_self (by rw [hstT41]; exact hcolIdxLt), hstT41]
            simp only [List.length_append, hcolLenD]
            rfl
        · have htyK : ty ∈ akeys (w.getArch src).column_indices := by
            rcases hDestKeyCases ty (List.mem_map_of_mem Prod.fst hmem) with h | h
            · exact absurd h hty
            · exact h
          obtain ⟨oldCol, holdCol⟩ := Option.isSome_iff_exists.mp
            (alookup_isSome_of_mem htyK)
          obtain ⟨newCol, hnc, hOldNe, hmlen, hmold, hOldLen, hmnewLen, hmoth⟩ :=
            hMove ty oldCol (mem_of_alookup_some holdCol)
          have hcoleq : col = newCol := by
            have h := alookup_of_mem_nodup (hinv₁.ciNodup destId) hmem
            rw [hnc] at h
            exact (Option.some.inj h).symm
          subst col
          refine ⟨?_, ?_⟩
          · rw [hst5O ty hty, hmlen]
            exact (hinv₁.aligned destId hdestLt₁ ty newCol
              (mem_of_alookup_some hnc)).1
          · rw [hst5O ty hty, hdestArch₄]
            show ((w₄.getStorages ty).getD newCol []).length =
              ((w₁.getArch destId).entities ++ [e]).length
            rw [hmnewLen]
            simp
      · have harch := hother₄ a has had
        rw [harch] at hmem ⊢
        have hbase := hinv₁.aligned a ha ty col hmem
        by_cases hty : ty = tyId
        · subst ty
          have hcolne : col ≠ colIdx :=
            hinv₁.colInj a destId ha hdestLt₁ had tyId col colIdx hmem hcolIdxMem
          refine ⟨?_, ?_⟩
          · rw [hst5T, List.length_set, hstT41]
            exact hbase.1
          · rw [hst5T, getD_set_ne (fun h => hcolne h.symm), hstT41]
            exact hbase.2
        · by_cases htyK : ty ∈ akeys (w.getArch src).column_indices
          · obtain ⟨oldCol, holdCol⟩ := Option.isSome_iff_exists.mp
              (alookup_isSome_of_mem htyK)
            obtain ⟨newCol, hnc, hOldNe, hmlen, hmold, hOldLen, hmnewLen, hmoth⟩ :=
              hMove ty oldCol (mem_of_alookup_some holdCol)
            have hco : col ≠ oldCol := by
              apply hinv₁.colInj a src ha hsrcLt₁ has ty col oldCol hmem
              rw [hsrcArchW]
              exact mem_of_alookup_some holdCol
            have hcn : col ≠ newCol :=
              hinv₁.colInj a destId ha hdestLt₁ had ty col newCol hmem
                (mem_of_alookup_some hnc)
            refine ⟨?_, ?_⟩
            · rw [hst5O ty hty, hmlen]
              exact hbase.1
            · rw [hst5O ty hty, hmoth col hco hcn]
              exact hbase.2
          · rw [hst5O ty hty, hstOther₄ ty htyK]
            exact hbase
  · intro a b ha hb hab ty ca cb hma hmb
    rw [harchs5, harchLen] at ha hb
    rw [hga5] at hma hmb
    rw [hci5 a ha] at hma
    rw [hci5 b hb] at hmb
    exact hinv₁.colInj a b ha hb hab ty ca cb hma hmb
  · intro a b ha hb hab
    rw [harchs5, harchLen] at ha hb
    have hk : ∀ c, c < w₁.archetypes.length →
        keyset (w₅.getArch c) = keyset (w₁.getArch c) := by
      intro c hc
      simp only [keyset]
      rw [hga5, hci5 c hc]
    rw [hk a ha, hk b hb]
    exact hinv₁.uniq a b ha hb hab
  · intro ty hty
    rw [hnext5, hnext4]
    have hcols5 : w₅.columns = aset tyId
        ((w₄.getStorages tyId).set colIdx
          ((w₄.getStorages tyId).getD colIdx [] ++ [v])) w₄.columns := rfl
    rw [hcols5, akeys_aset] at hty
    have htyIn4 : tyId ∈ akeys w₄.columns :=
      (hkeys₄ tyId).mpr (gis.colKeys tyId htcW)
    rw [if_pos htyIn4] at hty
    have h₁ := (hkeys₄ ty).mp hty
    have h₂ := hinv₁.tyLtNext ty h₁
    rw [gis.nextEq] at h₂
    exact h₂
  · intro τ₂ t ht
    rw [htyids5, htyids4] at ht
    have hbase := hinvW.regCols τ₂ t ht
    have h₁ : t ∈ akeys w₁.columns := gis.colKeys t hbase
    have h₂ : t ∈ akeys w₄.columns := (hkeys₄ t).mpr h₁
    show t ∈ akeys (aset tyId
      ((w₄.getStorages tyId).set colIdx
        ((w₄.getStorages tyId).getD colIdx [] ++ [v])) w₄.columns)
    exact mem_akeys_aset h₂

/-- Unfolding equation for `insert_component`. -/
theorem insertComponent_eq (w₀ : World α) (τ : Nat) (e : Entity) (v : α) :
    w₀.insertComponent τ e v =
      (match (w₀.typeToEcsTypeIdOrCreate τ).2.getComponent e
          (w₀.typeToEcsTypeIdOrCreate τ).1 with
      | some old => (some old, (w₀.typeToEcsTypeIdOrCreate τ).2.setComponentCell e
          (w₀.typeToEcsTypeIdOrCreate τ).1 v)
      | none =>
        match (w₀.typeToEcsTypeIdOrCreate τ).2.moveEntityFromInsert e
            (w₀.typeToEcsTypeIdOrCreate τ).1 with
        | none => (none, (w₀.typeToEcsTypeIdOrCreate τ).2)
        | some (destId, w₁) =>
          match alookup (w₀.typeToEcsTypeIdOrCreate τ).1
              (w₁.getArch destId).column_indices with
          | none => (none, w₁)
          | some colIdx =>
            (none, { w₁ with columns := aset (w₀.typeToEcsTypeIdOrCreate τ).1 ((w₁.getStorages (w₀.typeToEcsTypeIdOrCreate τ).1).set colIdx ((w₁.getStorages (w₀.typeToEcsTypeIdOrCreate τ).1).getD colIdx [] ++ [v])) w₁.columns })) := rfl

/-- `insert_component` on a live entity that does not yet have the component:
returns `None`, keeps the invariant, and appends the entity as the last row of
the destination archetype with the inserted value as the last cell of the
component's column there. -/
theorem insertComponent_fresh_spec {w₀ : World α} {τ : Nat} {e : Entity} (v : α)
    (hinv : WInv w₀) {m : EntityMeta}
    (hmeta : w₀.entities.metaGet e = some m)
    (habs : ∀ t, alookup τ w₀.ecs_type_ids = some t →
      t ∉ akeys (w₀.getArch m.archetype).column_indices) :
    ∃ w₅ destId tyId,
      w₀.insertComponent τ e v = (none, w₅) ∧
      WInv w₅ ∧
      w₅.entities.len = w₀.entities.len ∧
      w₅.entities.meta.length = w₀.entities.meta.length ∧
      w₅.entities.meta.get? e.id = some (some ⟨destId⟩) ∧
      (∀ i, i ≠ e.id → w₅.entities.meta.get? i = w₀.entities.meta.get? i) ∧
      alookup τ w₅.ecs_type_ids = some tyId ∧
      tyId ∉ akeys (w₀.getArch m.archetype).column_indices ∧
      destId ≠ m.archetype ∧
      m.archetype < w₅.archetypes.length ∧
      destId < w₅.archetypes.length ∧
      (w₅.getArch m.archetype).column_indices =
        (w₀.getArch m.archetype).column_indices ∧
      keyset (w₅.getArch destId) =
        (akeys (w₀.getArch m.archetype).column_indices ++ [tyId]).toFinset ∧
      ∃ colIdx prev q,
        alookup tyId (w₅.getArch destId).column_indices = some colIdx ∧
        (w₅.getArch destId).entities = prev ++ [e] ∧
        (w₅.getStorages tyId).getD colIdx [] = q ++ [v] ∧
        q.length = prev.length := by
  obtain ⟨hinvW, htyKeyW, hregW, hentsW, harchsW, hstorW⟩ := orCreate_spec hinv τ
  set tyId := (w₀.typeToEcsTypeIdOrCreate τ).1 with htyIdDef
  set w := (w₀.typeToEcsTypeIdOrCreate τ).2 with hwDef
  have hmget₀ := metaGet_eq_some_iff.mp hmeta
  have hsrc₀ : m.archetype < w₀.archetypes.length := hinv.metaLt _ _ hmget₀
  have hgaW : ∀ a, w.getArch a = w₀.getArch a := by
    intro a
    rw [getArch, getArch, harchsW]
  have htNot : tyId ∉ akeys (w₀.getArch m.archetype).column_indices := by
    cases hreg₀ : alookup τ w₀.ecs_type_ids with
    | none =>
      have heq := orCreate_fresh hreg₀
      have h1 : tyId = w₀.next_ecs_type_id := by
        rw [htyIdDef, heq]
      rw [h1]
      intro hmem
      obtain ⟨⟨k, c⟩, hkv, hfst⟩ := List.mem_map.mp hmem
      have hkcol : k ∈ akeys w₀.columns := mem_columns_of_aligned hinv hsrc₀ hkv
      have hklt := hinv.tyLtNext k hkcol
      have hfst₂ : k = w₀.next_ecs_type_id := hfst
      rw [hfst₂] at hklt
      omega
    | some t =>
      have heq := orCreate_registered hreg₀
      have h1 : tyId = t := by
        rw [htyIdDef, heq]
      rw [h1]
      exact habs t hreg₀
  have hmetaW : w.entities.metaGet e = some m := by
    rw [hentsW]
    exact hmeta
  have hmgetW : w.entities.meta.get? e.id = some (some m) :=
    metaGet_eq_some_iff.mp hmetaW
  have hsrcW : m.archetype < w.archetypes.length := by
    rw [harchsW]
    exact hsrc₀
  have htNotW : tyId ∉ akeys (w.getArch m.archetype).column_indices := by
    rw [hgaW]
    exact htNot
  have halive : w.isAlive e = true := by
    show w.entities.isAlive e = true
    exact isAlive_iff_metaGet.mpr ⟨m, hmetaW⟩
  have hgc : w.getComponent e tyId = none := getComponent_absent hmetaW htNotW
  obtain ⟨entityIdx, w₄, heqMove, ⟨hidxLt4, hidxGet4⟩, hfacts⟩ :=
    moveEntityFromInsert_spec hinvW halive hmetaW htNotW htyKeyW
  obtain ⟨hlen4, hmetaLen4, hmetaE4, hmetaO4, htyids4, hnext4, harchLen4,
    hsrcArch4, hdestArch4, hother4, hstOther4, hstSrc4, hkeys4⟩ := hfacts
  have gis := getOrInsertFromInsert_spec hinvW hsrcW htNotW htyKeyW
  have hne := getOrInsertFromInsert_ne hinvW hsrcW htNotW htyKeyW
  set destId := (w.getOrInsertArchetypeFromInsert m.archetype tyId).1
    with hdestIdDef
  set w₁ := (w.getOrInsertArchetypeFromInsert m.archetype tyId).2 with hw₁Def
  have hinv₁ := gis.winv
  have htyDest : tyId ∈ akeys (w₁.getArch destId).column_indices := by
    have h₁ : tyId ∈ keyset (w₁.getArch destId) := by
      rw [gis.destKeys, List.mem_toFinset]
      exact List.mem_append_right _ (List.mem_singleton.mpr rfl)
    rw [keyset, List.mem_toFinset] at h₁
    exact h₁
  obtain ⟨colIdx, hcolIdx⟩ := Option.isSome_iff_exists.mp
    (alookup_isSome_of_mem htyDest)
  have hmgetW₂ : w.entities.meta.get? e.id = some (some ⟨m.archetype⟩) := hmgetW
  have hinv₅ := winv_insertPush v hinvW gis hne hsrcW htNotW htyKeyW
    hidxLt4 hidxGet4 hmgetW₂ hlen4 hmetaLen4 hmetaE4 hmetaO4 htyids4 hnext4
    harchLen4 hsrcArch4 hdestArch4 hother4 hstOther4 hstSrc4 hkeys4 hcolIdx
  set w₅ : World α := { w₄ with columns := aset tyId ((w₄.getStorages tyId).set colIdx ((w₄.getStorages tyId).getD colIdx [] ++ [v])) w₄.columns } with hw₅Def
  have hciDest4 : (w₄.getArch destId).column_indices =
      (w₁.getArch destId).column_indices := by
    rw [hdestArch4]
  have hstT41 : w₄.getStorages tyId = w₁.getStorages tyId :=
    hstOther4 tyId htNotW
  have hcolIdxLt : colIdx < (w₁.getStorages tyId).length :=
    (hinv₁.aligned destId gis.destLt tyId colIdx (mem_of_alookup_some hcolIdx)).1
  have hcolLenD : ((w₁.getStorages tyId).getD colIdx []).length =
      (w₁.getArch destId).entities.length :=
    (hinv₁.aligned destId gis.destLt tyId colIdx (mem_of_alookup_some hcolIdx)).2
  have heqIns : w₀.insertComponent τ e v = (none, w₅) := by
    rw [insertComponent_eq]
    rw [← htyIdDef, ← hwDef]
    simp only [hgc, heqMove]
    have h₂ : alookup tyId (w₄.getArch destId).column_indices = some colIdx := by
      rw [hciDest4]
      exact hcolIdx
    simp only [h₂]
  refine ⟨w₅, destId, tyId, heqIns, hinv₅, ?_, ?_, ?_, ?_, ?_, htNot, hne,
    ?_, ?_, ?_, ?_, ?_⟩
  · show w₄.entities.len = w₀.entities.len
    rw [hlen4, hentsW]
  · show w₄.entities.meta.length = w₀.entities.meta.length
    rw [hmetaLen4, hentsW]
  · exact hmetaE4
  · intro i hi
    show w₄.entities.meta.get? i = w₀.entities.meta.get? i
    rw [hmetaO4 i hi, hentsW]
  · show alookup τ w₄.ecs_type_ids = some tyId
    rw [htyids4]
    exact hregW
  · show m.archetype < w₄.archetypes.length
    rw [harchLen4]
    have h₁ := gis.lenGe
    omega
  · show destId < w₄.archetypes.length
    rw [harchLen4]
    exact gis.destLt
  · show (w₄.getArch m.archetype).column_indices = _
    rw [hsrcArch4]
    show (w.getArch m.archetype).column_indices = _
    rw [hgaW]
  · have h := gis.destKeys
    rw [hgaW m.archetype] at h
    show keyset (w₄.getArch destId) = _
    rw [show keyset (w₄.getArch destId) = keyset (w₁.getArch destId) from by
      simp only [keyset]; rw [hciDest4]]
    exact h
  · refine ⟨colIdx, (w₁.getArch destId).entities,
      (w₁.getStorages tyId).getD colIdx [], ?_, ?_, ?_, ?_⟩
    · show alookup tyId (w₄.getArch destId).column_indices = some colIdx
      rw [hciDest4]
      exact hcolIdx
    · show (w₄.getArch destId).entities = _
      rw [hdestArch4]
    · show (w₅.getStorages tyId).getD colIdx [] = _
      have hst5T : w₅.getStorages tyId =
          (w₄.getStorages tyId).set colIdx
            ((w₄.getStorages tyId).getD colIdx [] ++ [v]) := by
        show (alookup tyId _).getD [] = _
        rw [alookup_aset_self]
        rfl
      rw [hst5T, getD_set_self (by rw [hstT41]; exact hcolIdxLt), hstT41]
    · rw [hcolLenD]

/-- `insert_component` preserves the world invariant. -/
theorem winv_insertComponent {w₀ : World α} {τ : Nat} {e : Entity} {v : α}
    (hinv : WInv w₀) : WInv (w₀.insertComponent τ e v).2 := by
  obtain ⟨hinvW, htyKeyW, hregW, hentsW, harchsW, hstorW⟩ := orCreate_spec hinv τ
  set tyId := (w₀.typeToEcsTypeIdOrCreate τ).1 with htyIdDef
  set w := (w₀.typeToEcsTypeIdOrCreate τ).2 with hwDef
  have hgaW : ∀ a, w.getArch a = w₀.getArch a := by
    intro a
    rw [getArch, getArch, harchsW]
  cases hgc : w.getComponent e tyId with
  | some old =>
    have h₁ : (w₀.insertComponent τ e v).2 = w.setComponentCell e tyId v := by
      rw [insertComponent_eq, ← htyIdDef, ← hwDef]
      simp only [hgc]
    rw [h₁]
    exact winv_setComponentCell hinvW
  | none =>
    cases hmetaW : w.entities.metaGet e with
    | none =>
      have hdead : w.isAlive e = false := by
        show w.entities.isAlive e = false
        exact isAlive_iff_metaGet_false.mpr hmetaW
      have h₁ : (w₀.insertComponent τ e v).2 = w := by
        rw [insertComponent_eq, ← htyIdDef, ← hwDef]
        simp only [hgc, moveEntityFromInsert_dead hdead]
      rw [h₁]
      exact hinvW
    | some m =>
      have htNotW : tyId ∉ akeys (w.getArch m.archetype).column_indices := by
        intro hc
        have h₂ := getComponent_isSome hinvW hmetaW hc
        rw [hgc] at h₂
        simp at h₂
      have hmeta₀ : w₀.entities.metaGet e = some m := by
        rw [← hentsW]
        exact hmetaW
      have habs : ∀ t, alookup τ w₀.ecs_type_ids = some t →
          t ∉ akeys (w₀.getArch m.archetype).column_indices := by
        intro t hreg₀ hmem
        have heq := orCreate_registered hreg₀
        have h1 : tyId = t := by
          rw [htyIdDef, heq]
        apply htNotW
        rw [h1, hgaW]
        exact hmem
      obtain ⟨w₅, dI, tI, heq, hinv₅, _⟩ :=
        insertComponent_fresh_spec v hinv hmeta₀ habs
      rw [heq]
      exact hinv₅

end InsertInv

/-! ### Invariant preservation through `remove_component` -/

section RemoveInv

variable {w w₁ w₄ : World α} {e : Entity} {src tyId destId entityIdx colIdx : Nat}

/-- After `move_entity_from_remove` (whose effects are the hypotheses below)
and the final swap-remove of the removed component's cell out of the source
archetype's column, the world invariant holds again. -/
theorem winv_removePull
    (hinvW : WInv w)
    (gis : GOISpec w w₁ destId
      ((akeys (w.getArch src).column_indices).filter (fun ty => ty ≠ tyId)))
    (hne : destId ≠ src)
    (hsrcW : src < w.archetypes.length)
    (ht : tyId ∈ akeys (w.getArch src).column_indices)
    (htcW : tyId ∈ akeys w.columns)
    (hidxLt : entityIdx < (w.getArch src).entities.length)
    (hidxGet : (w.getArch src).entities.get? entityIdx = some e)
    (hmgetW : w.entities.meta.get? e.id = some (some ⟨src⟩))
    (hlen : w₄.entities.len = w.entities.len)
    (hmetaLen : w₄.entities.meta.length = w.entities.meta.length)
    (hmetaE : w₄.entities.meta.get? e.id = some (some ⟨destId⟩))
    (hmetaO : ∀ i, i ≠ e.id → w₄.entities.meta.get? i = w.entities.meta.get? i)
    (htyids4 : w₄.ecs_type_ids = w.ecs_type_ids)
    (hnext4 : w₄.next_ecs_type_id = w.next_ecs_type_id)
    (harchLen : w₄.archetypes.length = w₁.archetypes.length)
    (hsrcArch₄ : w₄.getArch src = { w.getArch src with
      entities := listSwapRemove (w.getArch src).entities entityIdx })
    (hdestArch₄ : w₄.getArch destId = { w₁.getArch destId with
      entities := (w₁.getArch destId).entities ++ [e] })
    (hother₄ : ∀ a, a ≠ src → a ≠ destId → w₄.getArch a = w₁.getArch a)
    (hstOther₄ : ∀ ty, ty ∉ akeys (w₁.getArch destId).column_indices →
      w₄.getStorages ty = w₁.getStorages ty)
    (hstDest₄ : ∀ ty newCol, (ty, newCol) ∈ (w₁.getArch destId).column_indices →
      ∃ oldCol, alookup ty (w.getArch src).column_indices = some oldCol ∧
        w₄.getStorages ty = moveCellStep entityIdx oldCol newCol (w₁.getStorages ty))
    (hkeys₄ : ∀ ty, ty ∈ akeys w₄.columns ↔ ty ∈ akeys w₁.columns)
    (hcolIdx : alookup tyId (w.getArch src).column_indices = some colIdx) :
    WInv { w₄ with columns := aset tyId ((w₄.getStorages tyId).set colIdx (listSwapRemove ((w₄.getStorages tyId).getD colIdx []) entityIdx)) w₄.columns } := by
  set w₅ : World α := { w₄ with columns := aset tyId ((w₄.getStorages tyId).set colIdx (listSwapRemove ((w₄.getStorages tyId).getD colIdx []) entityIdx)) w₄.columns } with hw₅
  have hinv₁ := gis.winv
  have harchPres := gis.archPres
  have hsrcLt₁ : src < w₁.archetypes.length := Nat.lt_of_lt_of_le hsrcW gis.lenGe
  have hdestLt₁ := gis.destLt
  have hsrcArchW : w₁.getArch src = w.getArch src := harchPres src hsrcW
  have hents5 : w₅.entities = w₄.entities := rfl
  have harchs5 : w₅.archetypes = w₄.archetypes := rfl
  have hga5 : ∀ a, w₅.getArch a = w₄.getArch a := fun _ => rfl
  have htyids5 : w₅.ecs_type_ids = w₄.ecs_type_ids := rfl
  have hnext5 : w₅.next_ecs_type_id = w₄.next_ecs_type_id := rfl
  have hst5T : w₅.getStorages tyId =
      (w₄.getStorages tyId).set colIdx
        (listSwapRemove ((w₄.getStorages tyId).getD colIdx []) entityIdx) := by
    show (alookup tyId _).getD [] = _
    rw [alookup_aset_self]
    rfl
  have hst5O : ∀ ty, ty ≠ tyId → w₅.getStorages ty = w₄.getStorages ty := by
    intro ty hne₂
    show (alookup ty _).getD [] = _
    rw [alookup_aset_ne _ _ (fun h => hne₂ h.symm)]
    rfl
  have htNotDest : tyId ∉ akeys (w₁.getArch destId).column_indices := by
    intro hc
    have h₁ : tyId ∈ keyset (w₁.getArch destId) := by
      rw [keyset, List.mem_toFinset]
      exact hc
    rw [gis.destKeys, List.mem_toFinset, List.mem_filter] at h₁
    simp at h₁
  have hstT41 : w₄.getStorages tyId = w₁.getStorages tyId :=
    hstOther₄ tyId htNotDest
  have hcolIdxMemW : (tyId, colIdx) ∈ (w.getArch src).column_indices :=
    mem_of_alookup_some hcolIdx
  have hAlSrcT := hinvW.aligned src hsrcW tyId colIdx hcolIdxMemW
  have hstPresT : (w₁.getStorages tyId).getD colIdx [] =
      (w.getStorages tyId).getD colIdx [] := gis.stPres tyId colIdx hAlSrcT.1
  have hT1len : ((w₁.getStorages tyId).getD colIdx []).length =
      (w.getArch src).entities.length := by
    rw [hstPresT]
    exact hAlSrcT.2
  have hcolIdxLt₁ : colIdx < (w₁.getStorages tyId).length := by
    have h₁ := gis.stLen tyId
    have h₂ := hAlSrcT.1
    omega
  have hDestKey : ∀ ty, ty ∈ akeys (w₁.getArch destId).column_indices →
      ty ∈ akeys (w.getArch src).column_indices ∧ ty ≠ tyId := by
    intro ty hty
    have h₁ : ty ∈ keyset (w₁.getArch destId) := by
      rw [keyset, List.mem_toFinset]
      exact hty
    rw [gis.destKeys, List.mem_toFinset, List.mem_filter] at h₁
    exact ⟨h₁.1, by simpa using h₁.2⟩
  have hSrcToDest : ∀ ty, ty ∈ akeys (w.getArch src).column_indices →
      ty ≠ tyId → ty ∈ akeys (w₁.getArch destId).column_indices := by
    intro ty hty hne₂
    have h₁ : ty ∈ keyset (w₁.getArch destId) := by
      rw [gis.destKeys, List.mem_toFinset, List.mem_filter]
      exact ⟨hty, by simpa using hne₂⟩
    rw [keyset, List.mem_toFinset] at h₁
    exact h₁
  have hidxGetElem : (w.getArch src).entities.get ⟨entityIdx, hidxLt⟩ = e := by
    have h := hidxGet
    rw [List.get?_eq_getElem?, List.getElem?_eq_getElem hidxLt] at h
    exact Option.some.inj h
  have hndSrc : (w.getArch src).entities.Nodup := hinvW.entNodup src
  have heNotSwap : e ∉ listSwapRemove (w.getArch src).entities entityIdx :=
    not_mem_listSwapRemove hndSrc hidxLt hidxGetElem
  have heNotInDest : e ∉ (w₁.getArch destId).entities := by
    rcases gis.reuseOrNew with hlt | ⟨_, hemp, _⟩
    · intro hmem
      rw [harchPres destId hlt] at hmem
      have hmm := hinvW.metaOfMem destId hlt e hmem
      rw [hmgetW] at hmm
      have h₂ := Option.some.inj (Option.some.inj hmm)
      exact hne (congrArg EntityMeta.archetype h₂).symm
    · rw [hemp]
      exact List.not_mem_nil e
  have hciSrc : (w₄.getArch src).column_indices =
      (w.getArch src).column_indices := by
    rw [hsrcArch₄]
  have hciDest : (w₄.getArch destId).column_indices =
      (w₁.getArch destId).column_indices := by
    rw [hdestArch₄]
  have hci5 : ∀ a, a < w₁.archetypes.length →
      (w₄.getArch a).column_indices = (w₁.getArch a).column_indices := by
    intro a ha
    by_cases has : a = src
    · subst a
      rw [hciSrc, hsrcArchW]
    · by_cases had : a = destId
      · subst a
        exact hciDest
      · rw [hother₄ a has had]
  have hMove : ∀ ty newCol, (ty, newCol) ∈ (w₁.getArch destId).column_indices →
      ∃ oldCol,
        alookup ty (w.getArch src).column_indices = some oldCol ∧
        oldCol ≠ newCol ∧
        (w₄.getStorages ty).length = (w₁.getStorages ty).length ∧
        ((w₄.getStorages ty).getD oldCol []).length =
          (w.getArch src).entities.length - 1 ∧
        ((w₄.getStorages ty).getD newCol []).length =
          (w₁.getArch destId).entities.length + 1 ∧
        (∀ c, c ≠ oldCol → c ≠ newCol →
          (w₄.getStorages ty).getD c [] = (w₁.getStorages ty).getD c []) := by
    intro ty newCol hmem
    obtain ⟨oldCol, holc, heq4⟩ := hstDest₄ ty newCol hmem
    have holcMem := mem_of_alookup_some holc
    have holcMem₁ : (ty, oldCol) ∈ (w₁.getArch src).column_indices := by
      rw [hsrcArchW]
      exact holcMem
    have hAlSrc := hinvW.aligned src hsrcW ty oldCol holcMem
    have hAlD := hinv₁.aligned destId hdestLt₁ ty newCol hmem
    have hOldNe : oldCol ≠ newCol :=
      hinv₁.colInj src destId hsrcLt₁ hdestLt₁ (fun h => hne h.symm)
        ty oldCol newCol holcMem₁ hmem
    have hstPresOld : (w₁.getStorages ty).getD oldCol [] =
        (w.getStorages ty).getD oldCol [] := gis.stPres ty oldCol hAlSrc.1
    have hOldLen : ((w₁.getStorages ty).getD oldCol []).length =
        (w.getArch src).entities.length := by
      rw [hstPresOld]
      exact hAlSrc.2
    have hcellSome : (((w₁.getStorages ty).getD oldCol []).get? entityIdx).isSome := by
      rw [List.get?_eq_getElem?,
        List.getElem?_eq_getElem (by rw [hOldLen]; exact hidxLt)]
      rfl
    obtain ⟨cell, hcell⟩ := Option.isSome_iff_exists.mp hcellSome
    obtain ⟨hmlen, hmold, hmnew, hmoth⟩ := moveCellStep_spec hOldNe hAlD.1 hcell
    refine ⟨oldCol, holc, hOldNe, ?_, ?_, ?_, ?_⟩
    · rw [heq4]
      exact hmlen
    · rw [heq4, hmold, length_listSwapRemove (by rw [hOldLen]; exact hidxLt),
        hOldLen]
    · rw [heq4, hmnew, List.length_append, hAlD.2]
      rfl
    · intro c hc1 hc2
      rw [heq4]
      exact hmoth c hc1 hc2
  refine ⟨?_, ?_, ?_, ?_, ?_, ?_, ?_, ?_, ?_, ?_, ?_, ?_, ?_⟩
  · intro hnil
    have h₀ : 0 < w.archetypes.length := List.length_pos.mpr hinvW.archNe
    have hL := congrArg List.length hnil
    rw [harchs5] at hL
    simp only [List.length_nil] at hL
    rw [harchLen] at hL
    have := gis.lenGe
    omega
  · rw [hga5]
    by_cases h0d : destId = 0
    · have h₁ : (w₄.getArch 0).column_indices =
          (w₁.getArch 0).column_indices := by
        rw [← h0d]
        exact hciDest
      rw [h₁]
      exact hinv₁.arch0
    · by_cases h0s : src = 0
      · have h₁ : (w₄.getArch 0).column_indices =
            (w.getArch 0).column_indices := by
          rw [← h0s]
          exact hciSrc
        rw [h₁]
        exact hinvW.arch0
      · rw [hother₄ 0 (fun h => h0s h.symm) (fun h => h0d h.symm)]
        exact hinv₁.arch0
  · show w₄.entities.meta.length ≤ w₄.entities.len
    rw [hmetaLen, hlen]
    exact hinvW.metaLen
  · intro i m' hm'
    rw [hents5] at hm'
    rw [harchs5, harchLen]
    by_cases hie : i = e.id
    · subst i
      rw [hmetaE] at hm'
      obtain h := Option.some.inj (Option.some.inj hm')
      rw [← h]
      exact hdestLt₁
    · rw [hmetaO i hie] at hm'
      have h₁ := hinvW.metaLt i m' hm'
      have h₂ := gis.lenGe
      omega
  · intro i m' hm'
    rw [hents5] at hm'
    rw [hga5]
    by_cases hie : i = e.id
    · subst i
      rw [hmetaE] at hm'
      obtain h := Option.some.inj (Option.some.inj hm')
      rw [← h]
      rw [hdestArch₄]
      show Entity.mk e.id ∈ (w₁.getArch destId).entities ++ [e]
      have he : Entity.mk e.id = e := rfl
      rw [he]
      exact List.mem_append_right _ (List.mem_singleton.mpr rfl)
    · rw [hmetaO i hie] at hm'
      have hbase := hinvW.memOfMeta i m' hm'
      have hneid : Entity.mk i ≠ e := fun h => hie (congrArg Entity.id h)
      by_cases hma : m'.archetype = src
      · rw [hma] at hbase ⊢
        rw [hsrcArch₄]
        show Entity.mk i ∈ listSwapRemove (w.getArch src).entities entityIdx
        exact mem_listSwapRemove_of_ne hidxLt hidxGetElem hbase hneid
      · by_cases hmd : m'.archetype = destId
        · rw [hmd] at hbase ⊢
          rw [hdestArch₄]
          show Entity.mk i ∈ (w₁.getArch destId).entities ++ [e]
          apply List.mem_append_left
          have hdLtW : destId < w.archetypes.length := by
            have h₁ := hinvW.metaLt i m' hm'
            rw [hmd] at h₁
            exact h₁
          rw [harchPres destId hdLtW]
          exact hbase
        · rw [hother₄ m'.archetype hma hmd]
          rw [harchPres m'.archetype (hinvW.metaLt i m' hm')]
          exact hbase
  · intro a ha e' he'
    rw [harchs5, harchLen] at ha
    rw [hga5] at he'
    rw [hents5]
    by_cases had : a = destId
    · subst a
      rw [hdestArch₄] at he'
      have he'' : e' ∈ (w₁.getArch destId).entities ++ [e] := he'
      rcases List.mem_append.mp he'' with hmem | hmem
      · rcases gis.reuseOrNew with hlt | ⟨_, hemp, _⟩
        · rw [harchPres destId hlt] at hmem
          have hbase := hinvW.metaOfMem destId hlt e' hmem
          have hneid : e'.id ≠ e.id := by
            intro h
            rw [h, hmgetW] at hbase
            have h₂ := Option.some.inj (Option.some.inj hbase)
            exact hne (congrArg EntityMeta.archetype h₂).symm
          rw [hmetaO e'.id hneid]
          exact hbase
        · rw [hemp] at hmem
          simp at hmem
      · have he₃ : e' = e := by simpa using hmem
        rw [he₃]
        exact hmetaE
    · by_cases has : a = src
      · subst a
        rw [hsrcArch₄] at he'
        have he'' : e' ∈ listSwapRemove (w.getArch src).entities entityIdx := he'
        have hmem₀ : e' ∈ (w.getArch src).entities :=
          mem_listSwapRemove_of_mem hidxLt he''
        have hbase := hinvW.metaOfMem src hsrcW e' hmem₀
        have hne' : e' ≠ e := by
          intro h
          rw [h] at he''
          exact heNotSwap he''
        have hneid : e'.id ≠ e.id := by
          intro h
          apply hne'
          have h1 : e' = Entity.mk e'.id := rfl
          have h2 : e = Entity.mk e.id := rfl
          rw [h1, h2, h]
        rw [hmetaO e'.id hneid]
        exact hbase
      · have harch := hother₄ a has had
        rw [harch] at he'
        rcases Nat.lt_or_ge a w.archetypes.length with haw | haw
        · rw [harchPres a haw] at he'
          have hbase := hinvW.metaOfMem a haw e' he'
          have hneid : e'.id ≠ e.id := by
            intro h
            rw [h, hmgetW] at hbase
            have h₂ := Option.some.inj (Option.some.inj hbase)
            exact has (congrArg EntityMeta.archetype h₂).symm
          rw [hmetaO e'.id hneid]
          exact hbase
        · exfalso
          rcases gis.lenCases with hl | ⟨hl, hd⟩
          · omega
          · apply had
            omega
  · intro a
    rw [hga5]
    by_cases had : a = destId
    · subst a
      rw [hdestArch₄]
      show ((w₁.getArch destId).entities ++ [e]).Nodup
      rw [List.nodup_append]
      exact ⟨hinv₁.entNodup destId, List.nodup_singleton e,
        fun x hx => by simp; rintro rfl; exact heNotInDest hx⟩
    · by_cases has : a = src
      · subst a
        rw [hsrcArch₄]
        show (listSwapRemove (w.getArch src).entities entityIdx).Nodup
        exact nodup_listSwapRemove hidxLt hndSrc
      · rw [hother₄ a has had]
        exact hinv₁.entNodup a
  · intro a
    rw [hga5]
    by_cases had : a = destId
    · subst a
      rw [hciDest]
      exact hinv₁.ciNodup destId
    · by_cases has : a = src
      · subst a
        rw [hciSrc]
        exact hinvW.ciNodup src
      · rw [hother₄ a has had]
        exact hinv₁.ciNodup a
  · intro a ha ty col hmem
    rw [harchs5, harchLen] at ha
    rw [hga5] at hmem ⊢
    by_cases has : a = src
    · subst a
      rw [hciSrc] at hmem
      by_cases hty : ty = tyId
      · subst ty
        have hcoleq : col = colIdx := by
          have h := alookup_of_mem_nodup (hinvW.ciNodup src) hmem
          rw [hcolIdx] at h
          exact (Option.some.inj h).symm
        subst col
        refine ⟨?_, ?_⟩
        · rw [hst5T, List.length_set, hstT41]
          exact hcolIdxLt₁
        · rw [hst5T, getD_set_self (by rw [hstT41]; exact hcolIdxLt₁), hstT41,
            hsrcArch₄]
          show (listSwapRemove ((w₁.getStorages tyId).getD colIdx []) entityIdx).length =
            (listSwapRemove (w.getArch src).entities entityIdx).length
          rw [length_listSwapRemove (by rw [hT1len]; exact hidxLt),
            length_listSwapRemove hidxLt, hT1len]
      · have htyD : ty ∈ akeys (w₁.getArch destId).column_indices :=
          hSrcToDest ty (List.mem_map_of_mem Prod.fst hmem) hty
        obtain ⟨newCol, hnewCol⟩ := Option.isSome_iff_exists.mp
          (alookup_isSome_of_mem htyD)
        obtain ⟨oldCol, holc, hOldNe, hmlen, hmoldLen, hmnewLen, hmoth⟩ :=
          hMove ty newCol (mem_of_alookup_some hnewCol)
        have hcoleq : col = oldCol := by
          have h := alookup_of_mem_nodup (hinvW.ciNodup src) hmem
          rw [holc] at h
          exact (Option.some.inj h).symm
        subst col
        refine ⟨?_, ?_⟩
        · rw [hst5O ty hty, hmlen]
          have h₁ := (hinvW.aligned src hsrcW ty oldCol hmem).1
          have h₂ := gis.stLen ty
          omega
        · rw [hst5O ty hty, hsrcArch₄]
          show ((w₄.getStorages ty).getD oldCol []).length =
            (listSwapRemove (w.getArch src).entities entityIdx).length
          rw [hmoldLen, length_listSwapRemove hidxLt]
    · by_cases had : a = destId
      · subst a
        rw [hciDest] at hmem
        have htyne : ty ≠ tyId :=
          (hDestKey ty (List.mem_map_of_mem Prod.fst hmem)).2
        obtain ⟨oldCol, holc, hOldNe, hmlen, hmoldLen, hmnewLen, hmoth⟩ :=
          hMove ty col hmem
        refine ⟨?_, ?_⟩
        · rw [hst5O ty htyne, hmlen]
          exact (hinv₁.aligned destId hdestLt₁ ty col hmem).1
        · rw [hst5O ty htyne, hdestArch₄]
          show ((w₄.getStorages ty).getD col []).length =
            ((w₁.getArch destId).entities ++ [e]).length
          rw [hmnewLen]
          simp
      · have harch := hother₄ a has had
        rw [harch] at hmem ⊢
        have hbase := hinv₁.aligned a ha ty col hmem
        by_cases hty : ty = tyId
        · subst ty
          have hcolIdxMem₁ : (tyId, colIdx) ∈ (w₁.getArch src).column_indices := by
            rw [hsrcArchW]
            exact hcolIdxMemW
          have hcolne : col ≠ colIdx :=
            hinv₁.colInj a src ha hsrcLt₁ has tyId col colIdx hmem hcolIdxMem₁
          refine ⟨?_, ?_⟩
          · rw [hst5T, List.length_set, hstT41]
            exact hbase.1
          · rw [hst5T, getD_set_ne (fun h => hcolne h.symm), hstT41]
            exact hbase.2
        · by_cases htyD : ty ∈ akeys (w₁.getArch destId).column_indices
          · obtain ⟨newCol, hnewCol⟩ := Option.isSome_iff_exists.mp
              (alookup_isSome_of_mem htyD)
            obtain ⟨oldCol, holc, hOldNe, hmlen, hmoldLen, hmnewLen, hmoth⟩ :=
              hMove ty newCol (mem_of_alookup_some hnewCol)
            have hco : col ≠ oldCol := by
              apply hinv₁.colInj a src ha hsrcLt₁ has ty col oldCol hmem
              rw [hsrcArchW]
              exact mem_of_alookup_some holc
            have hcn : col ≠ newCol :=
              hinv₁.colInj a destId ha hdestLt₁ had ty col newCol hmem
                (mem_of_alookup_some hnewCol)
            refine ⟨?_, ?_⟩
            · rw [hst5O ty hty, hmlen]
              exact hbase.1
            · rw [hst5O ty hty, hmoth col hco hcn]
              exact hbase.2
          · rw [hst5O ty hty, hstOther₄ ty htyD]
            exact hbase
  · intro a b ha hb hab ty ca cb hma hmb
    rw [harchs5, harchLen] at ha hb
    rw [hga5] at hma hmb
    rw [hci5 a ha] at hma
    rw [hci5 b hb] at hmb
    exact hinv₁.colInj a b ha hb hab ty ca cb hma hmb
  · intro a b ha hb hab
    rw [harchs5, harchLen] at ha hb
    have hk : ∀ c, c < w₁.archetypes.length →
        keyset (w₅.getArch c) = keyset (w₁.getArch c) := by
      intro c hc
      simp only [keyset]
      rw [hga5, hci5 c hc]
    rw [hk a ha, hk b hb]
    exact hinv₁.uniq a b ha hb hab
  · intro ty hty
    rw [hnext5, hnext4]
    have hcols5 : w₅.columns = aset tyId
        ((w₄.getStorages tyId).set colIdx
          (listSwapRemove ((w₄.getStorages tyId).getD colIdx []) entityIdx))
        w₄.columns := rfl
    rw [hcols5, akeys_aset] at hty
    have htyIn4 : tyId ∈ akeys w₄.columns :=
      (hkeys₄ tyId).mpr (gis.colKeys tyId htcW)
    rw [if_pos htyIn4] at hty
    have h₁ := (hkeys₄ ty).mp hty
    have h₂ := hinv₁.tyLtNext ty h₁
    rw [gis.nextEq] at h₂
    exact h₂
  · intro τ₂ t ht₂
    rw [htyids5, htyids4] at ht₂
    have hbase := hinvW.regCols τ₂ t ht₂
    have h₁ : t ∈ akeys w₁.columns := gis.colKeys t hbase
    have h₂ : t ∈ akeys w₄.columns := (hkeys₄ t).mpr h₁
    show t ∈ akeys (aset tyId
      ((w₄.getStorages tyId).set colIdx
        (listSwapRemove ((w₄.getStorages tyId).getD colIdx []) entityIdx))
      w₄.columns)
    exact mem_akeys_aset h₂

/-- Unfolding equation for `remove_component`. -/
theorem removeComponent_eq (w : World α) (τ : Nat) (e : Entity) :
    w.removeComponent τ e =
      (match alookup τ w.ecs_type_ids with
      | none => (none, w)
      | some tyId =>
        match w.hasComponentDynamic e tyId with
        | none => (none, w)
        | some false => (none, w)
        | some true =>
          match w.moveEntityFromRemove e tyId with
          | none => (none, w)
          | some (entityIdx, srcId, w₁) =>
            match alookup tyId (w₁.getArch srcId).column_indices with
            | none => (none, w₁)
            | some colIdx =>
              (((w₁.getStorages tyId).getD colIdx []).get? entityIdx,
                { w₁ with columns := aset tyId ((w₁.getStorages tyId).set colIdx (listSwapRemove ((w₁.getStorages tyId).getD colIdx []) entityIdx)) w₁.columns })) := rfl

/-- `remove_component` on a live entity that has the component: returns the
cell at the entity's row of the component's column, keeps the invariant, and
moves the entity to the unique archetype whose key set drops the removed id. -/
theorem removeComponent_present_spec {w : World α} {τ tyId : Nat} {e : Entity}
    (hinv : WInv w) {m : EntityMeta}
    (hreg : alookup τ w.ecs_type_ids = some tyId)
    (hmeta : w.entities.metaGet e = some m)
    (ht : tyId ∈ akeys (w.getArch m.archetype).column_indices) :
    ∃ w₅ destId entityIdx colIdx,
      alookup tyId (w.getArch m.archetype).column_indices = some colIdx ∧
      (w.getArch m.archetype).entities.get? entityIdx = some e ∧
      w.removeComponent τ e =
        (((w.getStorages tyId).getD colIdx []).get? entityIdx, w₅) ∧
      WInv w₅ ∧
      w₅.entities.len = w.entities.len ∧
      w₅.entities.meta.length = w.entities.meta.length ∧
      w₅.entities.meta.get? e.id = some (some ⟨destId⟩) ∧
      (∀ i, i ≠ e.id → w₅.entities.meta.get? i = w.entities.meta.get? i) ∧
      destId < w₅.archetypes.length ∧
      keyset (w₅.getArch destId) =
        ((akeys (w.getArch m.archetype).column_indices).filter
          (fun ty => ty ≠ tyId)).toFinset ∧
      e ∈ (w₅.getArch destId).entities ∧
      (∀ a, a < w.archetypes.length →
        (w₅.getArch a).column_indices = (w.getArch a).column_indices) ∧
      (∀ a, a < w.archetypes.length →
        keyset (w.getArch a) =
          ((akeys (w.getArch m.archetype).column_indices).filter
            (fun ty => ty ≠ tyId)).toFinset → destId = a) := by
  have hmget := metaGet_eq_some_iff.mp hmeta
  have hsrc : m.archetype < w.archetypes.length := hinv.metaLt _ _ hmget
  have halive : w.isAlive e = true := by
    show w.entities.isAlive e = true
    exact isAlive_iff_metaGet.mpr ⟨m, hmeta⟩
  have hhc : w.hasComponentDynamic e tyId = some true := by
    simp only [hasComponentDynamic, hmeta]
    rw [alookup_isSome_of_mem ht]
  obtain ⟨colIdx, hcolIdx⟩ := Option.isSome_iff_exists.mp
    (alookup_isSome_of_mem ht)
  obtain ⟨entityIdx, w₄, heqMove, ⟨hidxLt4, hidxGet4⟩, hfacts⟩ :=
    moveEntityFromRemove_spec hinv halive hmeta ht
  obtain ⟨hlen4, hmetaLen4, hmetaE4, hmetaO4, htyids4, hnext4, harchLen4,
    hsrcArch4, hdestArch4, hother4, hstOther4, hstDest4, hkeys4⟩ := hfacts
  have gis := getOrInsertFromRemove_spec hinv tyId hsrc
  have hne := getOrInsertFromRemove_ne hinv hsrc ht
  set destId := (w.getOrInsertArchetypeFromRemove m.archetype tyId).1
    with hdestIdDef
  set w₁ := (w.getOrInsertArchetypeFromRemove m.archetype tyId).2 with hw₁Def
  have hinv₁ := gis.winv
  have htNotDest : tyId ∉ akeys (w₁.getArch destId).column_indices := by
    intro hc
    have h₁ : tyId ∈ keyset (w₁.getArch destId) := by
      rw [keyset, List.mem_toFinset]
      exact hc
    rw [gis.destKeys, List.mem_toFinset, List.mem_filter] at h₁
    simp at h₁
  have htcW : tyId ∈ akeys w.columns := hinv.regCols τ tyId hreg
  have hmgetW₂ : w.entities.meta.get? e.id = some (some ⟨m.archetype⟩) := hmget
  have hinv₅ := winv_removePull hinv gis hne hsrc ht htcW
    hidxLt4 hidxGet4 hmgetW₂ hlen4 hmetaLen4 hmetaE4 hmetaO4 htyids4 hnext4
    harchLen4 hsrcArch4 hdestArch4 hother4 hstOther4 hstDest4 hkeys4 hcolIdx
  set w₅ : World α := { w₄ with columns := aset tyId ((w₄.getStorages tyId).set colIdx (listSwapRemove ((w₄.getStorages tyId).getD colIdx []) entityIdx)) w₄.columns } with hw₅Def
  have hciSrc4 : (w₄.getArch m.archetype).column_indices =
      (w.getArch m.archetype).column_indices := by
    rw [hsrcArch4]
  have hciDest4 : (w₄.getArch destId).column_indices =
      (w₁.getArch destId).column_indices := by
    rw [hdestArch4]
  have hc4 : alookup tyId (w₄.getArch m.archetype).column_indices = some colIdx := by
    rw [hciSrc4]
    exact hcolIdx
  have hstT41 : w₄.getStorages tyId = w₁.getStorages tyId :=
    hstOther4 tyId htNotDest
  have hAlT := hinv.aligned m.archetype hsrc tyId colIdx
    (mem_of_alookup_some hcolIdx)
  have hstPresT : (w₁.getStorages tyId).getD colIdx [] =
      (w.getStorages tyId).getD colIdx [] := gis.stPres tyId colIdx hAlT.1
  have heqRem : w.removeComponent τ e =
      (((w.getStorages tyId).getD colIdx []).get? entityIdx, w₅) := by
    rw [removeComponent_eq]
    simp only [hreg, hhc, heqMove, hc4]
    have hcell : ((w₄.getStorages tyId).getD colIdx []).get? entityIdx =
        ((w.getStorages tyId).getD colIdx []).get? entityIdx := by
      rw [hstT41, hstPresT]
    rw [hcell]
  refine ⟨w₅, destId, entityIdx, colIdx, hcolIdx, hidxGet4, heqRem, hinv₅,
    ?_, ?_, ?_, ?_, ?_, ?_, ?_, ?_, ?_⟩
  · show w₄.entities.len = w.entities.len
    exact hlen4
  · show w₄.entities.meta.length = w.entities.meta.length
    exact hmetaLen4
  · exact hmetaE4
  · intro i hi
    show w₄.entities.meta.get? i = w.entities.meta.get? i
    exact hmetaO4 i hi
  · show destId < w₄.archetypes.length
    rw [harchLen4]
    exact gis.destLt
  · show keyset (w₄.getArch destId) = _
    rw [show keyset (w₄.getArch destId) = keyset (w₁.getArch destId) from by
      simp only [keyset]; rw [hciDest4]]
    exact gis.destKeys
  · show e ∈ (w₄.getArch destId).entities
    rw [hdestArch4]
    show e ∈ (w₁.getArch destId).entities ++ [e]
    exact List.mem_append_right _ (List.mem_singleton.mpr rfl)
  · intro a ha
    show (w₄.getArch a).column_indices = _
    by_cases has : a = m.archetype
    · subst a
      exact hciSrc4
    · by_cases had : a = destId
      · subst a
        rw [hciDest4]
        rw [show w₁.getArch destId = w.getArch destId from gis.archPres destId ha]
      · rw [hother4 a has had]
        rw [show w₁.getArch a = w.getArch a from gis.archPres a ha]
  · intro a ha hk
    rcases gis.reuseOrNew with hlt | ⟨_, _, hnomatch⟩
    · have hkD : keyset (w.getArch destId) =
          ((akeys (w.getArch m.archetype).column_indices).filter
            (fun ty => ty ≠ tyId)).toFinset := by
        rw [← gis.archPres destId hlt]
        exact gis.destKeys
      by_cases hda : destId = a
      · exact hda
      · exact absurd (hkD.trans hk.symm) (hinv.uniq destId a hlt ha hda)
    · exact absurd hk (hnomatch a ha)

/-- `remove_component` preserves the world invariant. -/
theorem winv_removeComponent {w : World α} {τ : Nat} {e : Entity}
    (hinv : WInv w) : WInv (w.removeComponent τ e).2 := by
  cases hreg : alookup τ w.ecs_type_ids with
  | none =>
    have h₁ : (w.removeComponent τ e).2 = w := by
      rw [removeComponent_eq]
      simp only [hreg]
    rw [h₁]
    exact hinv
  | some tyId =>
    cases hhc : w.hasComponentDynamic e tyId with
    | none =>
      have h₁ : (w.removeComponent τ e).2 = w := by
        rw [removeComponent_eq]
        simp only [hreg, hhc]
      rw [h₁]
      exact hinv
    | some b =>
      cases b with
      | false =>
        have h₁ : (w.removeComponent τ e).2 = w := by
          rw [removeComponent_eq]
          simp only [hreg, hhc]
        rw [h₁]
        exact hinv
      | true =>
        cases hmeta : w.entities.metaGet e with
        | none =>
          exfalso
          have h₂ : w.hasComponentDynamic e tyId = none := by
            simp only [hasComponentDynamic, hmeta]
          rw [h₂] at hhc
          exact Option.noConfusion hhc
        | some m =>
          have h₂ : w.hasComponentDynamic e tyId =
              some (alookup tyId (w.getArch m.archetype).column_indices).isSome := by
            simp only [hasComponentDynamic, hmeta]
          rw [h₂] at hhc
          have h₃ := Option.some.inj hhc
          have ht : tyId ∈ akeys (w.getArch m.archetype).column_indices :=
            (alookup_isSome_iff_mem_akeys _ _).mp h₃
          obtain ⟨w₅, dI, eI, cI, _, _, heq, hinv₅, _⟩ :=
            removeComponent_present_spec hinv hreg hmeta ht
          rw [heq]
          exact hinv₅

end RemoveInv

/-! ### Reachable world states -/

section Steps

variable {w : World α} {e : Entity}

theorem setComponentCell_entities {w : World α} {e : Entity} {tyId : Nat} {v : α} :
    (w.setComponentCell e tyId v).entities = w.entities := by
  cases h1 : w.entities.metaGet e with
  | none => simp only [setComponentCell, h1]
  | some m =>
    cases h2 : (w.getArch m.archetype).getEntityIdx e with
    | none => simp only [setComponentCell, h1, h2]
    | some entityIdx =>
      cases h3 : alookup tyId (w.getArch m.archetype).column_indices with
      | none => simp only [setComponentCell, h1, h2, h3]
      | some colIdx => simp only [setComponentCell, h1, h2, h3]

/-- `World::new_dynamic_ecs_type_id` preserves the invariant. -/
theorem winv_newDynamic (hinv : WInv w) : WInv (w.newDynamicEcsTypeId).2 := by
  set n := w.next_ecs_type_id with hn
  have hNotKey : n ∉ akeys w.columns := by
    intro h
    have := hinv.tyLtNext n h
    omega
  have hstPres : ∀ ty, ty ∈ akeys w.columns →
      (alookup ty (aset n [[]] w.columns)).getD [] = w.getStorages ty := by
    intro ty hty
    have hne : n ≠ ty := by
      rintro rfl
      exact hNotKey hty
    rw [alookup_aset_ne _ _ hne]
    rfl
  refine ⟨hinv.archNe, hinv.arch0, hinv.metaLen, hinv.metaLt, hinv.memOfMeta,
    hinv.metaOfMem, hinv.entNodup, hinv.ciNodup, ?_, hinv.colInj, hinv.uniq,
    ?_, ?_⟩
  · intro a ha ty col hmem
    have hty := mem_columns_of_aligned hinv ha hmem
    have hget : ((w.newDynamicEcsTypeId).2).getStorages ty = w.getStorages ty :=
      hstPres ty hty
    rw [hget]
    exact hinv.aligned a ha ty col hmem
  · intro ty hty
    show ty < n + 1
    rw [show (w.newDynamicEcsTypeId).2.columns = aset n [[]] w.columns from rfl,
      akeys_aset, if_neg hNotKey] at hty
    rcases List.mem_append.mp hty with h | h
    · have := hinv.tyLtNext ty h
      omega
    · simp at h
      omega
  · intro τ₂ t ht
    show t ∈ akeys (aset n [[]] w.columns)
    exact mem_akeys_aset (hinv.regCols τ₂ t ht)

end Steps

/-- One public mutating operation of `World` (src/safe_ecs/src/world.rs):
spawning, despawning, inserting or removing a component, reserving an entity
from a shared reference, fixing up reserved entities, and registering a
static or dynamic `EcsTypeId`. -/
inductive Step {α : Type} : World α → World α → Prop
  | spawn (w : World α) : Step w (w.spawn).2
  | despawn (w : World α) (e : Entity) : Step w (w.despawn e)
  | insert (w : World α) (τ : Nat) (e : Entity) (v : α) :
      Step w (w.insertComponent τ e v).2
  | remove (w : World α) (τ : Nat) (e : Entity) :
      Step w (w.removeComponent τ e).2
  | reserve (w : World α) :
      Step w { w with entities := (w.entities.reserveEntity).2 }
  | fixRes (w : World α) : Step w w.fixReserved
  | registerStatic (w : World α) (τ : Nat) :
      Step w (w.typeToEcsTypeIdOrCreate τ).2
  | registerDynamic (w : World α) : Step w (w.newDynamicEcsTypeId).2

/-- Worlds reachable from `World::new` by the public operations. -/
def Reachable {α : Type} (w : World α) : Prop :=
  Relation.ReflTransGen Step new w

section Reach

variable {w w' : World α}

theorem winv_step (h : Step w w') (hinv : WInv w) : WInv w' := by
  cases h with
  | spawn => exact winv_spawn hinv
  | despawn e => exact winv_despawn hinv
  | insert τ e v => exact winv_insertComponent hinv
  | remove τ e => exact winv_removeComponent hinv
  | reserve => exact winv_reserve hinv
  | fixRes => exact winv_fixReserved hinv
  | registerStatic τ => exact (orCreate_spec hinv τ).1
  | registerDynamic => exact winv_newDynamic hinv

/-- Every reachable world satisfies the invariant. -/
theorem winv_reachable (h : Reachable w) : WInv w := by
  induction h with
  | refl => exact winv_new
  | tail _ hstep ih => exact winv_step hstep ih

theorem reachable_trans {w w' : World α} (h : Reachable w)
    (hs : Relation.ReflTransGen Step w w') : Reachable w' :=
  Relation.ReflTransGen.trans h hs

end Reach

/-! ### A dead entity stays dead -/

section DeadPres

variable {w : World α} {e : Entity} {i : Nat}

theorem dead_pres_fixReserved (hinv : WInv w)
    (hdead : w.entities.meta.get? i = some none) :
    w.fixReserved.entities.meta.get? i = some none := by
  have hiLt : i < w.entities.meta.length := by
    by_contra hc
    rw [List.get?_len_le (by omega)] at hdead
    exact Option.noConfusion hdead
  rw [fixReserved_meta_get_lt hinv.metaLen hiLt]
  exact hdead

theorem dead_pres_despawn (hinv : WInv w)
    (hdead : w.entities.meta.get? i = some none) :
    (w.despawn e).entities.meta.get? i = some none := by
  have hfix := dead_pres_fixReserved hinv hdead
  cases halive : w.fixReserved.entities.isAlive e with
  | false =>
    rw [despawn_dead_eq halive]
    exact hfix
  | true =>
    obtain ⟨m, hmeta⟩ := isAlive_iff_metaGet.mp halive
    have hmget := metaGet_eq_some_iff.mp hmeta
    have hinv₁ := winv_fixReserved hinv
    have hemem : e ∈ (w.fixReserved.getArch m.archetype).entities :=
      hinv₁.memOfMeta e.id m hmget
    obtain ⟨entityIdx, hidx⟩ := getEntityIdx_isSome_of_mem hemem
    have heid : e.id < w.fixReserved.entities.meta.length := by
      by_contra hc
      rw [List.get?_len_le (by omega)] at hmget
      exact Option.noConfusion hmget
    rw [despawn_alive_eq halive hmeta hidx]
    show (w.fixReserved.entities.meta.set e.id none).get? i = some none
    by_cases hie : i = e.id
    · subst i
      simp only [List.get?_eq_getElem?]
      rw [List.getElem?_set_self heid]
    · simp only [List.get?_eq_getElem?]
      rw [List.getElem?_set_ne (fun h => hie h.symm)]
      rw [← List.get?_eq_getElem?]
      exact hfix

theorem dead_pres_insert {τ : Nat} {v : α} (hinv : WInv w)
    (hdead : w.entities.meta.get? i = some none) :
    ((w.insertComponent τ e v).2).entities.meta.get? i = some none := by
  obtain ⟨hinvW, htyKeyW, hregW, hentsW, harchsW, hstorW⟩ := orCreate_spec hinv τ
  set tyId := (w.typeToEcsTypeIdOrCreate τ).1 with htyIdDef
  set wr := (w.typeToEcsTypeIdOrCreate τ).2 with hwDef
  have hgaW : ∀ a, wr.getArch a = w.getArch a := by
    intro a
    rw [getArch, getArch, harchsW]
  cases hgc : wr.getComponent e tyId with
  | some old =>
    have h₁ : (w.insertComponent τ e v).2 = wr.setComponentCell e tyId v := by
      rw [insertComponent_eq, ← htyIdDef, ← hwDef]
      simp only [hgc]
    rw [h₁, setComponentCell_entities, hentsW]
    exact hdead
  | none =>
    cases hmetaW : wr.entities.metaGet e with
    | none =>
      have hdead₂ : wr.isAlive e = false := by
        show wr.entities.isAlive e = false
        exact isAlive_iff_metaGet_false.mpr hmetaW
      have h₁ : (w.insertComponent τ e v).2 = wr := by
        rw [insertComponent_eq, ← htyIdDef, ← hwDef]
        simp only [hgc, moveEntityFromInsert_dead hdead₂]
      rw [h₁, hentsW]
      exact hdead
    | some m =>
      have htNotW : tyId ∉ akeys (wr.getArch m.archetype).column_indices := by
        intro hc
        have h₂ := getComponent_isSome hinvW hmetaW hc
        rw [hgc] at h₂
        simp at h₂
      have hmeta₀ : w.entities.metaGet e = some m := by
        rw [← hentsW]
        exact hmetaW
      have habs : ∀ t, alookup τ w.ecs_type_ids = some t →
          t ∉ akeys (w.getArch m.archetype).column_indices := by
        intro t hreg₀ hmem
        have heq := orCreate_registered hreg₀
        have h1 : tyId = t := by
          rw [htyIdDef, heq]
        apply htNotW
        rw [h1, hgaW]
        exact hmem
      obtain ⟨w₅, dI, tI, heq, hinv₅, _, _, _, hmO, _⟩ :=
        insertComponent_fresh_spec v hinv hmeta₀ habs
      rw [heq]
      have hie : i ≠ e.id := by
        intro h
        rw [h] at hdead
        rw [metaGet_eq_some_iff.mp hmeta₀] at hdead
        exact Option.noConfusion (Option.some.inj hdead)
      rw [hmO i hie]
      exact hdead

theorem dead_pres_remove {τ : Nat} (hinv : WInv w)
    (hdead : w.entities.meta.get? i = some none) :
    ((w.removeComponent τ e).2).entities.meta.get? i = some none := by
  cases hreg : alookup τ w.ecs_type_ids with
  | none =>
    have h₁ : (w.removeComponent τ e).2 = w := by
      rw [removeComponent_eq]
      simp only [hreg]
    rw [h₁]
    exact hdead
  | some tyId =>
    cases hhc : w.hasComponentDynamic e tyId with
    | none =>
      have h₁ : (w.removeComponent τ e).2 = w := by
        rw [removeComponent_eq]
        simp only [hreg, hhc]
      rw [h₁]
      exact hdead
    | some b =>
      cases b with
      | false =>
        have h₁ : (w.removeComponent τ e).2 = w := by
          rw [removeComponent_eq]
          simp only [hreg, hhc]
        rw [h₁]
        exact hdead
      | true =>
        cases hmeta : w.entities.metaGet e with
        | none =>
          exfalso
          have h₂ : w.hasComponentDynamic e tyId = none := by
            simp only [hasComponentDynamic, hmeta]
          rw [h₂] at hhc
          exact Option.noConfusion hhc
        | some m =>
          have h₂ : w.hasComponentDynamic e tyId =
              some (alookup tyId (w.getArch m.archetype).column_indices).isSome := by
            simp only [hasComponentDynamic, hmeta]
          rw [h₂] at hhc
          have ht : tyId ∈ akeys (w.getArch m.archetype).column_indices :=
            (alookup_isSome_iff_mem_akeys _ _).mp (Option.some.inj hhc)
          obtain ⟨w₅, dI, eI, cI, _, _, heq, _, _, _, _, hmO, _⟩ :=
            removeComponent_present_spec hinv hreg hmeta ht
          rw [heq]
          have hie : i ≠ e.id := by
            intro h
            rw [h] at hdead
            rw [metaGet_eq_some_iff.mp hmeta] at hdead
            exact Option.noConfusion (Option.some.inj hdead)
          rw [hmO i hie]
          exact hdead

theorem dead_pres_step {w w' : World α} (h : Step w w') (hinv : WInv w)
    (hdead : w.entities.meta.get? i = some none) :
    w'.entities.meta.get? i = some none := by
  cases h with
  | spawn =>
    show (World.mk (w.entities.reserveEntity).2 w.archetypes w.columns
      w.next_ecs_type_id w.ecs_type_ids).fixReserved.entities.meta.get? i =
        some none
    exact dead_pres_fixReserved (winv_reserve hinv) hdead
  | despawn e => exact dead_pres_despawn hinv hdead
  | insert τ e v => exact dead_pres_insert hinv hdead
  | remove τ e => exact dead_pres_remove hinv hdead
  | reserve => exact hdead
  | fixRes => exact dead_pres_fixReserved hinv hdead
  | registerStatic τ =>
    have h₁ := (orCreate_spec hinv τ).2.2.2.1
    show (w.typeToEcsTypeIdOrCreate τ).2.entities.meta.get? i = some none
    rw [h₁]
    exact hdead
  | registerDynamic => exact hdead

theorem dead_pres_steps {w w' : World α}
    (hs : Relation.ReflTransGen Step w w') (hinv : WInv w)
    (hdead : w.entities.meta.get? i = some none) :
    w'.entities.meta.get? i = some none := by
  have h : WInv w' ∧ w'.entities.meta.get? i = some none := by
    induction hs with
    | refl => exact ⟨hinv, hdead⟩
    | tail _ hstep ih =>
      exact ⟨winv_step hstep ih.1, dead_pres_step hstep ih.1 ih.2⟩
  exact h.2

end DeadPres

end World

/-! ### Access analyzer (src/safe_ecs/src/system.rs) -/

/-- `Access { read: HashSet<TypeId>, write: HashSet<TypeId> }`. -/
structure Access where
  read : Finset Nat
  write : Finset Nat
deriving DecidableEq

namespace Access

/-- `Access::new`. -/
def new : Access := ⟨∅, ∅⟩

/-- `Access::insert_write`. -/
def insertWrite (a : Access) (id : Nat) : Except Unit Access :=
  if id ∈ a.write ∨ id ∈ a.read then .error ()
  else .ok { a with write := insert id a.write }

/-- `Access::insert_read`. -/
def insertRead (a : Access) (id : Nat) : Except Unit Access :=
  if id ∈ a.write then .error ()
  else .ok { a with read := insert id a.read }

/-- `Access::join_with`: extend the read set, fail on write/write overlap,
extend the write set, fail on read/write overlap. -/
def joinWith (a : Access) (other : Except Unit Access) : Except Unit Access :=
  match other with
  | .error e => .error e
  | .ok b =>
    let rd := a.read ∪ b.read
    if (a.write ∩ b.write).Nonempty then .error ()
    else
      let wr := a.write ∪ b.write
      if (rd ∩ wr).Nonempty then .error ()
      else .ok ⟨rd, wr⟩

/-- `Access::from_array`. -/
def fromList (accesses : List (Except Unit Access)) : Except Unit Access :=
  accesses.foldl
    (fun acc x =>
      match acc with
      | .error e => .error e
      | .ok a => a.joinWith x)
    (.ok new)

end Access

/-- The static query shapes of `QueryParam::get_access`
(src/safe_ecs/src/query.rs): `()`, `Entity`, `&T`, `&mut T`, `Maybe<Q>` and
tuples (modelled by nested pairs). `TypeId`s are modelled as `Nat`. -/
inductive QShape
  | unitQ
  | entityQ
  | readT (τ : Nat)
  | writeT (τ : Nat)
  | maybeQ (q : QShape)
  | tup2 (a b : QShape)
deriving DecidableEq, Repr

namespace QShape

/-- `QueryParam::get_access` for each shape. -/
def getAccess : QShape → Except Unit Access
  | .unitQ => .ok Access.new
  | .entityQ => .ok Access.new
  | .readT τ => Access.new.insertRead τ
  | .writeT τ => Access.new.insertWrite τ
  | .maybeQ q => q.getAccess
  | .tup2 a b => Access.fromList [a.getAccess, b.getAccess]

/-- All `TypeId`s a shape reads (`&T` leaves). -/
def readTys : QShape → List Nat
  | .unitQ => []
  | .entityQ => []
  | .readT τ => [τ]
  | .writeT _ => []
  | .maybeQ q => q.readTys
  | .tup2 a b => a.readTys ++ b.readTys

/-- All `TypeId`s a shape writes (`&mut T` leaves). -/
def writeTys : QShape → List Nat
  | .unitQ => []
  | .entityQ => []
  | .readT _ => []
  | .writeT τ => [τ]
  | .maybeQ q => q.writeTys
  | .tup2 a b => a.writeTys ++ b.writeTys

/-- A shape is conflict free when no type is written twice and no type is
both written and read. -/
def ConflictFree (q : QShape) : Prop :=
  q.writeTys.Nodup ∧ ∀ t ∈ q.writeTys, t ∉ q.readTys

instance (q : QShape) : Decidable q.ConflictFree := by
  unfold ConflictFree
  infer_instance

end QShape

/-! ### Query lock acquisition (src/safe_ecs/src/query.rs) -/

/-- The borrow flag of the `RefCell` guarding one column family at the moment
a query is created. -/
inductive RefState
  | free
  | reading
  | writing
deriving DecidableEq, Repr

/-- `errors::WorldBorrowError` (the source carries the component's type name;
the model carries its `TypeId`). -/
structure WorldBorrowError where
  ty : Nat
deriving DecidableEq, Repr

/-- `<&T as QueryParam>::lock_from_world`: `Ok(None)` when the type was never
registered or has no column family, `Err` when the family's `RefCell` is
mutably held, and `Ok(Some _)` otherwise. -/
def lockFromWorldRef (w : World α) (σ : Nat → RefState) (τ : Nat) :
    Except WorldBorrowError (Option Nat) :=
  match alookup τ w.ecs_type_ids with
  | none => .ok none
  | some tyId =>
    match alookup tyId w.columns with
    | none => .ok none
    | some _ =>
      match σ tyId with
      | .writing => .error ⟨τ⟩
      | _ => .ok (some tyId)

/-- `<&mut T as QueryParam>::lock_from_world`: as `lockFromWorldRef` but
`try_borrow_mut` fails while any borrow (shared or exclusive) is held. -/
def lockFromWorldMut (w : World α) (σ : Nat → RefState) (τ : Nat) :
    Except WorldBorrowError (Option Nat) :=
  match alookup τ w.ecs_type_ids with
  | none => .ok none
  | some tyId =>
    match alookup tyId w.columns with
    | none => .ok none
    | some _ =>
      match σ tyId with
      | .free => .ok (some tyId)
      | _ => .error ⟨τ⟩

/-! ### Join engine (src/safe_ecs/src/column_join.rs) -/

/-- `Joinable` terms: `WithEntities`, `&Handle`/`&mut Handle` of a column
family (identified by its `EcsTypeId`), `Maybe<J>`, `Unsatisfied<J>`, and
tuples (modelled by nested pairs). -/
inductive JTerm
  | withEntities
  | readC (tyId : Nat)
  | writeC (tyId : Nat)
  | maybeJ (j : JTerm)
  | unsat (j : JTerm)
  | pair (x y : JTerm)
deriving DecidableEq, Repr

/-- `Archetype::contains_id` / `column_indices.contains_key`. -/
def Archetype.containsId (a : Archetype) (tyId : Nat) : Bool :=
  (alookup tyId a.column_indices).isSome

/-- `Joinable::archetype_matches` for each term. -/
def JTerm.archetypeMatches : JTerm → Archetype → Bool
  | .withEntities, _ => true
  | .readC tyId, a => a.containsId tyId
  | .writeC tyId, a => a.containsId tyId
  | .maybeJ _, _ => true
  | .unsat j, a => !(j.archetypeMatches a)
  | .pair x y, a => x.archetypeMatches a && y.archetypeMatches a

/-- One yielded item of a join: entity ids, cell values, optional items of
`Maybe`, the unit item of `Unsatisfied`, and tuples. -/
inductive JItem (α : Type)
  | ent (e : Entity)
  | val (v : α)
  | optSome (it : JItem α)
  | optNone
  | unitItem
  | pair (x y : JItem α)
deriving DecidableEq, Repr

/-- The items a term's `ArchetypeState` yields for one archetype, in order:
`WithEntities` walks the entity list, a column term walks its column,
`Maybe` wraps the inner items or counts `archetype.entities.len()` rows,
`Unsatisfied` counts `archetype.entities.len()` rows, and a tuple advances
all members in lock-step (so it stops at the shortest member). -/
def JTerm.itemsOfArchetype (w : World α) : JTerm → Archetype → List (JItem α)
  | .withEntities, a => a.entities.map JItem.ent
  | .readC tyId, a =>
    match alookup tyId a.column_indices with
    | none => []
    | some col => ((w.getStorages tyId).getD col []).map JItem.val
  | .writeC tyId, a =>
    match alookup tyId a.column_indices with
    | none => []
    | some col => ((w.getStorages tyId).getD col []).map JItem.val
  | .maybeJ j, a =>
    if j.archetypeMatches a then (j.itemsOfArchetype w a).map JItem.optSome
    else List.replicate a.entities.length .optNone
  | .unsat _, a => List.replicate a.entities.length .unitItem
  | .pair x y, a =>
    ((x.itemsOfArchetype w a).zip (y.itemsOfArchetype w a)).map (fun p => .pair p.1 p.2)

/-- All rows a `ColumnIterator` yields: archetypes are visited in store
order, filtered by `archetype_matches`, and each matching archetype
contributes its items. -/
def JTerm.rows (w : World α) (j : JTerm) : List (JItem α) :=
  ((w.archetypes.filter (fun a => j.archetypeMatches a)).map
    (fun a => j.itemsOfArchetype w a)).flatten

/-- Whether a term contains a `Maybe` or `Unsatisfied` sub-term. -/
def JTerm.containsOptional : JTerm → Bool
  | .withEntities => false
  | .readC _ => false
  | .writeC _ => false
  | .maybeJ _ => true
  | .unsat _ => true
  | .pair x y => x.containsOptional || y.containsOptional

/-- A single-`&T`-term query as assembled by `World::query::<&T>` and drained
by `QueryIter::next`: a failed lock is an error, an absent lock (`locks ==
None`) makes `next` return `None` immediately (no rows), and otherwise the
rows of the column join are produced. -/
def queryRunRef (w : World α) (σ : Nat → RefState) (τ : Nat) :
    Except WorldBorrowError (List (JItem α)) :=
  match lockFromWorldRef w σ τ with
  | .error err => .error err
  | .ok none => .ok []
  | .ok (some tyId) => .ok ((JTerm.readC tyId).rows w)

/-- As `queryRunRef` for `World::query::<&mut T>`. -/
def queryRunMut (w : World α) (σ : Nat → RefState) (τ : Nat) :
    Except WorldBorrowError (List (JItem α)) :=
  match lockFromWorldMut w σ τ with
  | .error err => .error err
  | .ok none => .ok []
  | .ok (some tyId) => .ok ((JTerm.writeC tyId).rows w)


/-! ## The claims -/

open World

/-- `get_two(archetypes, a, b)` (src/safe_ecs/src/world.rs): hands out the two
archetypes at distinct indices; `none` models the `unreachable!()` panic branch
taken when the indices coincide. -/
def World.getTwo (w : World α) (i j : Nat) : Option (Archetype × Archetype) :=
  if i = j then none else some (w.getArch i, w.getArch j)

/-- C1: Row alignment invariant — in every reachable world, every archetype's
entity list and every one of that archetype's columns have the same length,
and the i-th entity of the archetype owns the i-th cell of every column:
`get_component` on that entity returns exactly that cell. This covers the
states produced by spawn, despawn, insert_component and remove_component,
since those are exactly the steps reachability is closed under. -/
theorem claim_C1 {α : Type} {w : World α} (hr : World.Reachable w)
    (a ty col : Nat) (ha : a < w.archetypes.length)
    (hmem : (ty, col) ∈ (w.getArch a).column_indices) :
    ((w.getStorages ty).getD col []).length = (w.getArch a).entities.length ∧
    ∀ i (hi : i < (w.getArch a).entities.length),
      w.getComponent ((w.getArch a).entities.get ⟨i, hi⟩) ty =
        ((w.getStorages ty).getD col []).get? i := by
  have hinv := World.winv_reachable hr
  refine ⟨(hinv.aligned a ha ty col hmem).2, ?_⟩
  intro i hi
  set e := (w.getArch a).entities.get ⟨i, hi⟩ with he
  have hemem : e ∈ (w.getArch a).entities := List.getElem_mem hi
  have hmget : w.entities.meta.get? e.id = some (some ⟨a⟩) :=
    hinv.metaOfMem a ha e hemem
  have hmeta : w.entities.metaGet e = some ⟨a⟩ := metaGet_eq_some_iff.mpr hmget
  have hidx : (w.getArch a).getEntityIdx e = some i :=
    getEntityIdx_of_nodup (hinv.entNodup a) hi rfl
  have hcol : alookup ty (w.getArch a).column_indices = some col :=
    alookup_of_mem_nodup (hinv.ciNodup a) hmem
  have hha : w.hasComponentDynamic e ty = some true := by
    simp only [hasComponentDynamic, hmeta]
    rw [alookup_isSome_of_mem (mem_akeys_of_alookup hcol)]
  simp only [getComponent, hha, hmeta, hidx, hcol]

theorem claim_C1_witness :
    ((((((World.new : World Nat).spawn).2.insertComponent 0 ⟨0⟩ (42 : Nat)).2.getStorages 0).getD 1 []).length =
      (((((World.new : World Nat).spawn).2.insertComponent 0 ⟨0⟩ (42 : Nat)).2.getArch 1).entities).length) ∧
    ∀ i (hi : i < (((((World.new : World Nat).spawn).2.insertComponent 0 ⟨0⟩ (42 : Nat)).2.getArch 1).entities).length),
      (((World.new : World Nat).spawn).2.insertComponent 0 ⟨0⟩ (42 : Nat)).2.getComponent
          ((((((World.new : World Nat).spawn).2.insertComponent 0 ⟨0⟩ (42 : Nat)).2.getArch 1).entities).get ⟨i, hi⟩) 0 =
        (((((World.new : World Nat).spawn).2.insertComponent 0 ⟨0⟩ (42 : Nat)).2.getStorages 0).getD 1 []).get? i :=
  claim_C1
    (Relation.ReflTransGen.tail
      (Relation.ReflTransGen.tail Relation.ReflTransGen.refl (World.Step.spawn _))
      (World.Step.insert _ 0 ⟨0⟩ 42))
    1 0 1 (by decide) (by decide)

/-- C7: Archetype uniqueness — in every reachable world no two archetypes have
the same `EcsTypeId` set, and `find_archetype_from_ids` realizes find-or-create
by exact set match: a hit is an archetype with exactly the requested id set,
and a miss means no archetype has that set. -/
theorem claim_C7 {α : Type} {w : World α} (hr : World.Reachable w) :
    (∀ a b, a < w.archetypes.length → b < w.archetypes.length → a ≠ b →
      keyset (w.getArch a) ≠ keyset (w.getArch b)) ∧
    ∀ ids : List Nat, ids.Nodup →
      (∀ i, w.findArchetypeFromIds ids = some i →
        i < w.archetypes.length ∧ keyset (w.getArch i) = ids.toFinset) ∧
      (w.findArchetypeFromIds ids = none →
        ∀ a, a < w.archetypes.length → keyset (w.getArch a) ≠ ids.toFinset) := by
  have hinv := World.winv_reachable hr
  refine ⟨hinv.uniq, ?_⟩
  intro ids hnd
  constructor
  · intro i hfind
    obtain ⟨hlt, hp, _⟩ := findArchetypeFromIds_some hfind
    exact ⟨hlt, (keysetMatches_iff (hinv.ciNodup i) hnd).mp hp⟩
  · intro hnone a ha hk
    have hfalse := findArchetypeFromIds_none hnone a ha
    have htrue : keysetMatches (w.getArch a).column_indices ids = true :=
      (keysetMatches_iff (hinv.ciNodup a) hnd).mpr hk
    rw [htrue] at hfalse
    exact Bool.noConfusion hfalse

theorem claim_C7_witness :
    keyset (((((World.new : World Nat).spawn).2.insertComponent 0 ⟨0⟩ (42 : Nat)).2).getArch 0) ≠
      keyset (((((World.new : World Nat).spawn).2.insertComponent 0 ⟨0⟩ (42 : Nat)).2).getArch 1) :=
  (claim_C7
    (Relation.ReflTransGen.tail
      (Relation.ReflTransGen.tail Relation.ReflTransGen.refl (World.Step.spawn _))
      (World.Step.insert _ 0 ⟨0⟩ 42))).1
    0 1 (by decide) (by decide) (by decide)

/-- C8: Despawn purges membership — after despawning a live entity it is dead,
it appears in no archetype's entity list, and every remaining column is exactly
as long as its archetype's shrunken entity list (its cell was swap-removed), so
no column retains a cell owned by the despawned entity. -/
theorem claim_C8 {α : Type} {w : World α} (hr : World.Reachable w) (e : Entity)
    (halive : w.isAlive e = true) :
    (w.despawn e).isAlive e = false ∧
    (∀ a, e ∉ ((w.despawn e).getArch a).entities) ∧
    (∀ a, a < (w.despawn e).archetypes.length → ∀ ty col,
      (ty, col) ∈ ((w.despawn e).getArch a).column_indices →
      (((w.despawn e).getStorages ty).getD col []).length =
        ((w.despawn e).getArch a).entities.length) := by
  have hinv := World.winv_reachable hr
  obtain ⟨h1, h2⟩ := despawn_effect hinv halive
  exact ⟨h1, h2, fun a ha ty col hmem =>
    ((winv_despawn hinv).aligned a ha ty col hmem).2⟩

theorem claim_C8_witness :
    (((World.new : World Nat).spawn).2.despawn (⟨0⟩ : Entity)).isAlive
      (⟨0⟩ : Entity) = false ∧
    (∀ a, (⟨0⟩ : Entity) ∉
      (((World.new : World Nat).spawn.2.despawn ⟨0⟩).getArch a).entities) ∧
    (∀ a, a < ((World.new : World Nat).spawn.2.despawn ⟨0⟩).archetypes.length →
      ∀ ty col, (ty, col) ∈
        (((World.new : World Nat).spawn.2.despawn ⟨0⟩).getArch a).column_indices →
      ((((World.new : World Nat).spawn.2.despawn ⟨0⟩).getStorages ty).getD col []).length =
        (((World.new : World Nat).spawn.2.despawn ⟨0⟩).getArch a).entities.length) :=
  claim_C8
    (Relation.ReflTransGen.tail Relation.ReflTransGen.refl (World.Step.spawn _))
    ⟨0⟩ (by decide)

/-- C9: A despawned identity is never confused with a later one — once an
entity's metadata slot holds `None`, it stays `None` under every later public
operation, `is_alive` stays false, and any entity handed out by a later
`spawn` or `reserve_entity` is distinct from the despawned one (fresh indices
only ever grow past it). -/
theorem claim_C9 {α : Type} {w w' : World α} (hr : World.Reachable w)
    (e : Entity)
    (hdead : w.entities.meta.get? e.id = some none)
    (hs : Relation.ReflTransGen World.Step w w') :
    w'.entities.meta.get? e.id = some none ∧
    w'.isAlive e = false ∧
    (w'.spawn).1 ≠ e ∧
    (w'.entities.reserveEntity).1 ≠ e := by
  have hinv := World.winv_reachable hr
  have hinv' := World.winv_reachable (reachable_trans hr hs)
  have hdead' := dead_pres_steps hs hinv hdead
  have hlt : e.id < w'.entities.meta.length := by
    by_contra hc
    rw [List.get?_len_le (by omega)] at hdead'
    exact Option.noConfusion hdead'
  have hlen := hinv'.metaLen
  refine ⟨hdead', ?_, ?_, ?_⟩
  · show w'.entities.isAlive e = false
    simp only [Entities.isAlive, hdead']
  · rw [spawn_fst]
    intro h
    have h₂ : w'.entities.len = e.id := congrArg Entity.id h
    omega
  · intro h
    have h₂ : w'.entities.len = e.id := congrArg Entity.id h
    omega

theorem claim_C9_witness :
    (((World.new : World Nat).spawn).2.despawn (⟨0⟩ : Entity)).entities.meta.get? 0 =
      some none ∧
    ((World.new : World Nat).spawn.2.despawn ⟨0⟩).isAlive ⟨0⟩ = false ∧
    (((World.new : World Nat).spawn.2.despawn ⟨0⟩).spawn).1 ≠ ⟨0⟩ ∧
    (((World.new : World Nat).spawn.2.despawn ⟨0⟩).entities.reserveEntity).1 ≠ ⟨0⟩ :=
  claim_C9
    (Relation.ReflTransGen.tail
      (Relation.ReflTransGen.tail Relation.ReflTransGen.refl (World.Step.spawn _))
      (World.Step.despawn _ ⟨0⟩))
    ⟨0⟩ (by decide) Relation.ReflTransGen.refl

/-- C10: Every structural migration changes the archetype — for a live entity,
inserting a registered component id it lacks, or removing one it has, computes
a destination archetype index different from the source index, so the
equal-indices `unreachable!()` branch of `get_two` cannot be taken by
`insert_component` or `remove_component`. -/
theorem claim_C10 {α : Type} {w : World α} (hr : World.Reachable w)
    (m : EntityMeta) (e : Entity)
    (hmeta : w.entities.metaGet e = some m) :
    (∀ t, t ∉ akeys (w.getArch m.archetype).column_indices →
      t ∈ akeys w.columns →
      (w.getOrInsertArchetypeFromInsert m.archetype t).1 ≠ m.archetype ∧
      ((w.getOrInsertArchetypeFromInsert m.archetype t).2.getTwo
        (w.getOrInsertArchetypeFromInsert m.archetype t).1 m.archetype).isSome) ∧
    (∀ t, t ∈ akeys (w.getArch m.archetype).column_indices →
      (w.getOrInsertArchetypeFromRemove m.archetype t).1 ≠ m.archetype ∧
      ((w.getOrInsertArchetypeFromRemove m.archetype t).2.getTwo
        (w.getOrInsertArchetypeFromRemove m.archetype t).1 m.archetype).isSome) := by
  have hinv := World.winv_reachable hr
  have hsrc : m.archetype < w.archetypes.length :=
    hinv.metaLt _ _ (metaGet_eq_some_iff.mp hmeta)
  constructor
  · intro t ht htc
    have hne := getOrInsertFromInsert_ne hinv hsrc ht htc
    refine ⟨hne, ?_⟩
    rw [World.getTwo, if_neg hne]
    rfl
  · intro t ht
    have hne := getOrInsertFromRemove_ne hinv hsrc ht
    refine ⟨hne, ?_⟩
    rw [World.getTwo, if_neg hne]
    rfl

theorem claim_C10_witness :
    (∀ t, t ∉ akeys (((World.new : World Nat).spawn.2.getArch
        (⟨0⟩ : EntityMeta).archetype)).column_indices →
      t ∈ akeys (World.new : World Nat).spawn.2.columns →
      (((World.new : World Nat).spawn).2.getOrInsertArchetypeFromInsert
        (⟨0⟩ : EntityMeta).archetype t).1 ≠ (⟨0⟩ : EntityMeta).archetype ∧
      ((((World.new : World Nat).spawn).2.getOrInsertArchetypeFromInsert
          (⟨0⟩ : EntityMeta).archetype t).2.getTwo
        (((World.new : World Nat).spawn).2.getOrInsertArchetypeFromInsert
          (⟨0⟩ : EntityMeta).archetype t).1 (⟨0⟩ : EntityMeta).archetype).isSome) ∧
    (∀ t, t ∈ akeys (((World.new : World Nat).spawn.2.getArch
        (⟨0⟩ : EntityMeta).archetype)).column_indices →
      (((World.new : World Nat).spawn).2.getOrInsertArchetypeFromRemove
        (⟨0⟩ : EntityMeta).archetype t).1 ≠ (⟨0⟩ : EntityMeta).archetype ∧
      ((((World.new : World Nat).spawn).2.getOrInsertArchetypeFromRemove
          (⟨0⟩ : EntityMeta).archetype t).2.getTwo
        (((World.new : World Nat).spawn).2.getOrInsertArchetypeFromRemove
          (⟨0⟩ : EntityMeta).archetype t).1 (⟨0⟩ : EntityMeta).archetype).isSome) :=
  claim_C10
    (Relation.ReflTransGen.tail Relation.ReflTransGen.refl (World.Step.spawn _))
    ⟨0⟩ ⟨0⟩ (by decide)

/-- C2: Insert/remove round-trip — for a live entity that does not currently
have component type `T`, `insert_component(e, v)` followed by
`remove_component::<T>(e)` returns `Some(v)`, and afterwards the entity sits
in exactly the archetype it occupied before the insert: same archetype index
and the same `EcsTypeId` set (its `column_indices` map is unchanged). -/
theorem claim_C2 {α : Type} {w₀ : World α} (hr : World.Reachable w₀)
    (τ : Nat) (e : Entity) (v : α) (m : EntityMeta)
    (hmeta : w₀.entities.metaGet e = some m)
    (habs : ∀ t, alookup τ w₀.ecs_type_ids = some t →
      t ∉ akeys (w₀.getArch m.archetype).column_indices) :
    (((w₀.insertComponent τ e v).2).removeComponent τ e).1 = some v ∧
    ((((w₀.insertComponent τ e v).2).removeComponent τ e).2).entities.metaGet e =
      some m ∧
    (((((w₀.insertComponent τ e v).2).removeComponent τ e).2).getArch
        m.archetype).column_indices =
      (w₀.getArch m.archetype).column_indices := by
  have hinv := World.winv_reachable hr
  obtain ⟨w₅, destId, tyId, heqIns, hinv₅, hlen5, hmlen5, hmetaE5, hmetaO5,
    hreg5, htNot, hneDest, hsrcLt5, hdestLt5, hsrcCi5, hkeysD5,
    colIdx, prev, q, hcol5, hents5, hst5, hqlen⟩ :=
    insertComponent_fresh_spec v hinv hmeta habs
  rw [heqIns]
  have hmeta₅ : w₅.entities.metaGet e = some ⟨destId⟩ :=
    metaGet_eq_some_iff.mpr hmetaE5
  have htD : tyId ∈ akeys (w₅.getArch destId).column_indices :=
    mem_akeys_of_alookup hcol5
  obtain ⟨w₆, destId₂, entityIdx₂, colIdx₂, hcol6, hidx6, heqRem, hinv₆,
    hlen6, hmlen6, hmetaE6, hmetaO6, hdestLt6, hkeys6, hemem6, hciPres6, hpin6⟩ :=
    removeComponent_present_spec hinv₅ hreg5 hmeta₅ htD
  have hcolEq : colIdx₂ = colIdx := by
    rw [show alookup tyId (w₅.getArch (⟨destId⟩ : EntityMeta).archetype).column_indices =
      some colIdx from hcol5] at hcol6
    exact (Option.some.inj hcol6).symm
  have hnd : (w₅.getArch destId).entities.Nodup := hinv₅.entNodup destId
  have hlast : (w₅.getArch destId).entities.get? prev.length = some e := by
    rw [hents5, List.get?_eq_getElem?]
    rw [List.getElem?_append_right (Nat.le_refl _)]
    simp
  have hiLt : entityIdx₂ < (w₅.getArch destId).entities.length := by
    by_contra hc
    have hidx6b : (w₅.getArch destId).entities.get? entityIdx₂ = some e := hidx6
    rw [List.get?_len_le (by omega)] at hidx6b
    exact Option.noConfusion hidx6b
  have hidxEq : entityIdx₂ = prev.length := by
    apply List.getElem?_inj hiLt hnd
    have h₁ : (w₅.getArch destId).entities.get? entityIdx₂ = some e := hidx6
    rw [List.get?_eq_getElem?] at h₁ hlast
    rw [h₁, hlast]
  have hval : ((w₅.getStorages tyId).getD colIdx₂ []).get? entityIdx₂ = some v := by
    rw [hcolEq, hidxEq, hst5, ← hqlen]
    rw [List.get?_eq_getElem?, List.getElem?_append_right (Nat.le_refl _)]
    simp
  have hpin : destId₂ = m.archetype := by
    apply hpin6 m.archetype hsrcLt5
    rw [show keyset (w₅.getArch m.archetype) =
        (akeys (w₀.getArch m.archetype).column_indices).toFinset from by
      rw [keyset, hsrcCi5]]
    apply Finset.ext
    intro x
    rw [List.mem_toFinset, List.mem_toFinset, List.mem_filter]
    constructor
    · intro hx
      refine ⟨?_, ?_⟩
      · have h₁ : x ∈ keyset (w₅.getArch destId) := by
          rw [hkeysD5, List.mem_toFinset]
          exact List.mem_append_left _ hx
        rw [keyset, List.mem_toFinset] at h₁
        exact h₁
      · simp only [decide_eq_true_eq]
        rintro rfl
        exact htNot hx
    · rintro ⟨hx, hxne⟩
      have h₁ : x ∈ keyset (w₅.getArch destId) := by
        rw [keyset, List.mem_toFinset]
        exact hx
      rw [hkeysD5, List.mem_toFinset, List.mem_append] at h₁
      rcases h₁ with h | h
      · exact h
      · simp only [List.mem_singleton] at h
        simp only [decide_eq_true_eq] at hxne
        exact absurd h hxne
  refine ⟨?_, ?_, ?_⟩
  · rw [heqRem]
    exact hval
  · rw [heqRem]
    show w₆.entities.metaGet e = some m
    have h₁ : w₆.entities.metaGet e = some ⟨destId₂⟩ :=
      metaGet_eq_some_iff.mpr hmetaE6
    rw [h₁, hpin]
  · rw [heqRem]
    show (w₆.getArch m.archetype).column_indices = _
    rw [hciPres6 m.archetype hsrcLt5, hsrcCi5]

theorem claim_C2_witness :
    ((((World.new : World Nat).spawn).2.insertComponent 0 ⟨0⟩ 42).2.removeComponent 0 ⟨0⟩).1 =
      some 42 ∧
    (((((World.new : World Nat).spawn).2.insertComponent 0 ⟨0⟩ 42).2.removeComponent 0 ⟨0⟩).2).entities.metaGet ⟨0⟩ =
      some ⟨0⟩ ∧
    ((((((World.new : World Nat).spawn).2.insertComponent 0 ⟨0⟩ 42).2.removeComponent 0 ⟨0⟩).2).getArch
        (⟨0⟩ : EntityMeta).archetype).column_indices =
      (((World.new : World Nat).spawn).2.getArch (⟨0⟩ : EntityMeta).archetype).column_indices :=
  claim_C2
    (Relation.ReflTransGen.tail Relation.ReflTransGen.refl (World.Step.spawn _))
    0 ⟨0⟩ 42 ⟨0⟩ (by decide) (fun t ht => Option.noConfusion ht)

/-- C3 (amended): for a dead (despawned or never-alive) entity,
`remove_component` returns `None` and leaves the world completely unchanged,
and `insert_component` returns `None` and leaves the entity metadata, the
archetypes and every existing column unchanged — but when the inserted
component's `TypeId` is not yet registered, `insert_component` still registers
it (a fresh `EcsTypeId` and an empty column family) before noticing that the
entity is dead, so the store as a whole is not unchanged; it is unchanged
exactly when the type was already registered. -/
theorem claim_C3 {α : Type} {w : World α} (hr : World.Reachable w)
    (τ : Nat) (e : Entity) (v : α)
    (hdead : w.entities.metaGet e = none) :
    w.removeComponent τ e = (none, w) ∧
    (w.insertComponent τ e v).1 = none ∧
    (w.insertComponent τ e v).2.entities = w.entities ∧
    (w.insertComponent τ e v).2.archetypes = w.archetypes ∧
    (∀ ty, ty ∈ akeys w.columns →
      (w.insertComponent τ e v).2.getStorages ty = w.getStorages ty) ∧
    (∀ t, alookup τ w.ecs_type_ids = some t →
      (w.insertComponent τ e v).2 = w) := by
  have hinv := World.winv_reachable hr
  obtain ⟨hinvW, htyKeyW, hregW, hentsW, harchsW, hstorW⟩ := orCreate_spec hinv τ
  set tyId := (w.typeToEcsTypeIdOrCreate τ).1 with htyIdDef
  set wr := (w.typeToEcsTypeIdOrCreate τ).2 with hwDef
  have hmetaW : wr.entities.metaGet e = none := by
    rw [hentsW]
    exact hdead
  have hgc : wr.getComponent e tyId = none := getComponent_dead hmetaW
  have hdead₂ : wr.isAlive e = false := by
    show wr.entities.isAlive e = false
    exact isAlive_iff_metaGet_false.mpr hmetaW
  have hins : w.insertComponent τ e v = (none, wr) := by
    rw [insertComponent_eq, ← htyIdDef, ← hwDef]
    simp only [hgc, moveEntityFromInsert_dead hdead₂]
  have hrem : w.removeComponent τ e = (none, w) := by
    rw [removeComponent_eq]
    cases hreg : alookup τ w.ecs_type_ids with
    | none => simp only
    | some t =>
      have hhc : w.hasComponentDynamic e t = none := by
        simp only [hasComponentDynamic, hdead]
      simp only [hhc]
  refine ⟨hrem, ?_, ?_, ?_, ?_, ?_⟩
  · rw [hins]
  · rw [hins]
    exact hentsW
  · rw [hins]
    exact harchsW
  · intro ty hty
    rw [hins]
    exact hstorW ty hty
  · intro t hreg
    rw [hins]
    show wr = w
    have h₁ := orCreate_registered hreg
    rw [hwDef, h₁]

/-- C3 counterexample: on a freshly spawned then despawned entity, inserting a
component whose `TypeId` (here `7`) was never registered changes the store —
`insert_component` registers the type id before the dead-entity check — so the
operation does not leave the entire store unchanged as claimed. -/
theorem claim_C3_counterexample :
    ((((World.new : World Nat).spawn).2.despawn ⟨0⟩).entities.metaGet ⟨0⟩ =
      none) ∧
    ((((World.new : World Nat).spawn).2.despawn ⟨0⟩).insertComponent 7 ⟨0⟩
        (0 : Nat)).2 ≠
      (((World.new : World Nat).spawn).2.despawn ⟨0⟩) := by
  refine ⟨by decide, ?_⟩
  intro h
  have h₂ := congrArg World.next_ecs_type_id h
  revert h₂
  decide

theorem claim_C3_witness :
    (((World.new : World Nat).spawn).2.despawn ⟨0⟩).removeComponent 7 ⟨0⟩ =
      (none, (((World.new : World Nat).spawn).2.despawn ⟨0⟩)) ∧
    ((((World.new : World Nat).spawn).2.despawn ⟨0⟩).insertComponent 7 ⟨0⟩
      (0 : Nat)).1 = none ∧
    ((((World.new : World Nat).spawn).2.despawn ⟨0⟩).insertComponent 7 ⟨0⟩
      (0 : Nat)).2.entities =
        (((World.new : World Nat).spawn).2.despawn ⟨0⟩).entities ∧
    ((((World.new : World Nat).spawn).2.despawn ⟨0⟩).insertComponent 7 ⟨0⟩
      (0 : Nat)).2.archetypes =
        (((World.new : World Nat).spawn).2.despawn ⟨0⟩).archetypes ∧
    (∀ ty, ty ∈ akeys (((World.new : World Nat).spawn).2.despawn ⟨0⟩).columns →
      ((((World.new : World Nat).spawn).2.despawn ⟨0⟩).insertComponent 7 ⟨0⟩
        (0 : Nat)).2.getStorages ty =
          (((World.new : World Nat).spawn).2.despawn ⟨0⟩).getStorages ty) ∧
    (∀ t, alookup 7 (((World.new : World Nat).spawn).2.despawn ⟨0⟩).ecs_type_ids =
        some t →
      ((((World.new : World Nat).spawn).2.despawn ⟨0⟩).insertComponent 7 ⟨0⟩
        (0 : Nat)).2 =
          (((World.new : World Nat).spawn).2.despawn ⟨0⟩)) :=
  claim_C3
    (Relation.ReflTransGen.tail
      (Relation.ReflTransGen.tail Relation.ReflTransGen.refl (World.Step.spawn _))
      (World.Step.despawn _ ⟨0⟩))
    7 ⟨0⟩ 0 (by decide)

theorem QShape.conflictFree_tup2_left {x y : QShape}
    (h : (QShape.tup2 x y).ConflictFree) : x.ConflictFree := by
  obtain ⟨hnd, hdisj⟩ := h
  have hnd₂ : (x.writeTys ++ y.writeTys).Nodup := hnd
  have hdisj₂ : ∀ t ∈ x.writeTys ++ y.writeTys,
      t ∉ x.readTys ++ y.readTys := hdisj
  constructor
  · exact (List.nodup_append.mp hnd₂).1
  · intro t ht hrt
    exact hdisj₂ t (List.mem_append_left _ ht) (List.mem_append_left _ hrt)

theorem QShape.conflictFree_tup2_right {x y : QShape}
    (h : (QShape.tup2 x y).ConflictFree) : y.ConflictFree := by
  obtain ⟨hnd, hdisj⟩ := h
  have hnd₂ : (x.writeTys ++ y.writeTys).Nodup := hnd
  have hdisj₂ : ∀ t ∈ x.writeTys ++ y.writeTys,
      t ∉ x.readTys ++ y.readTys := hdisj
  constructor
  · exact (List.nodup_append.mp hnd₂).2.1
  · intro t ht hrt
    exact hdisj₂ t (List.mem_append_right _ ht) (List.mem_append_right _ hrt)

/-- Complete characterization of `get_access`: success yields exactly the
read/write `TypeId` sets of the shape's leaves and happens exactly on
conflict-free shapes; failure happens exactly on conflicting ones. -/
theorem getAccess_spec (q : QShape) :
    (∀ a, q.getAccess = .ok a → q.ConflictFree ∧
      a.read = q.readTys.toFinset ∧ a.write = q.writeTys.toFinset) ∧
    (q.getAccess = .error () → ¬ q.ConflictFree) := by
  induction q with
  | unitQ =>
    refine ⟨?_, ?_⟩
    · intro a h
      obtain rfl := Except.ok.inj h
      exact ⟨⟨List.nodup_nil, fun t ht => absurd ht (List.not_mem_nil t)⟩,
        by simp [Access.new, QShape.readTys], by simp [Access.new, QShape.writeTys]⟩
    · intro h
      exact Except.noConfusion h
  | entityQ =>
    refine ⟨?_, ?_⟩
    · intro a h
      obtain rfl := Except.ok.inj h
      exact ⟨⟨List.nodup_nil, fun t ht => absurd ht (List.not_mem_nil t)⟩,
        by simp [Access.new, QShape.readTys], by simp [Access.new, QShape.writeTys]⟩
    · intro h
      exact Except.noConfusion h
  | readT τ =>
    have hx : (QShape.readT τ).getAccess = .ok ⟨{τ}, ∅⟩ := by
      show Access.new.insertRead τ = _
      rw [Access.insertRead, if_neg (by simp [Access.new])]
      rfl
    refine ⟨?_, ?_⟩
    · intro a h
      rw [hx] at h
      obtain rfl := Except.ok.inj h
      exact ⟨⟨List.nodup_nil, fun t ht => absurd ht (List.not_mem_nil t)⟩,
        by simp [QShape.readTys], by simp [QShape.writeTys]⟩
    · intro h
      rw [hx] at h
      exact Except.noConfusion h
  | writeT τ =>
    have hx : (QShape.writeT τ).getAccess = .ok ⟨∅, {τ}⟩ := by
      show Access.new.insertWrite τ = _
      rw [Access.insertWrite, if_neg (by simp [Access.new])]
      rfl
    refine ⟨?_, ?_⟩
    · intro a h
      rw [hx] at h
      obtain rfl := Except.ok.inj h
      refine ⟨⟨List.nodup_singleton τ, ?_⟩, by simp [QShape.readTys],
        by simp [QShape.writeTys]⟩
      intro t ht
      exact List.not_mem_nil t
    · intro h
      rw [hx] at h
      exact Except.noConfusion h
  | maybeQ q ih =>
    exact ih
  | tup2 x y ihx ihy =>
    obtain ⟨ihxOk, ihxErr⟩ := ihx
    obtain ⟨ihyOk, ihyErr⟩ := ihy
    have hfl : (QShape.tup2 x y).getAccess =
        match Access.new.joinWith x.getAccess with
        | .error e => .error e
        | .ok a => a.joinWith y.getAccess := rfl
    cases hgx : x.getAccess with
    | error e =>
      cases e
      have hG : (QShape.tup2 x y).getAccess = .error () := by
        rw [hfl, hgx]
        rfl
      refine ⟨?_, ?_⟩
      · intro a h
        rw [hG] at h
        exact Except.noConfusion h
      · intro _ hCF
        exact ihxErr hgx (QShape.conflictFree_tup2_left hCF)
    | ok a₁ =>
      obtain ⟨hCFx, hrx, hwx⟩ := ihxOk a₁ hgx
      have hdx : a₁.read ∩ a₁.write = ∅ := by
        rw [Finset.eq_empty_iff_forall_not_mem]
        intro t ht
        rw [Finset.mem_inter, hrx, hwx, List.mem_toFinset, List.mem_toFinset] at ht
        exact hCFx.2 t ht.2 ht.1
      have hstep1 : Access.new.joinWith (Except.ok a₁) = Except.ok a₁ := by
        simp only [Access.joinWith, Access.new]
        rw [show (∅ : Finset Nat) ∩ a₁.write = ∅ from Finset.empty_inter _]
        rw [if_neg (by simp)]
        rw [show (∅ : Finset Nat) ∪ a₁.read = a₁.read from Finset.empty_union _]
        rw [show (∅ : Finset Nat) ∪ a₁.write = a₁.write from Finset.empty_union _]
        rw [hdx, if_neg (by simp)]
      cases hgy : y.getAccess with
      | error e =>
        cases e
        have hG : (QShape.tup2 x y).getAccess = .error () := by
          rw [hfl, hgx, hstep1, hgy]
          rfl
        refine ⟨?_, ?_⟩
        · intro a h
          rw [hG] at h
          exact Except.noConfusion h
        · intro _ hCF
          exact ihyErr hgy (QShape.conflictFree_tup2_right hCF)
      | ok b₁ =>
        obtain ⟨hCFy, hry, hwy⟩ := ihyOk b₁ hgy
        have hG : (QShape.tup2 x y).getAccess = Access.joinWith a₁ (.ok b₁) := by
          rw [hfl, hgx, hstep1, hgy]
        by_cases h1 : (a₁.write ∩ b₁.write).Nonempty
        · have hG₂ : (QShape.tup2 x y).getAccess = .error () := by
            rw [hG]
            show (if (a₁.write ∩ b₁.write).Nonempty then _ else _) = _
            rw [if_pos h1]
          refine ⟨?_, ?_⟩
          · intro a h
            rw [hG₂] at h
            exact Except.noConfusion h
          · intro _ hCF
            obtain ⟨t, ht⟩ := h1
            rw [Finset.mem_inter, hwx, hwy, List.mem_toFinset,
              List.mem_toFinset] at ht
            have hnd₂ : (x.writeTys ++ y.writeTys).Nodup := hCF.1
            have hdis := (List.nodup_append.mp hnd₂).2.2
            exact hdis ht.1 ht.2
        · by_cases h2 : ((a₁.read ∪ b₁.read) ∩ (a₁.write ∪ b₁.write)).Nonempty
          · have hG₂ : (QShape.tup2 x y).getAccess = .error () := by
              rw [hG]
              show (if (a₁.write ∩ b₁.write).Nonempty then _ else _) = _
              rw [if_neg h1]
              show (if ((a₁.read ∪ b₁.read) ∩ (a₁.write ∪ b₁.write)).Nonempty
                then _ else _) = _
              rw [if_pos h2]
            refine ⟨?_, ?_⟩
            · intro a h
              rw [hG₂] at h
              exact Except.noConfusion h
            · intro _ hCF
              obtain ⟨t, ht⟩ := h2
              rw [Finset.mem_inter, Finset.mem_union, Finset.mem_union,
                hrx, hry, hwx, hwy] at ht
              simp only [List.mem_toFinset] at ht
              have hw : t ∈ x.writeTys ++ y.writeTys := by
                rcases ht.2 with h | h
                · exact List.mem_append_left _ h
                · exact List.mem_append_right _ h
              have hrd : t ∈ x.readTys ++ y.readTys := by
                rcases ht.1 with h | h
                · exact List.mem_append_left _ h
                · exact List.mem_append_right _ h
              have hdisj₂ : ∀ t ∈ x.writeTys ++ y.writeTys,
                  t ∉ x.readTys ++ y.readTys := hCF.2
              exact hdisj₂ t hw hrd
          · have hG₂ : (QShape.tup2 x y).getAccess =
                .ok ⟨a₁.read ∪ b₁.read, a₁.write ∪ b₁.write⟩ := by
              rw [hG]
              show (if (a₁.write ∩ b₁.write).Nonempty then _ else _) = _
              rw [if_neg h1]
              show (if ((a₁.read ∪ b₁.read) ∩ (a₁.write ∪ b₁.write)).Nonempty
                then _ else _) = _
              rw [if_neg h2]
            have hCFt : (QShape.tup2 x y).ConflictFree := by
              refine ⟨?_, ?_⟩
              · show (x.writeTys ++ y.writeTys).Nodup
                rw [List.nodup_append]
                refine ⟨hCFx.1, hCFy.1, ?_⟩
                intro t htx hty
                apply h1
                refine ⟨t, ?_⟩
                rw [Finset.mem_inter, hwx, hwy, List.mem_toFinset,
                  List.mem_toFinset]
                exact ⟨htx, hty⟩
              · intro t htw htr
                apply h2
                refine ⟨t, ?_⟩
                rw [Finset.mem_inter, Finset.mem_union, Finset.mem_union,
                  hrx, hry, hwx, hwy]
                simp only [List.mem_toFinset]
                have htw₂ : t ∈ x.writeTys ++ y.writeTys := htw
                have htr₂ : t ∈ x.readTys ++ y.readTys := htr
                rw [List.mem_append] at htw₂ htr₂
                exact ⟨htr₂, htw₂⟩
            refine ⟨?_, ?_⟩
            · intro a h
              rw [hG₂] at h
              obtain rfl := Except.ok.inj h
              refine ⟨hCFt, ?_, ?_⟩
              · show a₁.read ∪ b₁.read = (x.readTys ++ y.readTys).toFinset
                rw [List.toFinset_append, hrx, hry]
              · show a₁.write ∪ b₁.write = (x.writeTys ++ y.writeTys).toFinset
                rw [List.toFinset_append, hwx, hwy]
            · intro h
              rw [hG₂] at h
              exact Except.noConfusion h

/-- C4: Access conflict rejection — assembling a query/system shape succeeds
exactly when no component type is mutably borrowed twice and no type is both
mutably and immutably borrowed; overlapping reads are accepted. The check is
performed by `get_access`/`Access::join_with` when the shape is composed, so a
conflicting shape is rejected before any row is produced. -/
theorem claim_C4 (q : QShape) :
    (∃ a, q.getAccess = .ok a) ↔ q.ConflictFree := by
  obtain ⟨hok, herr⟩ := getAccess_spec q
  constructor
  · rintro ⟨a, ha⟩
    exact (hok a ha).1
  · intro hCF
    cases h : q.getAccess with
    | ok a => exact ⟨a, rfl⟩
    | error e =>
      cases e
      exact absurd hCF (herr h)

/-- C5: Column-absence versus lock-conflict — a `&T`/`&mut T` query whose
`TypeId` was never registered, or whose column family was never created,
succeeds with no rows (`lock_from_world` yields `Ok(None)` and `QueryIter`
stops immediately), whereas a query over an existing column family whose
`RefCell` is exclusively held fails with `WorldBorrowError`; the two outcomes
are values of distinct `Result` constructors, hence always distinguished. -/
theorem claim_C5 {α : Type} (w : World α) (σ : Nat → RefState) (τ : Nat) :
    ((w.typeToEcsTypeId τ = none ∨
      ∃ tyId, w.typeToEcsTypeId τ = some tyId ∧ alookup tyId w.columns = none) →
      queryRunRef w σ τ = .ok [] ∧ queryRunMut w σ τ = .ok []) ∧
    (∀ tyId, w.typeToEcsTypeId τ = some tyId →
      (alookup tyId w.columns).isSome → σ tyId = .writing →
      queryRunRef w σ τ = .error ⟨τ⟩ ∧ queryRunMut w σ τ = .error ⟨τ⟩) := by
  constructor
  · intro h
    rcases h with h | ⟨tyId, hreg, hcol⟩
    · have h₂ : alookup τ w.ecs_type_ids = none := h
      exact ⟨by simp only [queryRunRef, lockFromWorldRef, h₂],
        by simp only [queryRunMut, lockFromWorldMut, h₂]⟩
    · have h₂ : alookup τ w.ecs_type_ids = some tyId := hreg
      exact ⟨by simp only [queryRunRef, lockFromWorldRef, h₂, hcol],
        by simp only [queryRunMut, lockFromWorldMut, h₂, hcol]⟩
  · intro tyId hreg hcol hσ
    have h₂ : alookup τ w.ecs_type_ids = some tyId := hreg
    obtain ⟨sts, hsts⟩ := Option.isSome_iff_exists.mp hcol
    exact ⟨by simp only [queryRunRef, lockFromWorldRef, h₂, hsts, hσ],
      by simp only [queryRunMut, lockFromWorldMut, h₂, hsts, hσ]⟩

/-- Every term of a join yields exactly one item per entity row of a matched
archetype. -/
theorem itemsOfArchetype_length {α : Type} {w : World α} (hinv : World.WInv w)
    {i : Nat} (hi : i < w.archetypes.length) :
    ∀ j : JTerm, j.archetypeMatches (w.getArch i) = true →
      (j.itemsOfArchetype w (w.getArch i)).length =
        (w.getArch i).entities.length := by
  intro j
  induction j with
  | withEntities =>
    intro _
    simp [JTerm.itemsOfArchetype]
  | readC tyId =>
    intro hm
    have hm₂ : (alookup tyId (w.getArch i).column_indices).isSome = true := hm
    obtain ⟨col, hcol⟩ := Option.isSome_iff_exists.mp hm₂
    simp only [JTerm.itemsOfArchetype, hcol, List.length_map]
    exact (hinv.aligned i hi tyId col (mem_of_alookup_some hcol)).2
  | writeC tyId =>
    intro hm
    have hm₂ : (alookup tyId (w.getArch i).column_indices).isSome = true := hm
    obtain ⟨col, hcol⟩ := Option.isSome_iff_exists.mp hm₂
    simp only [JTerm.itemsOfArchetype, hcol, List.length_map]
    exact (hinv.aligned i hi tyId col (mem_of_alookup_some hcol)).2
  | maybeJ j ih =>
    intro _
    cases hjm : j.archetypeMatches (w.getArch i) with
    | true =>
      simp only [JTerm.itemsOfArchetype, hjm, if_true, List.length_map]
      exact ih hjm
    | false =>
      simp [JTerm.itemsOfArchetype, hjm]
  | unsat j ih =>
    intro _
    simp [JTerm.itemsOfArchetype]
  | pair x y ihx ihy =>
    intro hm
    have hm₂ : (x.archetypeMatches (w.getArch i) &&
        y.archetypeMatches (w.getArch i)) = true := hm
    rw [Bool.and_eq_true] at hm₂
    simp only [JTerm.itemsOfArchetype, List.length_map, List.length_zip]
    rw [ihx hm₂.1, ihy hm₂.2, Nat.min_self]

/-- The row count of a join is the entity count of the matched archetypes. -/
theorem rows_length {α : Type} {w : World α} (hinv : World.WInv w) (j : JTerm) :
    (j.rows w).length =
      ((w.archetypes.filter (fun a => j.archetypeMatches a)).map
        (fun a => a.entities.length)).sum := by
  rw [JTerm.rows, List.length_flatten, List.map_map]
  apply congrArg List.sum
  apply List.map_congr_left
  intro a ha
  have hmem := (List.mem_filter.mp ha).1
  have hmatch := (List.mem_filter.mp ha).2
  obtain ⟨i, hi, hgi⟩ := List.getElem_of_mem hmem
  have hga : w.getArch i = a := by
    rw [getArch_eq_getElem hi, hgi]
  show (j.itemsOfArchetype w a).length = a.entities.length
  rw [← hga]
  exact itemsOfArchetype_length hinv hi j (by rw [hga]; exact hmatch)

/-- C6 (amended): row-count parity holds per matched archetype — each matched
archetype contributes exactly one row per entity, whatever the optional term
yields. For `Maybe<T>` the composed query matches exactly the archetypes the
mandatory term matches, so the row count equals the entity count of the
mandatory-matched archetypes regardless of `T`'s presence, as claimed. For
`Unsatisfied<T>`, however, the composed query matches only the
mandatory-matched archetypes in which `T` is absent (`archetype_matches`
inverts the inner term), so the row count is the entity count of those
archetypes only — not of all mandatory-matched archetypes. -/
theorem claim_C6 {α : Type} {w : World α} (hr : World.Reachable w)
    (j₁ j₂ : JTerm) :
    ((JTerm.pair j₁ (.maybeJ j₂)).rows w).length =
      ((w.archetypes.filter (fun a => j₁.archetypeMatches a)).map
        (fun a => a.entities.length)).sum ∧
    ((JTerm.pair j₁ (.unsat j₂)).rows w).length =
      ((w.archetypes.filter (fun a =>
          j₁.archetypeMatches a && !(j₂.archetypeMatches a))).map
        (fun a => a.entities.length)).sum := by
  have hinv := World.winv_reachable hr
  constructor
  · rw [rows_length hinv]
    apply congrArg List.sum
    apply congrArg (List.map _)
    apply List.filter_congr
    intro a _
    show (j₁.archetypeMatches a && true) = j₁.archetypeMatches a
    rw [Bool.and_true]
  · rw [rows_length hinv]
    apply congrArg List.sum
    apply congrArg (List.map _)
    apply List.filter_congr
    intro a _
    rfl

/-- C6 counterexample: in a store where the one live entity has component `0`,
the query `(WithEntities, Unsatisfied<component 0>)` yields no rows, while the
mandatory term `WithEntities` matches every archetype, whose entities number
one — so the yielded row count does not equal the entity count of the
archetypes matched by the mandatory term, contradicting the claimed
independence from `T`'s presence. -/
theorem claim_C6_counterexample :
    ¬ (((JTerm.pair .withEntities (.unsat (.readC 0))).rows
        ((((World.new : World Nat).spawn).2.insertComponent 0 ⟨0⟩ 42).2)).length =
      ((((((World.new : World Nat).spawn).2.insertComponent 0 ⟨0⟩ 42).2).archetypes.filter
          (fun a => JTerm.withEntities.archetypeMatches a)).map
        (fun a => a.entities.length)).sum) := by
  decide

theorem claim_C6_witness :
    ((JTerm.pair .withEntities (.maybeJ (.readC 0))).rows
        ((((World.new : World Nat).spawn).2.insertComponent 0 ⟨0⟩ 42).2)).length =
      ((((((World.new : World Nat).spawn).2.insertComponent 0 ⟨0⟩ 42).2).archetypes.filter
          (fun a => JTerm.withEntities.archetypeMatches a)).map
        (fun a => a.entities.length)).sum ∧
    ((JTerm.pair .withEntities (.unsat (.readC 0))).rows
        ((((World.new : World Nat).spawn).2.insertComponent 0 ⟨0⟩ 42).2)).length =
      ((((((World.new : World Nat).spawn).2.insertComponent 0 ⟨0⟩ 42).2).archetypes.filter
          (fun a => JTerm.withEntities.archetypeMatches a &&
            !((JTerm.readC 0).archetypeMatches a))).map
        (fun a => a.entities.length)).sum :=
  claim_C6
    (Relation.ReflTransGen.tail
      (Relation.ReflTransGen.tail Relation.ReflTransGen.refl (World.Step.spawn _))
      (World.Step.insert _ 0 ⟨0⟩ 42))
    .withEntities (.readC 0)

end SafeEcs
